import Mathlib

/-!
ToyLibCore: the application core (`toy::Application`).

A shallow embedding of `src/Engine/Core/Application.cpp`,
`src/Engine/Core/Application_Setting.cpp` and
`include/Engine/Core/Application.h`: the actor registry, the frame scheduler,
the window adapter, start-up and shutdown, followed by the properties of the
specification that were checked against it.

Conventions of the embedding

* `float` is IEEE-754 binary32.  A finite binary32 value is represented by the
  rational number it denotes, and every arithmetic operation rounds its exact
  result to the nearest binary32 value, ties to even (`F32.round`).  Infinities
  and NaN are not represented: no operation of the modelled code reaches the
  binary32 overflow threshold on the inputs considered.
* `int` is `Int`, `Uint64` is `Nat` with explicit reduction modulo `2 ^ 64`.
  `static_cast<int>` of a `float` is truncation toward zero; C++ leaves it
  undefined when the truncated value does not fit an `int`.
* An `Actor*` is an address (a natural number); the actor objects live in a heap
  (`Application.heap`) that maps an address to the lifecycle state stored there.
* Calls that leave the class (renderer, SDL window, subsystems, virtual hooks)
  are recorded, in order, in `Application.calls`.  What comes back from outside
  (clock readings, SDL events, the answers of SDL queries, key states, the
  registry calls a hook makes) is an argument of the function that consumes it.
* A function whose C++ behaviour can be undefined returns an `Option`, `none`
  standing for the undefined behaviour (`ProcessInput`, when a hook appends to
  the vector the loop iterates).
-/

namespace toy

/-! ## binary32 arithmetic -/

/-- A finite binary32 value, represented by the rational it denotes. -/
abbrev F32 := ℚ

namespace F32

/-- Rounding of a rational to the nearest integer, ties to the even one. -/
def roundHalfEven (q : ℚ) : ℤ :=
  let f := ⌊q⌋
  if q - f < 1 / 2 then f
  else if 1 / 2 < q - f then f + 1
  else if f % 2 = 0 then f else f + 1

/-- Exponent of the unit in the last place of the binary32 binade that holds
`q`: 24 significant bits for normal numbers, `2 ^ (-149)` for subnormals. -/
def ulpExp (q : ℚ) : ℤ := max (Int.log 2 |q| - 23) (-149)

/-- Round to nearest binary32, ties to even. -/
def round (q : ℚ) : F32 := roundHalfEven (q / 2 ^ ulpExp q) * 2 ^ ulpExp q

/-- Conversion `static_cast<float>(n)` of an integer. -/
def ofInt (n : ℤ) : F32 := round n

/-- Binary32 multiplication. -/
def mul (a b : F32) : F32 := round (a * b)

/-- Binary32 division. -/
def div (a b : F32) : F32 := round (a / b)

/-- Binary32 addition. -/
def add (a b : F32) : F32 := round (a + b)

/-- Conversion `static_cast<int>(x)`: truncation toward zero. -/
def toInt (x : F32) : ℤ := if 0 ≤ x then ⌊x⌋ else ⌈x⌉

end F32

/-! ## Data model -/

/-- Modelled from the spec: the lifecycle state of an `Actor`
(`Engine/Core/Actor.h` is not among the sources; the code only names
`Actor::EDead`).  State ∈ {Active, Paused, Dead}. -/
inductive ActorState where
  | EActive
  | EPaused
  | EDead
  deriving DecidableEq, Repr

/-- Calls that leave `Application`, in the order they are made. -/
inductive Call where
  | TimeOfDayUpdate (deltaTime : F32)
  | UpdateGame (deltaTime : F32)
  | PhysTest
  | ActorUpdate (actor : ℕ) (deltaTime : F32)
  | ActorProcessInput (actor : ℕ)
  | ComputeWorldTransform (actor : ℕ)
  | SoundMixerUpdate (deltaTime : F32)
  | OnWindowResized (pixelW pixelH : ℤ)
  | SDL_SetWindowSize (w h : ℤ)
  | SDL_SetWindowPositionCentered
  | SDL_SetWindowFullscreen (enable : Bool)
  | RendererDraw
  | SDL_Init
  | TTF_Init
  | SDL_CreateWindow (title : String) (w h : ℤ)
  | RendererInitialize
  | InputInitialize
  | LoadButtonConfig
  | InitGame
  | ShutdownGame
  | RendererUnloadData
  | AssetUnloadData
  | InputShutdown
  | RendererShutdown
  | SDL_DestroyWindow (window : ℕ)
  | TTF_Quit
  | SDL_Quit
  deriving DecidableEq

/-- The members of `toy::Application` (Application.h, lines 80-120), the heap
of actor objects and the record of outgoing calls.  An `Actor*` and an
`SDL_WindowID` are natural numbers; `heapNext` is the address the next
`make_unique` returns, so addresses are handed out in allocation order and a
smaller address is an earlier creation. -/
structure Application where
  mApplicationTitle : String
  mIsFullScreen : Bool
  mScreenWidth : ℤ
  mScreenHeight : ℤ
  mWindow : Option ℕ
  mWindowedWidth : ℤ
  mWindowedHeight : ℤ
  mIsActive : Bool
  mIsPause : Bool
  mTicksCount : ℕ
  mTargetAspect : F32
  mLockAspect : Bool
  mIsAdjustingSize : Bool
  mActors : List ℕ
  mPendingActors : List ℕ
  mIsUpdatingActors : Bool
  heap : ℕ → ActorState
  heapNext : ℕ
  calls : List Call

/-- The part of the `InputState` returned by `InputSystem::GetState` that the
core reads: whether Escape was just released and whether Space is held. -/
structure InputState where
  escapeReleased : Bool
  spaceHeld : Bool

/-- A registry call issued by application code (a virtual hook). -/
inductive Cmd where
  | Create (initial : ActorState)
  | Destroy (actor : Option ℕ)

/-- The virtual hooks: what `UpdateGame`, each actor's `Update` /
`ProcessInput`, `InitGame` and `ShutdownGame` do to the registry, as a function
of the state they observe.  The last three default to the empty bodies of
Application.h and of an actor without input handling. -/
structure Hooks where
  UpdateGame : F32 → Application → List Cmd
  ActorUpdate : ℕ → F32 → Application → List Cmd
  ActorProcessInput : ℕ → InputState → Application → List Cmd := fun _ _ _ => []
  InitGame : Application → List Cmd := fun _ => []
  ShutdownGame : Application → List Cmd := fun _ => []

/-- Record an outgoing call. -/
def Application.call (app : Application) (c : Call) : Application :=
  { app with calls := app.calls ++ [c] }

/-! ## Actor registry (Application.cpp, lines 313-331) -/

/-- `Application::AddActor`. -/
def AddActor (app : Application) (actor : ℕ) : Application :=
  if app.mIsUpdatingActors then
    { app with mPendingActors := app.mPendingActors ++ [actor] }
  else
    { app with mActors := app.mActors ++ [actor] }

/-- `Application::CreateActor<T>`: `make_unique` allocates the object (its
constructor leaves it in state `initial`), then `AddActor`; the raw pointer is
returned. -/
def CreateActor (app : Application) (initial : ActorState) : Application × ℕ :=
  let rawPtr := app.heapNext
  let app := { app with heap := Function.update app.heap rawPtr initial
                        heapNext := rawPtr + 1 }
  (AddActor app rawPtr, rawPtr)

/-- `Actor::SetState`, a write into the actor object. -/
def SetState (app : Application) (actor : ℕ) (st : ActorState) : Application :=
  { app with heap := Function.update app.heap actor st }

/-- `Actor::GetState`. -/
def GetState (app : Application) (actor : ℕ) : ActorState := app.heap actor

/-- `Application::DestroyActor`; `none` is the null pointer. -/
def DestroyActor (app : Application) (actor : Option ℕ) : Application :=
  match actor with
  | some a => SetState app a ActorState.EDead
  | none => app

/-- Execute one registry call. -/
def runCmd (app : Application) : Cmd → Application
  | Cmd.Create initial => (CreateActor app initial).1
  | Cmd.Destroy actor => DestroyActor app actor

/-- Execute the registry calls of a hook, in order. -/
def runCmds (app : Application) (cmds : List Cmd) : Application :=
  cmds.foldl runCmd app

/-! ## Frame scheduler and update (Application.cpp, lines 362-420) -/

/-- Unsigned 64-bit subtraction `now - mTicksCount`. -/
def elapsedNS (now mTicksCount : ℕ) : ℕ :=
  (now % 2 ^ 64 + 2 ^ 64 - mTicksCount % 2 ^ 64) % 2 ^ 64

/-- `frameDurationNS`. -/
def frameDurationNS : ℕ := 16000000

/-- The pacing loop (lines 366-372).  `clock` lists the successive readings of
`SDL_GetTicksNS`; the result is the reading on which the loop exits, `none`
when the listed readings end before the loop does. -/
def waitLoop (mTicksCount : ℕ) : List ℕ → Option ℕ
  | [] => none
  | now :: later =>
    if elapsedNS now mTicksCount < frameDurationNS then waitLoop mTicksCount later
    else some now

/-- The literal `0.05f`. -/
def maxDeltaTime : F32 := F32.round (1 / 20)

/-- The delta time of lines 374-378. -/
def computeDeltaTime (now mTicksCount : ℕ) : F32 :=
  let deltaTime := F32.div (F32.ofInt (elapsedNS now mTicksCount)) (F32.round 1000000000)
  if deltaTime > maxDeltaTime then maxDeltaTime else deltaTime

/-- One iteration of the loop of lines 390-393: `a->Update(deltaTime)`. -/
def updateActor (hooks : Hooks) (deltaTime : F32) (app : Application) (a : ℕ) :
    Application :=
  let app := app.call (Call.ActorUpdate a deltaTime)
  runCmds app (hooks.ActorUpdate a deltaTime app)

/-- Lines 389-394: the update pass over `mActors`. -/
def UpdateActors (hooks : Hooks) (deltaTime : F32) (app : Application) : Application :=
  let app := { app with mIsUpdatingActors := true }
  let app := app.mActors.foldl (updateActor hooks deltaTime) app
  { app with mIsUpdatingActors := false }

/-- One iteration of the loop of lines 396-400. -/
def movePending (app : Application) (p : ℕ) : Application :=
  let app := app.call (Call.ComputeWorldTransform p)
  { app with mActors := app.mActors ++ [p] }

/-- Lines 396-413: pending actors are moved to `mActors`, `mPendingActors` is
cleared, dead actors are erased. -/
def Reconcile (app : Application) : Application :=
  let app := app.mPendingActors.foldl movePending app
  let app := { app with mPendingActors := [] }
  { app with mActors := app.mActors.filter (fun actor => GetState app actor != ActorState.EDead) }

/-- Lines 385-394: everything of a non-paused frame up to the end of the
update pass. -/
def updatePhase (hooks : Hooks) (deltaTime : F32) (app : Application) : Application :=
  let app := app.call (Call.TimeOfDayUpdate deltaTime)
  let app := app.call (Call.UpdateGame deltaTime)
  let app := runCmds app (hooks.UpdateGame deltaTime app)
  let app := app.call Call.PhysTest
  UpdateActors hooks deltaTime app

/-- `Application::UpdateFrame`.  `mSoundMixer` is created by the constructor and
never reset, so the test of line 415 succeeds. -/
def UpdateFrame (hooks : Hooks) (clock : List ℕ) (app : Application) : Option Application :=
  match waitLoop app.mTicksCount clock with
  | none => none
  | some now =>
    let deltaTime := computeDeltaTime now app.mTicksCount
    let app := { app with mTicksCount := now }
    if app.mIsPause then some app
    else
      let app := updatePhase hooks deltaTime app
      let app := Reconcile app
      some (app.call (Call.SoundMixerUpdate deltaTime))

/-- The state at the end of the update pass of a non-paused frame (line 394),
`none` when the frame is paused or the pacing loop has not exited. -/
def endOfUpdatePass (hooks : Hooks) (clock : List ℕ) (app : Application) :
    Option Application :=
  match waitLoop app.mTicksCount clock with
  | none => none
  | some now =>
    if app.mIsPause then none
    else some (updatePhase hooks (computeDeltaTime now app.mTicksCount)
      { app with mTicksCount := now })

/-! ## Window adapter (Application.cpp, lines 187-306 and 438-506) -/

/-- The scancodes the core looks at. -/
inductive Scancode where
  | RETURN
  | KP_ENTER
  | OTHER
  deriving DecidableEq

/-- The SDL events of the switch in `ProcessInput`. -/
inductive Event where
  | QUIT
  | KEY_DOWN (scancode : Scancode) (altHeld : Bool)
  | WINDOW_PIXEL_SIZE_CHANGED (windowID : ℕ)
  | WINDOW_RESIZED (windowID : ℕ) (data1 data2 : ℤ)
  | OTHER

/-- What the SDL window answers while one event or command is handled: the
logical size, the pixel size on the first and on the second query, and whether
the fullscreen request succeeds. -/
structure SDL where
  GetWindowSize : ℤ × ℤ
  GetWindowSizeInPixels : ℤ × ℤ
  GetWindowSizeInPixelsAgain : ℤ × ℤ
  SetWindowFullscreen : Bool

/-- `SDL_GetWindowID`: 0 for the null window. -/
def SDL_GetWindowID (mWindow : Option ℕ) : ℕ := mWindow.getD 0

/-- `Application::HandleWindowResized`; `pixel` is the answer of
`SDL_GetWindowSizeInPixels`.  `mRenderer` is created by the constructor and
never reset. -/
def HandleWindowResized (pixel : ℤ × ℤ) (app : Application) : Application :=
  match app.mWindow with
  | none => app
  | some _ =>
    let app := { app with mScreenWidth := pixel.1, mScreenHeight := pixel.2 }
    app.call (Call.OnWindowResized pixel.1 pixel.2)

/-- `Application::SetFullscreen`. -/
def SetFullscreen (sdl : SDL) (enable : Bool) (app : Application) : Application :=
  match app.mWindow with
  | none => app
  | some _ =>
    if app.mIsFullScreen = enable then app
    else
      let app :=
        if enable then
          { app with mWindowedWidth := sdl.GetWindowSize.1
                     mWindowedHeight := sdl.GetWindowSize.2 }
        else app
      let app := app.call (Call.SDL_SetWindowFullscreen enable)
      if !sdl.SetWindowFullscreen then app
      else
        let app := { app with mIsFullScreen := enable }
        let app := HandleWindowResized sdl.GetWindowSizeInPixels app
        if !enable then
          if 0 < app.mWindowedWidth ∧ 0 < app.mWindowedHeight then
            let app := app.call (Call.SDL_SetWindowSize app.mWindowedWidth app.mWindowedHeight)
            let app := app.call Call.SDL_SetWindowPositionCentered
            HandleWindowResized sdl.GetWindowSizeInPixelsAgain app
          else app
        else app

/-- `Application::ToggleFullscreen`. -/
def ToggleFullscreen (sdl : SDL) (app : Application) : Application :=
  SetFullscreen sdl (!app.mIsFullScreen) app

/-- Lines 247-263: the aspect-corrected size `(newW, newH)` for a requested
size `(w, h)`. -/
def correctedSize (mTargetAspect : F32) (w h : ℤ) : ℤ × ℤ :=
  let aspect := F32.div (F32.ofInt w) (F32.ofInt h)
  if aspect > mTargetAspect then
    (F32.toInt (F32.add (F32.mul (F32.ofInt h) mTargetAspect) (1 / 2)), h)
  else if aspect < mTargetAspect then
    (w, F32.toInt (F32.add (F32.div (F32.ofInt w) mTargetAspect) (1 / 2)))
  else (w, h)

/-- The case `SDL_EVENT_WINDOW_RESIZED` (lines 227-277). -/
def onWindowResizedEvent (sdl : SDL) (windowID : ℕ) (w h : ℤ)
    (app : Application) : Application :=
  if app.mWindow = none then app
  else if windowID ≠ SDL_GetWindowID app.mWindow then app
  else if !app.mLockAspect then app
  else if app.mIsFullScreen then app
  else if w ≤ 0 ∨ h ≤ 0 then app
  else if app.mIsAdjustingSize then
    let app := HandleWindowResized sdl.GetWindowSizeInPixels app
    { app with mIsAdjustingSize := false }
  else
    let new := correctedSize app.mTargetAspect w h
    if new.1 = w ∧ new.2 = h then
      HandleWindowResized sdl.GetWindowSizeInPixels app
    else
      let app := { app with mIsAdjustingSize := true }
      app.call (Call.SDL_SetWindowSize new.1 new.2)

/-- The body of the event loop (lines 194-282) for one polled event. -/
def handleEvent (app : Application) (ev : Event × SDL) : Application :=
  match ev.1 with
  | Event.QUIT => { app with mIsActive := false }
  | Event.KEY_DOWN scancode altHeld =>
    if (scancode = Scancode.RETURN ∨ scancode = Scancode.KP_ENTER) ∧ altHeld then
      ToggleFullscreen ev.2 app
    else app
  | Event.WINDOW_PIXEL_SIZE_CHANGED windowID =>
    if windowID = SDL_GetWindowID app.mWindow then
      HandleWindowResized ev.2.GetWindowSizeInPixels app
    else app
  | Event.WINDOW_RESIZED windowID data1 data2 =>
    onWindowResizedEvent ev.2 windowID data1 data2 app
  | Event.OTHER => app

/-- What one call of `ProcessInput` receives from outside: the polled events
(each with the answers of the SDL window while it is handled) and the two key
states read from the input system. -/
structure Input where
  events : List (Event × SDL)
  state : InputState

/-- One iteration of the loop of lines 302-305: `actor->ProcessInput(state)`.
The loop is a range-for over `mActors` itself, and `mIsUpdatingActors` is not
set around it.  A hook that appends to `mActors` (through `AddActor`, line 321)
invalidates the iterators the loop goes on to use: the behaviour is undefined,
`none`. -/
def processInputActor (hooks : Hooks) (state : InputState) (app : Application)
    (actor : ℕ) : Option Application :=
  let app := app.call (Call.ActorProcessInput actor)
  let after := runCmds app (hooks.ActorProcessInput actor state app)
  if after.mActors = app.mActors then some after else none

/-- The loop of lines 302-305 over the actors it has still to visit; it stops
being defined at the first hook that appends to `mActors`. -/
def processInputActors (hooks : Hooks) (state : InputState) :
    List ℕ → Application → Option Application
  | [], app => some app
  | actor :: later, app =>
    match processInputActor hooks state app actor with
    | none => none
    | some app => processInputActors hooks state later app

/-- `Application::ProcessInput`; `none` when the behaviour of the loop of lines
302-305 is undefined.  The calls into the input system (`PrepareForUpdate`,
`Update`, `GetState`) only produce the key states of `input`. -/
def ProcessInput (hooks : Hooks) (input : Input) (app : Application) : Option Application :=
  let app := input.events.foldl handleEvent app
  let app := if input.state.escapeReleased then { app with mIsActive := false } else app
  let app := { app with mIsPause := input.state.spaceHeld }
  processInputActors hooks input.state app.mActors app

/-! ## Lifecycle (Application.cpp, lines 21-35 and 149-157) -/

/-- The constructor `Application::Application`: no actor exists yet. -/
def Application.new : Application where
  mApplicationTitle := ""
  mIsActive := false
  mIsUpdatingActors := false
  mIsPause := false
  mScreenWidth := 1600
  mScreenHeight := 900
  mWindowedWidth := 1280
  mWindowedHeight := 768
  mIsFullScreen := false
  mWindow := none
  mTicksCount := 0
  mTargetAspect := F32.div (F32.round 16) (F32.round 9)
  mLockAspect := true
  mIsAdjustingSize := false
  mActors := []
  mPendingActors := []
  heap := fun _ => ActorState.EActive
  heapNext := 0
  calls := []

/-- What one iteration of the main loop receives from outside. -/
structure Frame where
  input : Input
  clock : List ℕ

/-- The body of the loop of `RunLoop`: `ProcessInput(); UpdateFrame(); Draw();`.
It is `none` when the behaviour of `ProcessInput` is undefined or the pacing
loop does not exit on the listed clock readings. -/
def runFrame (hooks : Hooks) (frame : Frame) (app : Application) : Option Application :=
  match ProcessInput hooks frame.input app with
  | none => none
  | some app =>
    match UpdateFrame hooks frame.clock app with
    | none => none
    | some app => some (app.call Call.RendererDraw)

/-- `Application::RunLoop` over the listed frames: the state when the loop exits,
or when the listed frames are used up; `none` when a frame is `none` (undefined
behaviour in `ProcessInput`, or a pacing loop that does not exit on the listed
clock readings). -/
def RunLoop (hooks : Hooks) : List Frame → Application → Option Application
  | [], app => some app
  | frame :: later, app =>
    if app.mIsActive then
      match runFrame hooks frame app with
      | none => none
      | some app => RunLoop hooks later app
    else some app

/-! ## Settings, start-up and shutdown (Application_Setting.cpp; Application.cpp, lines 54-180 and 338-350) -/

/-- What `LoadSettings` finds at the settings path.  For a file that parses,
`title`, `screen_width` and `screen_height` are the values that
`JsonHelper::GetString` / `JsonHelper::GetInt` store into their output argument
(`none` when they store nothing; Utils/JsonHelper.h is not among the sources),
and `screen` is `none` when the document has no key "screen". -/
inductive SettingsFile where
  | absent
  | malformed
  | json (title : Option String) (screen : Option (Option ℤ × Option ℤ))

/-- `Application::LoadSettings`: the returned flag and the state. -/
def LoadSettings (file : SettingsFile) (app : Application) : Bool × Application :=
  match file with
  | SettingsFile.absent => (false, app)
  | SettingsFile.malformed => (false, app)
  | SettingsFile.json title screen =>
    let app := match title with
      | some s => { app with mApplicationTitle := s }
      | none => app
    let app := match screen with
      | some (screen_width, screen_height) =>
        let app := match screen_width with
          | some n => { app with mScreenWidth := n }
          | none => app
        match screen_height with
          | some n => { app with mScreenHeight := n }
          | none => app
      | none => app
    (true, app)

/-- What the outside answers during `Initialize`: the results of `SDL_Init` and
`TTF_Init`, the settings file, the content scale of the primary display (`none`
when there is no primary display), the window handle returned by
`SDL_CreateWindow` (`none` is null), the result of `Renderer::Initialize`, the
pixel and logical size of the new window, the answers of the window during a
start-up fullscreen switch, and the clock. -/
structure InitEnv where
  SDL_Init : Bool
  TTF_Init : Bool
  settings : SettingsFile
  SDL_GetDisplayContentScale : Option F32
  SDL_CreateWindow : Option ℕ
  RendererInitialize : Bool
  SDL_GetWindowSizeInPixels : ℤ × ℤ
  SDL_GetWindowSize : ℤ × ℤ
  fullscreen : SDL
  SDL_GetTicksNS : ℕ

/-- Lines 70-76: the settings are loaded (the flag returned by `LoadSettings`
is not looked at), a non-positive screen size is replaced, and the logical
window size at start-up is the screen size. -/
def applySettings (file : SettingsFile) (app : Application) : Application :=
  let app := (LoadSettings file app).2
  let app := if app.mScreenWidth ≤ 0 then { app with mScreenWidth := 1280 } else app
  let app := if app.mScreenHeight ≤ 0 then { app with mScreenHeight := 720 } else app
  { app with mWindowedWidth := app.mScreenWidth
             mWindowedHeight := app.mScreenHeight }

/-- Lines 78-87: the DPI scale applied to the logical window size. -/
def contentScale (env : InitEnv) : F32 :=
  match env.SDL_GetDisplayContentScale with
  | some s => if s > 0 then s else 1
  | none => 1

/-- Lines 89-99: the window is created with the scaled logical size. -/
def createWindow (env : InitEnv) (app : Application) : Application :=
  let windowW := F32.toInt (F32.mul (F32.ofInt app.mWindowedWidth) (contentScale env))
  let windowH := F32.toInt (F32.mul (F32.ofInt app.mWindowedHeight) (contentScale env))
  let app := app.call (Call.SDL_CreateWindow app.mApplicationTitle windowW windowH)
  { app with mWindow := env.SDL_CreateWindow }

/-- Lines 118-137: the renderer is told the pixel size, the target aspect is
taken from the logical size of the window, the input system is initialised and
a start-up fullscreen switch is requested. -/
def prepareWindow (env : InitEnv) (app : Application) : Application :=
  let app := HandleWindowResized env.SDL_GetWindowSizeInPixels app
  let w := env.SDL_GetWindowSize.1
  let h := env.SDL_GetWindowSize.2
  let app :=
    if 0 < w ∧ 0 < h then
      { app with mTargetAspect := F32.div (F32.ofInt w) (F32.ofInt h) }
    else app
  let app := app.call Call.InputInitialize
  let app := app.call Call.LoadButtonConfig
  if app.mIsFullScreen then SetFullscreen env.fullscreen app.mIsFullScreen app else app

/-- `Application::Initialize`: the returned flag and the state.  `LoadData` has
an empty body. -/
def Initialize (hooks : Hooks) (env : InitEnv) (app : Application) : Bool × Application :=
  let app := app.call Call.SDL_Init
  if !env.SDL_Init then (false, app)
  else
    let app := app.call Call.TTF_Init
    if !env.TTF_Init then (false, app)
    else
      let app := applySettings env.settings app
      let app := createWindow env app
      if app.mWindow = none then (false, app)
      else
        let app := app.call Call.SDL_SetWindowPositionCentered
        let app := app.call Call.RendererInitialize
        if !env.RendererInitialize then (false, app)
        else
          let app := prepareWindow env app
          let app := app.call Call.InitGame
          let app := runCmds app (hooks.InitGame app)
          (true, { app with mIsActive := true
                            mIsPause := false
                            mTicksCount := env.SDL_GetTicksNS })

/-- `Application::UnloadData`; `mRenderer` and `mAssetManager` are created by
the constructor and never reset. -/
def UnloadData (app : Application) : Application :=
  let app := { app with mActors := [] }
  let app := app.call Call.RendererUnloadData
  app.call Call.AssetUnloadData

/-- `Application::Shutdown`. -/
def Shutdown (hooks : Hooks) (app : Application) : Application :=
  let app := app.call Call.ShutdownGame
  let app := runCmds app (hooks.ShutdownGame app)
  let app := UnloadData app
  let app := app.call Call.InputShutdown
  let app := app.call Call.RendererShutdown
  let app :=
    match app.mWindow with
    | some window => { app.call (Call.SDL_DestroyWindow window) with mWindow := none }
    | none => app
  let app := app.call Call.TTF_Quit
  app.call Call.SDL_Quit

/-! ## Concrete inputs used by the witnesses -/

/-- Hooks of a small game: the update hook of actor 0 creates an actor and
destroys actor 1; nothing else touches the registry. -/
def demoHooks : Hooks where
  UpdateGame := fun _ _ => []
  ActorUpdate := fun a _ _ =>
    if a = 0 then [Cmd.Create ActorState.EActive, Cmd.Destroy (some 1)] else []

/-- The constructed application after two `CreateActor` calls and with a
window: actors 0 and 1 are live. -/
def demoApp : Application :=
  { (CreateActor (CreateActor Application.new ActorState.EActive).1 ActorState.EActive).1 with
    mWindow := some 1 }

/-! ## Vocabulary of the properties -/

/-- The actors whose update hook is invoked by the listed calls, in order. -/
def updatedActors (calls : List Call) : List ℕ :=
  calls.filterMap (fun c => match c with
    | Call.ActorUpdate a _ => some a
    | _ => none)

/-- The registry between two update passes, in creation order: no update pass
is running, nothing is pending, `mActors` is strictly increasing (an actor
created earlier has the smaller address) and holds allocated addresses only. -/
def CreationOrdered (app : Application) : Prop :=
  app.mIsUpdatingActors = false ∧ app.mPendingActors = [] ∧
  app.mActors.Pairwise (· < ·) ∧ ∀ a ∈ app.mActors, a < app.heapNext

/-- The calls of `app'` are those of `app` followed by calls none of which is
an actor update. -/
def QuietExtension (app app' : Application) : Prop :=
  ∃ added, app'.calls = app.calls ++ added ∧ updatedActors added = []

/-- A frame without events or held keys whose clock reaches the interval. -/
def demoFrame : Frame where
  input := { events := [], state := { escapeReleased := false, spaceHeld := false } }
  clock := [16000000]

/-- The demo application once the loop is active. -/
def demoStart : Application := { demoApp with mIsActive := true }

/-- The demo application after one frame of the loop. -/
def demoMid : Application := (RunLoop demoHooks [demoFrame] demoStart).getD demoStart

/-- The aspect correction as the specification words it, in exact rational
arithmetic: `round x` is `⌊x + 1/2⌋`. -/
def correctedSizeExact (t : ℚ) (w h : ℤ) : ℤ × ℤ :=
  if (w : ℚ) / h > t then (⌊(h : ℚ) * t + 1 / 2⌋, h)
  else if (w : ℚ) / h < t then (w, ⌊(w : ℚ) / t + 1 / 2⌋)
  else (w, h)

/-- The binary32 value of `16.0f / 9.0f`. -/
def aspect16by9 : F32 := 14913081 / 8388608

/-- Answers of an SDL window whose pixel size is 1920 x 1080. -/
def demoSDL : SDL where
  GetWindowSize := (1280, 768)
  GetWindowSizeInPixels := (1920, 1080)
  GetWindowSizeInPixelsAgain := (1280, 768)
  SetWindowFullscreen := true

/-! ## Vocabulary and inputs of the window, start-up and shutdown properties -/

/-- One thing that happens to the window adapter: a polled event (with the
answers of the SDL window while it is handled), or a call of the public
`SetFullscreen` or `ToggleFullscreen`. -/
inductive WindowStep where
  | event (ev : Event × SDL)
  | SetFullscreen (sdl : SDL) (enable : Bool)
  | ToggleFullscreen (sdl : SDL)

/-- The window adapter takes one step. -/
def windowStep (app : Application) : WindowStep → Application
  | WindowStep.event ev => handleEvent app ev
  | WindowStep.SetFullscreen sdl enable => SetFullscreen sdl enable app
  | WindowStep.ToggleFullscreen sdl => ToggleFullscreen sdl app

/-- The step is a logical-resize notification that gets past the tests of
lines 229-236: it is for the window of the application, its size is positive,
and it arrives while windowed with the aspect lock on. -/
def Handled (app : Application) : WindowStep → Prop
  | WindowStep.event (Event.WINDOW_RESIZED windowID w h, _) =>
    app.mWindow ≠ none ∧ windowID = SDL_GetWindowID app.mWindow ∧
      app.mLockAspect = true ∧ app.mIsFullScreen = false ∧ 0 < w ∧ 0 < h
  | _ => False

/-- None of the steps is a handled resize notification in the state in which
it arrives. -/
def NoneHandled : Application → List WindowStep → Prop
  | _, [] => True
  | app, step :: later => ¬ Handled app step ∧ NoneHandled (windowStep app step) later

/-- Whether a step is a handled resize notification is decided by evaluating
the tests. -/
instance Handled.decidable (app : Application) (step : WindowStep) :
    Decidable (Handled app step) := by
  unfold Handled
  split <;> infer_instance

/-- `NoneHandled` is decided step by step. -/
instance NoneHandled.decidable :
    (app : Application) → (steps : List WindowStep) → Decidable (NoneHandled app steps)
  | _, [] => isTrue trivial
  | app, step :: later =>
    @instDecidableAnd _ _ _ (NoneHandled.decidable (windowStep app step) later)

/-- The registry at a frame boundary: no update pass is running and nothing is
pending. -/
def FrameBoundary (app : Application) : Prop :=
  app.mIsUpdatingActors = false ∧ app.mPendingActors = []

/-- Between `app` and `app'` the active flag is not touched and `InitGame` is
not called. -/
def BeforeInitGame (app app' : Application) : Prop :=
  app'.mIsActive = app.mIsActive ∧
  ∃ added, app'.calls = app.calls ++ added ∧ Call.InitGame ∉ added

/-- An environment in which start-up succeeds without a settings file: the
window has id 1, logical size 1600 x 900 and pixel size 3200 x 1800. -/
def demoEnv : InitEnv where
  SDL_Init := true
  TTF_Init := true
  settings := SettingsFile.absent
  SDL_GetDisplayContentScale := none
  SDL_CreateWindow := some 1
  RendererInitialize := true
  SDL_GetWindowSizeInPixels := (3200, 1800)
  SDL_GetWindowSize := (1600, 900)
  fullscreen := demoSDL
  SDL_GetTicksNS := 0

/-- Hooks of a game whose `ShutdownGame` creates an actor. -/
def lateHooks : Hooks where
  UpdateGame := fun _ _ => []
  ActorUpdate := fun _ _ _ => []
  ShutdownGame := fun _ => [Cmd.Create ActorState.EActive]

/-- Hooks of a game in which the input hook of actor 0 creates an actor. -/
def spawnHooks : Hooks where
  UpdateGame := fun _ _ => []
  ActorUpdate := fun _ _ _ => []
  ActorProcessInput := fun a _ _ => if a = 0 then [Cmd.Create ActorState.EActive] else []

/-- The demo application while paused. -/
def demoPaused : Application := { demoApp with mIsPause := true }

/-- The demo application after it has answered a resize to 1000 x 500 by a
resize command to 889 x 500. -/
def demoAdjusting : Application :=
  ({ demoApp with mIsAdjustingSize := true }).call (Call.SDL_SetWindowSize 889 500)

/-- While the correction is outstanding the user switches to fullscreen with
Alt+Enter, the window reports its fullscreen size and pixel size, and the user
switches back. -/
def demoDetour : List WindowStep :=
  [WindowStep.event (Event.KEY_DOWN Scancode.RETURN true, demoSDL),
   WindowStep.event (Event.WINDOW_RESIZED 1 1920 1080, demoSDL),
   WindowStep.event (Event.WINDOW_PIXEL_SIZE_CHANGED 1, demoSDL),
   WindowStep.ToggleFullscreen demoSDL]

/-! # Properties -/

/-! ## Lemmas -/

@[simp] theorem call_mActors (app : Application) (c : Call) :
    (app.call c).mActors = app.mActors := rfl

@[simp] theorem call_mPendingActors (app : Application) (c : Call) :
    (app.call c).mPendingActors = app.mPendingActors := rfl

@[simp] theorem call_heap (app : Application) (c : Call) :
    (app.call c).heap = app.heap := rfl

@[simp] theorem call_calls (app : Application) (c : Call) :
    (app.call c).calls = app.calls ++ [c] := rfl

theorem foldl_movePending (pending : List ℕ) (app : Application) :
    (pending.foldl movePending app).mActors = app.mActors ++ pending ∧
    (pending.foldl movePending app).heap = app.heap ∧
    (pending.foldl movePending app).calls =
      app.calls ++ pending.map Call.ComputeWorldTransform ∧
    (pending.foldl movePending app).mIsUpdatingActors = app.mIsUpdatingActors ∧
    (pending.foldl movePending app).heapNext = app.heapNext := by
  induction pending generalizing app with
  | nil => simp
  | cons p ps ih =>
    obtain ⟨h1, h2, h3, h4, h5⟩ := ih (movePending app p)
    simp only [List.foldl_cons, h1, h2, h3, h4, h5]
    simp [movePending, Application.call]

theorem Reconcile_mActors (app : Application) :
    (Reconcile app).mActors =
      (app.mActors ++ app.mPendingActors).filter
        (fun actor => app.heap actor != ActorState.EDead) := by
  obtain ⟨h1, h2, -⟩ := foldl_movePending app.mPendingActors app
  simp only [Reconcile, GetState, h1, h2]

theorem Reconcile_mPendingActors (app : Application) :
    (Reconcile app).mPendingActors = [] := rfl

theorem Reconcile_heap (app : Application) : (Reconcile app).heap = app.heap :=
  (foldl_movePending app.mPendingActors app).2.1

theorem waitLoop_isSome (mTicksCount : ℕ) (clock : List ℕ)
    (h : ∃ now ∈ clock, frameDurationNS ≤ elapsedNS now mTicksCount) :
    ∃ now, waitLoop mTicksCount clock = some now := by
  induction clock with
  | nil => simp at h
  | cons c cs ih =>
    by_cases hc : elapsedNS c mTicksCount < frameDurationNS
    · obtain ⟨now, hmem, hnow⟩ := h
      rcases List.mem_cons.1 hmem with rfl | hmem
      · omega
      · simpa [waitLoop, hc] using ih ⟨now, hmem, hnow⟩
    · exact ⟨c, by simp [waitLoop, hc]⟩

theorem runCmd_updating (app : Application) (c : Cmd) (h : app.mIsUpdatingActors = true) :
    (runCmd app c).mActors = app.mActors ∧
    (runCmd app c).mIsUpdatingActors = true ∧
    (runCmd app c).calls = app.calls ∧
    app.heapNext ≤ (runCmd app c).heapNext ∧
    (runCmd app c).mPendingActors =
      app.mPendingActors ++
        List.range' app.heapNext ((runCmd app c).heapNext - app.heapNext) := by
  cases c with
  | Create initial => simp [runCmd, CreateActor, AddActor, h]
  | Destroy actor => cases actor <;> simp [runCmd, DestroyActor, SetState, h]

theorem range'_split (s a b : ℕ) (h1 : s ≤ a) (h2 : a ≤ b) :
    List.range' s (a - s) ++ List.range' a (b - a) = List.range' s (b - s) := by
  have := List.range'_append s (a - s) (b - a) 1
  rw [show s + 1 * (a - s) = a by omega] at this
  rw [this]
  congr 1
  omega

theorem runCmds_updating (cmds : List Cmd) (app : Application)
    (h : app.mIsUpdatingActors = true) :
    (runCmds app cmds).mActors = app.mActors ∧
    (runCmds app cmds).mIsUpdatingActors = true ∧
    (runCmds app cmds).calls = app.calls ∧
    app.heapNext ≤ (runCmds app cmds).heapNext ∧
    (runCmds app cmds).mPendingActors =
      app.mPendingActors ++
        List.range' app.heapNext ((runCmds app cmds).heapNext - app.heapNext) := by
  induction cmds generalizing app with
  | nil => simp [runCmds, h]
  | cons c cs ih =>
    obtain ⟨a1, a2, a3, a4, a5⟩ := runCmd_updating app c h
    obtain ⟨b1, b2, b3, b4, b5⟩ := ih (runCmd app c) a2
    simp only [runCmds, List.foldl_cons] at b1 b2 b3 b4 b5 ⊢
    refine ⟨b1.trans a1, b2, b3.trans a3, a4.trans b4, ?_⟩
    rw [b5, a5, List.append_assoc, range'_split _ _ _ a4 b4]

theorem runCmd_idle (app : Application) (c : Cmd) (h : app.mIsUpdatingActors = false) :
    (runCmd app c).mPendingActors = app.mPendingActors ∧
    (runCmd app c).mIsUpdatingActors = false ∧
    (runCmd app c).calls = app.calls ∧
    app.heapNext ≤ (runCmd app c).heapNext ∧
    (runCmd app c).mActors =
      app.mActors ++
        List.range' app.heapNext ((runCmd app c).heapNext - app.heapNext) := by
  cases c with
  | Create initial => simp [runCmd, CreateActor, AddActor, h]
  | Destroy actor => cases actor <;> simp [runCmd, DestroyActor, SetState, h]

theorem runCmds_idle (cmds : List Cmd) (app : Application)
    (h : app.mIsUpdatingActors = false) :
    (runCmds app cmds).mPendingActors = app.mPendingActors ∧
    (runCmds app cmds).mIsUpdatingActors = false ∧
    (runCmds app cmds).calls = app.calls ∧
    app.heapNext ≤ (runCmds app cmds).heapNext ∧
    (runCmds app cmds).mActors =
      app.mActors ++
        List.range' app.heapNext ((runCmds app cmds).heapNext - app.heapNext) := by
  induction cmds generalizing app with
  | nil => simp [runCmds, h]
  | cons c cs ih =>
    obtain ⟨a1, a2, a3, a4, a5⟩ := runCmd_idle app c h
    obtain ⟨b1, b2, b3, b4, b5⟩ := ih (runCmd app c) a2
    simp only [runCmds, List.foldl_cons] at b1 b2 b3 b4 b5 ⊢
    refine ⟨b1.trans a1, b2, b3.trans a3, a4.trans b4, ?_⟩
    rw [b5, a5, List.append_assoc, range'_split _ _ _ a4 b4]

theorem updateActor_updating (hooks : Hooks) (deltaTime : F32) (app : Application)
    (a : ℕ) (h : app.mIsUpdatingActors = true) :
    (updateActor hooks deltaTime app a).mActors = app.mActors ∧
    (updateActor hooks deltaTime app a).mIsUpdatingActors = true ∧
    (updateActor hooks deltaTime app a).calls = app.calls ++ [Call.ActorUpdate a deltaTime] ∧
    app.heapNext ≤ (updateActor hooks deltaTime app a).heapNext ∧
    (updateActor hooks deltaTime app a).mPendingActors =
      app.mPendingActors ++
        List.range' app.heapNext ((updateActor hooks deltaTime app a).heapNext - app.heapNext) :=
  runCmds_updating _ (app.call (Call.ActorUpdate a deltaTime)) h

theorem foldl_updateActor (hooks : Hooks) (deltaTime : F32) (L : List ℕ)
    (app : Application) (h : app.mIsUpdatingActors = true) :
    (L.foldl (updateActor hooks deltaTime) app).mActors = app.mActors ∧
    (L.foldl (updateActor hooks deltaTime) app).mIsUpdatingActors = true ∧
    (L.foldl (updateActor hooks deltaTime) app).calls =
      app.calls ++ L.map (fun a => Call.ActorUpdate a deltaTime) ∧
    app.heapNext ≤ (L.foldl (updateActor hooks deltaTime) app).heapNext ∧
    (L.foldl (updateActor hooks deltaTime) app).mPendingActors =
      app.mPendingActors ++
        List.range' app.heapNext
          ((L.foldl (updateActor hooks deltaTime) app).heapNext - app.heapNext) := by
  induction L generalizing app with
  | nil => simp [h]
  | cons a L ih =>
    obtain ⟨a1, a2, a3, a4, a5⟩ := updateActor_updating hooks deltaTime app a h
    obtain ⟨b1, b2, b3, b4, b5⟩ := ih (updateActor hooks deltaTime app a) a2
    simp only [List.foldl_cons, List.map_cons]
    refine ⟨b1.trans a1, b2, ?_, a4.trans b4, ?_⟩
    · rw [b3, a3]; simp
    · rw [b5, a5, List.append_assoc, range'_split _ _ _ a4 b4]

theorem UpdateActors_spec (hooks : Hooks) (deltaTime : F32) (app : Application) :
    (UpdateActors hooks deltaTime app).mActors = app.mActors ∧
    (UpdateActors hooks deltaTime app).mIsUpdatingActors = false ∧
    (UpdateActors hooks deltaTime app).calls =
      app.calls ++ app.mActors.map (fun a => Call.ActorUpdate a deltaTime) ∧
    app.heapNext ≤ (UpdateActors hooks deltaTime app).heapNext ∧
    (UpdateActors hooks deltaTime app).mPendingActors =
      app.mPendingActors ++
        List.range' app.heapNext ((UpdateActors hooks deltaTime app).heapNext - app.heapNext) := by
  obtain ⟨b1, -, b3, b4, b5⟩ := foldl_updateActor hooks deltaTime app.mActors
    { app with mIsUpdatingActors := true } rfl
  exact ⟨b1, rfl, b3, b4, b5⟩

theorem runCmds_mIsPause (cmds : List Cmd) (app : Application) :
    (runCmds app cmds).mIsPause = app.mIsPause ∧
    (runCmds app cmds).mTicksCount = app.mTicksCount := by
  induction cmds generalizing app with
  | nil => simp [runCmds]
  | cons c cs ih =>
    have h := ih (runCmd app c)
    simp only [runCmds, List.foldl_cons] at h ⊢
    rw [h.1, h.2]
    cases c with
    | Create initial => cases hu : app.mIsUpdatingActors <;> simp [runCmd, CreateActor, AddActor, hu]
    | Destroy actor => cases actor <;> simp [runCmd, DestroyActor, SetState]

/-- The registry part of the state. -/
theorem HandleWindowResized_registry (pixel : ℤ × ℤ) (app : Application) :
    (HandleWindowResized pixel app).mActors = app.mActors ∧
    (HandleWindowResized pixel app).mPendingActors = app.mPendingActors ∧
    (HandleWindowResized pixel app).mIsUpdatingActors = app.mIsUpdatingActors ∧
    (HandleWindowResized pixel app).heap = app.heap ∧
    (HandleWindowResized pixel app).heapNext = app.heapNext := by
  unfold HandleWindowResized
  cases app.mWindow <;> simp [Application.call]

theorem SetFullscreen_registry (sdl : SDL) (enable : Bool) (app : Application) :
    (SetFullscreen sdl enable app).mActors = app.mActors ∧
    (SetFullscreen sdl enable app).mPendingActors = app.mPendingActors ∧
    (SetFullscreen sdl enable app).mIsUpdatingActors = app.mIsUpdatingActors ∧
    (SetFullscreen sdl enable app).heap = app.heap ∧
    (SetFullscreen sdl enable app).heapNext = app.heapNext := by
  unfold SetFullscreen
  cases hw : app.mWindow with
  | none => simp
  | some w =>
    simp only
    split_ifs <;>
      simp [HandleWindowResized_registry, Application.call]

theorem handleEvent_registry (app : Application) (ev : Event × SDL) :
    (handleEvent app ev).mActors = app.mActors ∧
    (handleEvent app ev).mPendingActors = app.mPendingActors ∧
    (handleEvent app ev).mIsUpdatingActors = app.mIsUpdatingActors ∧
    (handleEvent app ev).heap = app.heap ∧
    (handleEvent app ev).heapNext = app.heapNext := by
  obtain ⟨e, sdl⟩ := ev
  cases e with
  | QUIT => simp [handleEvent]
  | KEY_DOWN scancode altHeld =>
    simp only [handleEvent, ToggleFullscreen]
    split_ifs
    · exact SetFullscreen_registry _ _ _
    · simp
  | WINDOW_PIXEL_SIZE_CHANGED windowID =>
    simp only [handleEvent]
    split_ifs
    · exact HandleWindowResized_registry _ _
    · simp
  | WINDOW_RESIZED windowID data1 data2 =>
    simp only [handleEvent, onWindowResizedEvent]
    split_ifs <;> simp [HandleWindowResized_registry, Application.call]
  | OTHER => simp [handleEvent]

theorem foldl_handleEvent_registry (events : List (Event × SDL)) (app : Application) :
    (events.foldl handleEvent app).mActors = app.mActors ∧
    (events.foldl handleEvent app).mPendingActors = app.mPendingActors ∧
    (events.foldl handleEvent app).mIsUpdatingActors = app.mIsUpdatingActors ∧
    (events.foldl handleEvent app).heap = app.heap ∧
    (events.foldl handleEvent app).heapNext = app.heapNext := by
  induction events generalizing app with
  | nil => simp
  | cons ev evs ih =>
    obtain ⟨a1, a2, a3, a4, a5⟩ := handleEvent_registry app ev
    obtain ⟨b1, b2, b3, b4, b5⟩ := ih (handleEvent app ev)
    simp only [List.foldl_cons]
    exact ⟨b1.trans a1, b2.trans a2, b3.trans a3, b4.trans a4, b5.trans a5⟩

/-- An iteration of the input loop that is defined has left `mActors` alone. -/
theorem processInputActor_some (hooks : Hooks) (state : InputState) (app mid : Application)
    (a : ℕ) (hs : processInputActor hooks state app a = some mid) :
    mid = runCmds (app.call (Call.ActorProcessInput a))
      (hooks.ActorProcessInput a state (app.call (Call.ActorProcessInput a))) ∧
    mid.mActors = app.mActors := by
  unfold processInputActor at hs
  simp only at hs
  split_ifs at hs with hc
  have := Option.some.inj hs
  subst this
  exact ⟨rfl, hc⟩

theorem processInputActors_registry (hooks : Hooks) (state : InputState) (L : List ℕ)
    (app pi : Application)
    (h : app.mIsUpdatingActors = false)
    (hr : processInputActors hooks state L app = some pi) :
    pi.mPendingActors = app.mPendingActors ∧
    pi.mIsUpdatingActors = false ∧
    pi.mIsPause = app.mIsPause ∧
    app.heapNext ≤ pi.heapNext ∧
    pi.mActors = app.mActors ++ List.range' app.heapNext (pi.heapNext - app.heapNext) := by
  induction L generalizing app with
  | nil =>
    simp only [processInputActors, Option.some.injEq] at hr
    subst hr
    simp [h]
  | cons a L ih =>
    simp only [processInputActors] at hr
    cases hs : processInputActor hooks state app a with
    | none => simp [hs] at hr
    | some mid =>
      simp only [hs] at hr
      obtain ⟨hmid, -⟩ := processInputActor_some hooks state app mid a hs
      obtain ⟨a1, a2, -, a4, a5⟩ := runCmds_idle
        (hooks.ActorProcessInput a state (app.call (Call.ActorProcessInput a)))
        (app.call (Call.ActorProcessInput a)) h
      have a3 := (runCmds_mIsPause
        (hooks.ActorProcessInput a state (app.call (Call.ActorProcessInput a)))
        (app.call (Call.ActorProcessInput a))).1
      rw [← hmid] at a1 a2 a3 a4 a5
      obtain ⟨b1, b2, b3, b4, b5⟩ := ih mid a2 hr
      refine ⟨b1.trans a1, b2, b3.trans a3, a4.trans b4, ?_⟩
      rw [b5, a5, List.append_assoc]
      exact congrArg _ (range'_split _ _ _ a4 b4)

theorem ProcessInput_registry (hooks : Hooks) (input : Input) (app pi : Application)
    (h : app.mIsUpdatingActors = false) (hr : ProcessInput hooks input app = some pi) :
    pi.mPendingActors = app.mPendingActors ∧
    pi.mIsUpdatingActors = false ∧
    pi.mIsPause = input.state.spaceHeld ∧
    app.heapNext ≤ pi.heapNext ∧
    pi.mActors = app.mActors ++ List.range' app.heapNext (pi.heapNext - app.heapNext) := by
  obtain ⟨e1, e2, e3, -, e5⟩ := foldl_handleEvent_registry input.events app
  unfold ProcessInput at hr
  simp only at hr
  generalize hs : List.foldl handleEvent app input.events = s at *
  generalize hs1 : (if input.state.escapeReleased = true then { s with mIsActive := false } else s)
    = s1 at hr
  have f1 : s1.mActors = s.mActors := by rw [← hs1]; split <;> rfl
  have f2 : s1.mPendingActors = s.mPendingActors := by rw [← hs1]; split <;> rfl
  have f3 : s1.mIsUpdatingActors = s.mIsUpdatingActors := by rw [← hs1]; split <;> rfl
  have f5 : s1.heapNext = s.heapNext := by rw [← hs1]; split <;> rfl
  obtain ⟨b1, b2, b3, b4, b5⟩ := processInputActors_registry hooks input.state s1.mActors
    { s1 with mIsPause := input.state.spaceHeld } pi (by simp [f3, e3, h]) hr
  simp only [f1, f2, f5, e1, e2, e5] at b1 b2 b3 b4 b5 ⊢
  exact ⟨b1, b2, b3, b4, b5⟩

theorem Reconcile_spec (app : Application) :
    (Reconcile app).mIsUpdatingActors = app.mIsUpdatingActors ∧
    (Reconcile app).heapNext = app.heapNext ∧
    (Reconcile app).calls =
      app.calls ++ app.mPendingActors.map Call.ComputeWorldTransform := by
  obtain ⟨-, -, h3, h4, h5⟩ := foldl_movePending app.mPendingActors app
  exact ⟨h4, h5, h3⟩

theorem updatePhase_spec (hooks : Hooks) (deltaTime : F32) (app : Application)
    (hf : app.mIsUpdatingActors = false) :
    ∃ k, app.heapNext + k ≤ (updatePhase hooks deltaTime app).heapNext ∧
      (updatePhase hooks deltaTime app).mActors =
        app.mActors ++ List.range' app.heapNext k ∧
      (updatePhase hooks deltaTime app).mPendingActors =
        app.mPendingActors ++ List.range' (app.heapNext + k)
          ((updatePhase hooks deltaTime app).heapNext - (app.heapNext + k)) ∧
      (updatePhase hooks deltaTime app).mIsUpdatingActors = false ∧
      (updatePhase hooks deltaTime app).calls =
        app.calls ++ ([Call.TimeOfDayUpdate deltaTime, Call.UpdateGame deltaTime,
          Call.PhysTest] ++
          (app.mActors ++ List.range' app.heapNext k).map
            (fun a => Call.ActorUpdate a deltaTime)) := by
  unfold updatePhase
  simp only
  generalize hs1 : (app.call (Call.TimeOfDayUpdate deltaTime)).call
    (Call.UpdateGame deltaTime) = s1
  have g1 : s1.mIsUpdatingActors = false := by rw [← hs1]; exact hf
  obtain ⟨a1, a2, a3, a4, a5⟩ := runCmds_idle (hooks.UpdateGame deltaTime s1) s1 g1
  generalize hs2 : runCmds s1 (hooks.UpdateGame deltaTime s1) = s2 at *
  obtain ⟨b1, b2, b3, b4, b5⟩ := UpdateActors_spec hooks deltaTime (s2.call Call.PhysTest)
  have e1 : s1.heapNext = app.heapNext := by rw [← hs1]; rfl
  have e2 : s1.mActors = app.mActors := by rw [← hs1]; rfl
  have e3 : s1.mPendingActors = app.mPendingActors := by rw [← hs1]; rfl
  have e4 : s1.calls = app.calls ++
      [Call.TimeOfDayUpdate deltaTime, Call.UpdateGame deltaTime] := by
    rw [← hs1]; simp [Application.call]
  have c1 : (s2.call Call.PhysTest).heapNext = s2.heapNext := rfl
  have c2 : app.heapNext + (s2.heapNext - app.heapNext) = s2.heapNext := by omega
  refine ⟨s2.heapNext - app.heapNext, ?_, ?_, ?_, b2, ?_⟩
  · rw [c2]; exact b4
  · rw [b1, call_mActors, a5, e2, e1]
  · rw [b5, c2, call_mPendingActors, a1, e3]; rfl
  · rw [b3, call_calls, call_mActors, a3, e4, a5, e2, e1]
    simp

theorem UpdateFrame_eq (hooks : Hooks) (clock : List ℕ) (app : Application) (now : ℕ)
    (hw : waitLoop app.mTicksCount clock = some now) :
    UpdateFrame hooks clock app =
      if app.mIsPause then some { app with mTicksCount := now }
      else some ((Reconcile (updatePhase hooks (computeDeltaTime now app.mTicksCount)
        { app with mTicksCount := now })).call
          (Call.SoundMixerUpdate (computeDeltaTime now app.mTicksCount))) := by
  unfold UpdateFrame
  rw [hw]

theorem UpdateFrame_paused (hooks : Hooks) (clock : List ℕ) (app app' : Application)
    (h : UpdateFrame hooks clock app = some app') (hp : app.mIsPause = true) :
    ∃ now, waitLoop app.mTicksCount clock = some now ∧
      app' = { app with mTicksCount := now } := by
  cases hw : waitLoop app.mTicksCount clock with
  | none => simp [UpdateFrame, hw] at h
  | some now =>
    rw [UpdateFrame_eq hooks clock app now hw, if_pos hp] at h
    exact ⟨now, rfl, (Option.some.inj h).symm⟩

theorem updatePhase_mTicksCount (hooks : Hooks) (deltaTime : F32) (app : Application) :
    (updatePhase hooks deltaTime app).mTicksCount = app.mTicksCount := by
  have key : ∀ (L : List ℕ) (s : Application),
      (L.foldl (updateActor hooks deltaTime) s).mTicksCount = s.mTicksCount := by
    intro L
    induction L with
    | nil => intro s; rfl
    | cons a L ih =>
      intro s
      rw [List.foldl_cons, ih]
      exact (runCmds_mIsPause _ _).2
  unfold updatePhase UpdateActors
  simp only
  rw [key]
  exact (runCmds_mIsPause _ _).2

theorem Reconcile_mTicksCount (app : Application) :
    (Reconcile app).mTicksCount = app.mTicksCount := by
  have key : ∀ (L : List ℕ) (s : Application),
      (L.foldl movePending s).mTicksCount = s.mTicksCount := by
    intro L
    induction L with
    | nil => intro s; rfl
    | cons a L ih => intro s; rw [List.foldl_cons, ih]; rfl
  exact key _ _

theorem UpdateFrame_running (hooks : Hooks) (clock : List ℕ) (app app' : Application)
    (h : UpdateFrame hooks clock app = some app') (hp : app.mIsPause = false)
    (hf : app.mIsUpdatingActors = false) :
    ∃ now k, waitLoop app.mTicksCount clock = some now ∧
      app.heapNext + k ≤ app'.heapNext ∧
      app'.calls = app.calls ++
        ([Call.TimeOfDayUpdate (computeDeltaTime now app.mTicksCount),
          Call.UpdateGame (computeDeltaTime now app.mTicksCount), Call.PhysTest] ++
          (app.mActors ++ List.range' app.heapNext k).map
            (fun a => Call.ActorUpdate a (computeDeltaTime now app.mTicksCount)) ++
          (app.mPendingActors ++ List.range' (app.heapNext + k)
            (app'.heapNext - (app.heapNext + k))).map Call.ComputeWorldTransform ++
          [Call.SoundMixerUpdate (computeDeltaTime now app.mTicksCount)]) ∧
      app'.mActors =
        ((app.mActors ++ List.range' app.heapNext k) ++
          (app.mPendingActors ++ List.range' (app.heapNext + k)
            (app'.heapNext - (app.heapNext + k)))).filter
          (fun a => app'.heap a != ActorState.EDead) ∧
      app'.mPendingActors = [] ∧ app'.mIsUpdatingActors = false ∧
      app'.mTicksCount = now := by
  cases hw : waitLoop app.mTicksCount clock with
  | none => simp [UpdateFrame, hw] at h
  | some now =>
    rw [UpdateFrame_eq hooks clock app now hw, if_neg (by simp [hp])] at h
    have h := Option.some.inj h
    obtain ⟨k, u1, u2, u3, u4, u5⟩ := updatePhase_spec hooks
      (computeDeltaTime now app.mTicksCount) { app with mTicksCount := now } hf
    have u6 := updatePhase_mTicksCount hooks
      (computeDeltaTime now app.mTicksCount) { app with mTicksCount := now }
    generalize updatePhase hooks (computeDeltaTime now app.mTicksCount)
      { app with mTicksCount := now } = mid at *
    obtain ⟨r1, r2, r3⟩ := Reconcile_spec mid
    have r4 := Reconcile_mTicksCount mid
    simp only at u1 u2 u3 u4 u5 u6
    subst h
    refine ⟨now, k, rfl, ?_, ?_, ?_, rfl, ?_, ?_⟩
    · show app.heapNext + k ≤ (Reconcile mid).heapNext
      rw [r2]; exact u1
    · show (Reconcile mid).calls ++ _ = _
      rw [r3, u5, u3]
      show _ = app.calls ++ (_ ++ _ ++ List.map _ (_ ++ List.range' _ ((Reconcile mid).heapNext - _)) ++ _)
      rw [r2]
      simp
    · show (Reconcile mid).mActors = List.filter (fun a => (Reconcile mid).heap a != _)
        (_ ++ (_ ++ List.range' _ ((Reconcile mid).heapNext - _)))
      rw [Reconcile_mActors, Reconcile_heap, u2, u3, r2]
    · show (Reconcile mid).mIsUpdatingActors = false
      rw [r1]; exact u4
    · show (Reconcile mid).mTicksCount = now
      rw [r4]; exact u6

theorem updatedActors_append (xs ys : List Call) :
    updatedActors (xs ++ ys) = updatedActors xs ++ updatedActors ys := by
  simp [updatedActors, List.filterMap_append]

theorem updatedActors_map_ActorUpdate (L : List ℕ) (deltaTime : F32) :
    updatedActors (L.map (fun a => Call.ActorUpdate a deltaTime)) = L := by
  induction L with
  | nil => rfl
  | cons a L ih =>
    simp only [updatedActors, List.map_cons, List.filterMap_cons] at ih ⊢
    rw [ih]

theorem updatedActors_map_ComputeWorldTransform (L : List ℕ) :
    updatedActors (L.map Call.ComputeWorldTransform) = [] := by
  induction L with
  | nil => rfl
  | cons a L ih =>
    simp only [updatedActors, List.map_cons, List.filterMap_cons] at ih ⊢
    rw [ih]

theorem QuietExtension.refl (app : Application) : QuietExtension app app :=
  ⟨[], by simp, rfl⟩

theorem QuietExtension.of_calls_eq {app app' : Application} (h : app'.calls = app.calls) :
    QuietExtension app app' :=
  ⟨[], by simp [h], rfl⟩

theorem QuietExtension.trans {a b c : Application} (h1 : QuietExtension a b)
    (h2 : QuietExtension b c) : QuietExtension a c := by
  obtain ⟨x, hx, hx'⟩ := h1
  obtain ⟨y, hy, hy'⟩ := h2
  exact ⟨x ++ y, by rw [hy, hx, List.append_assoc], by rw [updatedActors_append, hx', hy']; rfl⟩

theorem QuietExtension.call (app : Application) (c : Call)
    (hc : updatedActors [c] = []) : QuietExtension app (app.call c) :=
  ⟨[c], rfl, hc⟩

theorem QuietExtension.of_prefix {app app' : Application}
    (h1 : app.calls <+: app'.calls)
    (h2 : updatedActors app'.calls = updatedActors app.calls) : QuietExtension app app' := by
  obtain ⟨added, hadded⟩ := h1
  refine ⟨added, hadded.symm, ?_⟩
  rw [← hadded, updatedActors_append] at h2
  exact List.append_right_eq_self.1 h2

theorem HandleWindowResized_quiet (pixel : ℤ × ℤ) (app : Application) :
    QuietExtension app (HandleWindowResized pixel app) := by
  unfold HandleWindowResized
  cases app.mWindow with
  | none => exact QuietExtension.refl _
  | some w => exact ⟨[Call.OnWindowResized pixel.1 pixel.2], rfl, rfl⟩

theorem SetFullscreen_quiet (sdl : SDL) (enable : Bool) (app : Application) :
    QuietExtension app (SetFullscreen sdl enable app) := by
  unfold SetFullscreen HandleWindowResized
  cases hw : app.mWindow with
  | none => exact QuietExtension.refl _
  | some w =>
    simp only
    split_ifs <;> apply QuietExtension.of_prefix <;>
      simp [Application.call, updatedActors, hw]

theorem handleEvent_quiet (app : Application) (ev : Event × SDL) :
    QuietExtension app (handleEvent app ev) := by
  obtain ⟨e, sdl⟩ := ev
  cases e with
  | QUIT => exact QuietExtension.of_calls_eq rfl
  | KEY_DOWN scancode altHeld =>
    simp only [handleEvent, ToggleFullscreen]
    split_ifs
    · exact SetFullscreen_quiet _ _ _
    · exact QuietExtension.refl _
  | WINDOW_PIXEL_SIZE_CHANGED windowID =>
    simp only [handleEvent]
    split_ifs
    · exact HandleWindowResized_quiet _ _
    · exact QuietExtension.refl _
  | WINDOW_RESIZED windowID data1 data2 =>
    simp only [handleEvent, onWindowResizedEvent, HandleWindowResized]
    cases hw : app.mWindow with
    | none => simpa using QuietExtension.refl _
    | some w =>
      split_ifs <;> apply QuietExtension.of_prefix <;>
        simp [Application.call, updatedActors, hw]
  | OTHER => exact QuietExtension.refl _

theorem foldl_handleEvent_quiet (events : List (Event × SDL)) (app : Application) :
    QuietExtension app (events.foldl handleEvent app) := by
  induction events generalizing app with
  | nil => exact QuietExtension.refl _
  | cons ev evs ih => exact (handleEvent_quiet app ev).trans (ih _)

theorem processInputActors_quiet (hooks : Hooks) (state : InputState) (L : List ℕ)
    (app pi : Application) (hr : processInputActors hooks state L app = some pi) :
    QuietExtension app pi := by
  induction L generalizing app with
  | nil =>
    simp only [processInputActors, Option.some.injEq] at hr
    subst hr
    exact QuietExtension.refl _
  | cons a L ih =>
    simp only [processInputActors] at hr
    cases hs : processInputActor hooks state app a with
    | none => simp [hs] at hr
    | some mid =>
      simp only [hs] at hr
      obtain ⟨hmid, -⟩ := processInputActor_some hooks state app mid a hs
      refine QuietExtension.trans ?_ (ih mid hr)
      refine QuietExtension.trans (b := app.call (Call.ActorProcessInput a))
        ⟨[Call.ActorProcessInput a], rfl, rfl⟩ ?_
      rw [hmid]
      cases hu : app.mIsUpdatingActors with
      | true =>
        exact QuietExtension.of_calls_eq
          (runCmds_updating _ (app.call (Call.ActorProcessInput a)) hu).2.2.1
      | false =>
        exact QuietExtension.of_calls_eq
          (runCmds_idle _ (app.call (Call.ActorProcessInput a)) hu).2.2.1

theorem ProcessInput_quiet (hooks : Hooks) (input : Input) (app pi : Application)
    (hr : ProcessInput hooks input app = some pi) :
    QuietExtension app pi := by
  unfold ProcessInput at hr
  refine QuietExtension.trans ?_ (processInputActors_quiet hooks _ _ _ pi hr)
  refine QuietExtension.trans (foldl_handleEvent_quiet input.events app) ?_
  apply QuietExtension.of_calls_eq
  split <;> rfl

/-- A frame that returns is made of a defined `ProcessInput` and an
`UpdateFrame` that returns. -/
theorem runFrame_some (hooks : Hooks) (frame : Frame) (app app' : Application)
    (h : runFrame hooks frame app = some app') :
    ∃ pi mid, ProcessInput hooks frame.input app = some pi ∧
      UpdateFrame hooks frame.clock pi = some mid ∧ app' = mid.call Call.RendererDraw := by
  unfold runFrame at h
  cases hp : ProcessInput hooks frame.input app with
  | none => simp [hp] at h
  | some pi =>
    simp only [hp] at h
    cases hu : UpdateFrame hooks frame.clock pi with
    | none => simp [hu] at h
    | some mid =>
      simp only [hu, Option.some.injEq] at h
      exact ⟨pi, mid, rfl, hu, h.symm⟩

theorem runFrame_running (hooks : Hooks) (frame : Frame) (app app' : Application)
    (h : runFrame hooks frame app = some app') (hp : frame.input.state.spaceHeld = false)
    (hf : app.mIsUpdatingActors = false) :
    ∃ added k, app'.calls = app.calls ++ added ∧
      updatedActors added = app.mActors ++ List.range' app.heapNext k := by
  obtain ⟨pi, mid, hpi, hu, h⟩ := runFrame_some hooks frame app app' h
  obtain ⟨p1, p2, p3, p4, p5⟩ := ProcessInput_registry hooks frame.input app pi hf hpi
  obtain ⟨x, hx, hx'⟩ := ProcessInput_quiet hooks frame.input app pi hpi
  obtain ⟨now, k, -, u1, u2, -⟩ := UpdateFrame_running hooks frame.clock _ mid hu
    (p3.trans hp) p2
  have key : ∃ Y, mid.calls = pi.calls ++ Y ∧
      updatedActors Y = pi.mActors ++ List.range' pi.heapNext k := by
    refine ⟨_, u2, ?_⟩
    simp only [updatedActors_append, updatedActors_map_ActorUpdate,
      updatedActors_map_ComputeWorldTransform]
    simp [updatedActors]
  obtain ⟨Y, hY, hY'⟩ := key
  refine ⟨x ++ (Y ++ [Call.RendererDraw]), (pi.heapNext - app.heapNext) + k, ?_, ?_⟩
  · rw [h, call_calls, hY, hx, List.append_assoc, List.append_assoc]
  · have e3 : updatedActors [Call.RendererDraw] = [] := rfl
    rw [updatedActors_append, updatedActors_append, hx', hY', e3, p5, List.nil_append,
      List.append_nil, List.append_assoc]
    congr 1
    have := List.range'_append app.heapNext (pi.heapNext - app.heapNext) k 1
    rw [show app.heapNext + 1 * (pi.heapNext - app.heapNext) = pi.heapNext by omega] at this
    rw [this, Nat.add_comm]

namespace F32

theorem roundHalfEven_eq_of_lt (m : ℚ) (k : ℤ) (h1 : (k : ℚ) - 1 / 2 < m)
    (h2 : m < k + 1 / 2) : roundHalfEven m = k := by
  have hf : ⌊m⌋ = k ∨ ⌊m⌋ = k - 1 := by
    by_cases hk : (k : ℚ) ≤ m
    · left
      rw [Int.floor_eq_iff]
      constructor <;> linarith
    · right
      rw [Int.floor_eq_iff]
      push_cast
      constructor <;> linarith
  unfold roundHalfEven
  rcases hf with hf | hf
  · simp only [hf]
    rw [if_pos (by linarith)]
  · simp only [hf]
    push_cast
    rw [if_neg (by linarith), if_pos (by linarith)]
    ring

theorem roundHalfEven_intCast (n : ℤ) : roundHalfEven (n : ℚ) = n :=
  roundHalfEven_eq_of_lt _ n (by linarith) (by linarith)

theorem roundHalfEven_mono {a b : ℚ} (h : a ≤ b) : roundHalfEven a ≤ roundHalfEven b := by
  have hfl : ⌊a⌋ ≤ ⌊b⌋ := Int.floor_mono h
  have ha1 := Int.floor_le a
  have ha2 := Int.lt_floor_add_one a
  have hb1 := Int.floor_le b
  have hb2 := Int.lt_floor_add_one b
  rcases lt_or_eq_of_le hfl with hlt | heq
  · unfold roundHalfEven
    simp only
    split_ifs <;> omega
  · unfold roundHalfEven
    simp only
    rw [heq] at *
    split_ifs <;> first | omega | (exfalso; linarith)

theorem roundHalfEven_nonneg {a : ℚ} (h : 0 ≤ a) : 0 ≤ roundHalfEven a := by
  have := roundHalfEven_mono h
  rwa [show (0 : ℚ) = ((0 : ℤ) : ℚ) by norm_num, roundHalfEven_intCast] at this

theorem two_zpow_pos (e : ℤ) : (0 : ℚ) < 2 ^ e := zpow_pos (by norm_num) e

theorem log_eq_of_bounds (x : ℚ) (m : ℤ) (h1 : (2 : ℚ) ^ m ≤ x) (h2 : x < 2 ^ (m + 1)) :
    Int.log 2 x = m := by
  have hx : 0 < x := lt_of_lt_of_le (two_zpow_pos m) h1
  have a1 : m ≤ Int.log 2 x := (Int.zpow_le_iff_le_log (by norm_num) hx).1 (by exact_mod_cast h1)
  have a2 : Int.log 2 x < m + 1 :=
    (Int.lt_zpow_iff_log_lt (by norm_num) hx).1 (by exact_mod_cast h2)
  omega

theorem zpow_log_le (x : ℚ) (hx : 0 < x) : (2 : ℚ) ^ Int.log 2 x ≤ x := by
  have := Int.zpow_log_le_self (b := 2) (by norm_num) hx
  exact_mod_cast this

theorem lt_zpow_of_log_lt (x : ℚ) (hx : 0 < x) (m : ℤ) (h : Int.log 2 x < m) :
    x < (2 : ℚ) ^ m := by
  have := (Int.lt_zpow_iff_log_lt (b := 2) (by norm_num) hx).2 h
  exact_mod_cast this

/-- Evaluation of `round` on a normal number: `q` lies in the binade with unit
`2 ^ e`, and `k` is the integer nearest to `q / 2 ^ e`. -/
theorem round_eq (q : ℚ) (e k : ℤ) (he : -149 ≤ e) (hlo : (2 : ℚ) ^ (e + 23) ≤ |q|)
    (hhi : |q| < 2 ^ (e + 24)) (hk1 : (k : ℚ) - 1 / 2 < q / 2 ^ e)
    (hk2 : q / 2 ^ e < k + 1 / 2) : round q = k * 2 ^ e := by
  have hlog : Int.log 2 |q| = e + 23 :=
    log_eq_of_bounds |q| (e + 23) hlo (by rw [show e + 23 + 1 = e + 24 by ring]; exact hhi)
  have hu : ulpExp q = e := by
    unfold ulpExp
    rw [hlog]
    omega
  unfold round
  rw [hu, roundHalfEven_eq_of_lt _ k hk1 hk2]

theorem round_zero : round 0 = 0 := by
  unfold round
  rw [zero_div, show (0 : ℚ) = ((0 : ℤ) : ℚ) by norm_num, roundHalfEven_intCast]
  simp

theorem round_nonneg {x : ℚ} (hx : 0 ≤ x) : 0 ≤ round x := by
  unfold round
  have h1 : (0 : ℚ) ≤ x / 2 ^ ulpExp x := div_nonneg hx (two_zpow_pos _).le
  have h2 : (0 : ℚ) ≤ (roundHalfEven (x / 2 ^ ulpExp x) : ℚ) := by
    exact_mod_cast roundHalfEven_nonneg h1
  exact mul_nonneg h2 (two_zpow_pos _).le

theorem ulpExp_mono {x y : ℚ} (hx : 0 < x) (h : x ≤ y) : ulpExp x ≤ ulpExp y := by
  unfold ulpExp
  rw [abs_of_pos hx, abs_of_pos (lt_of_lt_of_le hx h)]
  have := Int.log_mono_right (b := 2) hx h
  omega

/-- Rounding to binary32 is monotone on the non-negative rationals. -/
theorem round_mono {x y : ℚ} (hx : 0 ≤ x) (h : x ≤ y) : round x ≤ round y := by
  rcases eq_or_lt_of_le hx with h0 | hpos
  · rw [← h0, round_zero]
    exact round_nonneg (hx.trans h)
  have hy : 0 < y := lt_of_lt_of_le hpos h
  rcases eq_or_lt_of_le (ulpExp_mono hpos h) with heq | hlt
  · unfold round
    rw [heq]
    have h1 : x / 2 ^ ulpExp y ≤ y / 2 ^ ulpExp y :=
      div_le_div_of_nonneg_right h (two_zpow_pos _).le
    have h2 : (roundHalfEven (x / 2 ^ ulpExp y) : ℚ) ≤ roundHalfEven (y / 2 ^ ulpExp y) := by
      exact_mod_cast roundHalfEven_mono h1
    exact mul_le_mul_of_nonneg_right h2 (two_zpow_pos _).le
  · -- `x` lies in a lower binade than `y`: the power of two between them separates
    have hey : ulpExp y = Int.log 2 y - 23 := by
      have h149 : -149 ≤ ulpExp x := le_max_right _ _
      unfold ulpExp at hlt ⊢
      rw [abs_of_pos hy] at hlt ⊢
      omega
    have hlogx : Int.log 2 x - 23 ≤ ulpExp x := by
      unfold ulpExp
      rw [abs_of_pos hpos]
      exact le_max_left _ _
    have hlog : Int.log 2 x < Int.log 2 y := by omega
    have hxB : x < (2 : ℚ) ^ Int.log 2 y := lt_zpow_of_log_lt x hpos _ hlog
    have hBy : (2 : ℚ) ^ Int.log 2 y ≤ y := zpow_log_le y hy
    have hx' : round x ≤ (2 : ℚ) ^ Int.log 2 y := by
      obtain ⟨n, hn⟩ := Int.eq_ofNat_of_zero_le (show 0 ≤ Int.log 2 y - ulpExp x by omega)
      have hpow : (2 : ℚ) ^ Int.log 2 y = ((2 ^ n : ℤ) : ℚ) * 2 ^ ulpExp x := by
        rw [show Int.log 2 y = (n : ℤ) + ulpExp x by omega, zpow_add₀ (by norm_num)]
        push_cast
        rw [zpow_natCast]
      unfold round
      rw [hpow]
      apply mul_le_mul_of_nonneg_right _ (two_zpow_pos _).le
      have h1 : x / 2 ^ ulpExp x ≤ ((2 ^ n : ℤ) : ℚ) := by
        rw [div_le_iff₀ (two_zpow_pos _), ← hpow]
        exact hxB.le
      have := roundHalfEven_mono h1
      rw [roundHalfEven_intCast] at this
      exact_mod_cast this
    have hy' : (2 : ℚ) ^ Int.log 2 y ≤ round y := by
      have hpow : (2 : ℚ) ^ Int.log 2 y = ((2 ^ 23 : ℤ) : ℚ) * 2 ^ ulpExp y := by
        rw [hey, show Int.log 2 y = (23 : ℤ) + (Int.log 2 y - 23) by ring,
          zpow_add₀ (by norm_num)]
        norm_num
      unfold round
      rw [hpow]
      apply mul_le_mul_of_nonneg_right _ (two_zpow_pos _).le
      have h1 : ((2 ^ 23 : ℤ) : ℚ) ≤ y / 2 ^ ulpExp y := by
        rw [le_div_iff₀ (two_zpow_pos _), ← hpow]
        exact hBy
      have := roundHalfEven_mono h1
      rw [roundHalfEven_intCast] at this
      exact_mod_cast this
    exact hx'.trans hy'

end F32

theorem mem_range'_iff (p s n : ℕ) : p ∈ List.range' s n ↔ s ≤ p ∧ p < s + n := by
  simp [List.mem_range'_1]

theorem ordered_append_range' (L : List ℕ) (s n : ℕ) (h1 : L.Pairwise (· < ·))
    (h2 : ∀ a ∈ L, a < s) :
    (L ++ List.range' s n).Pairwise (· < ·) ∧ ∀ a ∈ L ++ List.range' s n, a < s + n := by
  constructor
  · rw [List.pairwise_append]
    refine ⟨h1, List.pairwise_lt_range' s n, ?_⟩
    intro a ha b hb
    have := h2 a ha
    rw [mem_range'_iff] at hb
    omega
  · intro a ha
    rw [List.mem_append, mem_range'_iff] at ha
    rcases ha with ha | ha
    · have := h2 a ha; omega
    · omega

theorem ProcessInput_ordered (hooks : Hooks) (input : Input) (app pi : Application)
    (h : CreationOrdered app) (hr : ProcessInput hooks input app = some pi) :
    CreationOrdered pi := by
  obtain ⟨h1, h2, h3, h4⟩ := h
  obtain ⟨p1, p2, -, p4, p5⟩ := ProcessInput_registry hooks input app pi h1 hr
  obtain ⟨o1, o2⟩ := ordered_append_range' app.mActors app.heapNext
    (pi.heapNext - app.heapNext) h3 h4
  refine ⟨p2, p1.trans h2, by rw [p5]; exact o1, ?_⟩
  intro a ha
  rw [p5] at ha
  have := o2 a ha
  omega

theorem runFrame_ordered (hooks : Hooks) (frame : Frame) (app app' : Application)
    (h : CreationOrdered app) (hrun : runFrame hooks frame app = some app') :
    CreationOrdered app' ∧
    ∃ added, app'.calls = app.calls ++ added ∧ (updatedActors added).Pairwise (· < ·) ∧
      (frame.input.state.spaceHeld = false →
        ∃ k, updatedActors added = app.mActors ++ List.range' app.heapNext k) := by
  obtain ⟨pi, mid, hpi, hu, hrun'⟩ := runFrame_some hooks frame app app' hrun
  have hP := ProcessInput_ordered hooks frame.input app pi h hpi
  obtain ⟨q1, q2, q3, q4⟩ := hP
  obtain ⟨p1, p2, p3, p4, p5⟩ := ProcessInput_registry hooks frame.input app pi h.1 hpi
  obtain ⟨x, hx, hx'⟩ := ProcessInput_quiet hooks frame.input app pi hpi
  cases hs : frame.input.state.spaceHeld with
  | true =>
    obtain ⟨now, -, hmid⟩ := UpdateFrame_paused hooks frame.clock _ mid hu (p3.trans hs)
    subst hrun'
    subst hmid
    refine ⟨⟨q1, q2, q3, q4⟩, x ++ [Call.RendererDraw], ?_, ?_, by simp⟩
    · show pi.calls ++ _ = _
      rw [hx, List.append_assoc]
    · have e3 : updatedActors [Call.RendererDraw] = [] := rfl
      rw [updatedActors_append, hx', e3]
      exact List.Pairwise.nil
  | false =>
    obtain ⟨now, k, -, u1, -, u3, u4, u5, -⟩ := UpdateFrame_running hooks frame.clock _ mid hu
      (p3.trans hs) p2
    obtain ⟨added, k', c1, c2⟩ := runFrame_running hooks frame app app' hrun hs h.1
    obtain ⟨o1, o2⟩ := ordered_append_range' _ pi.heapNext k q3 q4
    obtain ⟨o3, o4⟩ := ordered_append_range' _ (pi.heapNext + k)
      (mid.heapNext - (pi.heapNext + k)) o1 o2
    rw [q2, List.nil_append] at u3
    refine ⟨⟨?_, ?_, ?_, ?_⟩, added, c1, ?_, fun _ => ⟨k', c2⟩⟩
    · rw [hrun']; exact u5
    · rw [hrun']; exact u4
    · rw [hrun', call_mActors, u3]
      exact o3.sublist (List.filter_sublist _)
    · intro a ha
      rw [hrun', call_mActors, u3] at ha
      have := o4 a (List.mem_of_mem_filter ha)
      rw [hrun']
      show a < mid.heapNext
      omega
    · rw [c2]
      exact (ordered_append_range' _ _ k' h.2.2.1 h.2.2.2).1

theorem RunLoop_ordered (hooks : Hooks) (frames : List Frame) (init final : Application)
    (h : CreationOrdered init) (hrun : RunLoop hooks frames init = some final) :
    CreationOrdered final := by
  induction frames generalizing init with
  | nil =>
    simp only [RunLoop, Option.some.injEq] at hrun
    rw [← hrun]; exact h
  | cons frame later ih =>
    unfold RunLoop at hrun
    split_ifs at hrun
    · cases hf : runFrame hooks frame init with
      | none => simp [hf] at hrun
      | some next =>
        simp only [hf] at hrun
        exact ih next (runFrame_ordered hooks frame init next h hf).1 hrun
    · simp only [Option.some.injEq] at hrun
      rw [← hrun]; exact h

theorem CreationOrdered_new : CreationOrdered Application.new :=
  ⟨rfl, rfl, List.Pairwise.nil, by simp [Application.new]⟩

theorem runCmds_calls (cmds : List Cmd) (app : Application) :
    (runCmds app cmds).calls = app.calls := by
  have key : ∀ (c : Cmd) (s : Application), (runCmd s c).calls = s.calls := by
    intro c s
    cases c with
    | Create initial =>
      cases hu : s.mIsUpdatingActors <;> simp [runCmd, CreateActor, AddActor, hu]
    | Destroy actor => cases actor <;> rfl
  induction cmds generalizing app with
  | nil => rfl
  | cons c cs ih =>
    show (runCmds (runCmd app c) cs).calls = app.calls
    rw [ih, key]

theorem updatePhase_calls (hooks : Hooks) (deltaTime : F32) (app : Application) :
    ∃ L : List ℕ, (updatePhase hooks deltaTime app).calls = app.calls ++
      ([Call.TimeOfDayUpdate deltaTime, Call.UpdateGame deltaTime, Call.PhysTest] ++
        L.map (fun a => Call.ActorUpdate a deltaTime)) := by
  unfold updatePhase
  simp only
  rw [(UpdateActors_spec _ _ _).2.2.1, call_calls, runCmds_calls, call_calls, call_calls]
  exact ⟨((runCmds ((app.call (Call.TimeOfDayUpdate deltaTime)).call (Call.UpdateGame deltaTime))
    (hooks.UpdateGame deltaTime
      ((app.call (Call.TimeOfDayUpdate deltaTime)).call (Call.UpdateGame deltaTime)))).call
        Call.PhysTest).mActors,
    by simp only [List.append_assoc, List.cons_append, List.nil_append]⟩

theorem UpdateFrame_calls (hooks : Hooks) (clock : List ℕ) (app : Application) (now : ℕ)
    (hw : waitLoop app.mTicksCount clock = some now) (hp : app.mIsPause = false) :
    ∃ (app' : Application) (L P : List ℕ),
      UpdateFrame hooks clock app = some app' ∧ app'.mTicksCount = now ∧
      app'.calls = app.calls ++
        ([Call.TimeOfDayUpdate (computeDeltaTime now app.mTicksCount),
          Call.UpdateGame (computeDeltaTime now app.mTicksCount), Call.PhysTest] ++
          L.map (fun a => Call.ActorUpdate a (computeDeltaTime now app.mTicksCount)) ++
          P.map Call.ComputeWorldTransform ++
          [Call.SoundMixerUpdate (computeDeltaTime now app.mTicksCount)]) := by
  rw [UpdateFrame_eq hooks clock app now hw, if_neg (by simp [hp])]
  obtain ⟨L, hL⟩ := updatePhase_calls hooks (computeDeltaTime now app.mTicksCount)
    { app with mTicksCount := now }
  refine ⟨_, L, (updatePhase hooks (computeDeltaTime now app.mTicksCount)
    { app with mTicksCount := now }).mPendingActors, rfl, ?_, ?_⟩
  · show (Reconcile _).mTicksCount = now
    rw [Reconcile_mTicksCount, updatePhase_mTicksCount]
  · rw [call_calls, (Reconcile_spec _).2.2, hL]
    simp only [List.append_assoc]

theorem round_billion : F32.round 1000000000 = 1000000000 := by
  rw [F32.round_eq 1000000000 6 15625000 (by norm_num) (by norm_num [abs_of_pos])
    (by norm_num [abs_of_pos]) (by norm_num) (by norm_num)]
  norm_num

theorem maxDeltaTime_eq : maxDeltaTime = 13421773 / 268435456 := by
  unfold maxDeltaTime
  rw [F32.round_eq (1 / 20) (-28) 13421773 (by norm_num) (by norm_num [abs_of_pos])
    (by norm_num [abs_of_pos]) (by norm_num) (by norm_num)]
  norm_num

theorem rawDelta_mono (a b : ℕ) (h : a ≤ b) :
    F32.div (F32.ofInt (a : ℤ)) (F32.round 1000000000) ≤
      F32.div (F32.ofInt (b : ℤ)) (F32.round 1000000000) := by
  unfold F32.div F32.ofInt
  rw [round_billion]
  have ha : (0 : ℚ) ≤ ((a : ℤ) : ℚ) := by exact_mod_cast Nat.zero_le a
  have hab : ((a : ℤ) : ℚ) ≤ ((b : ℤ) : ℚ) := by exact_mod_cast h
  have h1 := F32.round_mono ha hab
  have h0 := F32.round_nonneg ha
  apply F32.round_mono (div_nonneg h0 (by norm_num))
  exact div_le_div_of_nonneg_right h1 (by norm_num)

theorem rawDelta_50ms :
    F32.div (F32.ofInt ((50000000 : ℕ) : ℤ)) (F32.round 1000000000) = maxDeltaTime := by
  unfold F32.div F32.ofInt
  rw [round_billion]
  have h : F32.round (((50000000 : ℕ) : ℤ) : ℚ) = 50000000 := by
    rw [F32.round_eq _ 2 12500000 (by norm_num) (by norm_num [abs_of_pos])
      (by norm_num [abs_of_pos]) (by norm_num) (by norm_num)]
    norm_num
  rw [h, maxDeltaTime]
  norm_num

theorem rawDelta_16ms :
    F32.div (F32.ofInt ((16000000 : ℕ) : ℤ)) (F32.round 1000000000) = 8589935 / 536870912 := by
  unfold F32.div F32.ofInt
  rw [round_billion]
  have h : F32.round (((16000000 : ℕ) : ℤ) : ℚ) = 16000000 := by
    rw [F32.round_eq _ 0 16000000 (by norm_num) (by norm_num [abs_of_pos])
      (by norm_num [abs_of_pos]) (by norm_num) (by norm_num)]
    norm_num
  rw [h, F32.round_eq _ (-29) 8589935 (by norm_num) (by norm_num [abs_of_pos])
    (by norm_num [abs_of_pos]) (by norm_num) (by norm_num)]
  norm_num

theorem computeDeltaTime_clamp (now mTicksCount : ℕ)
    (h : 50000000 ≤ elapsedNS now mTicksCount) :
    computeDeltaTime now mTicksCount = maxDeltaTime := by
  have h1 := rawDelta_mono _ _ h
  rw [rawDelta_50ms] at h1
  unfold computeDeltaTime
  simp only
  split_ifs with hgt
  · rfl
  · exact le_antisymm (not_lt.1 hgt) h1

theorem computeDeltaTime_ge (now mTicksCount : ℕ)
    (h : frameDurationNS ≤ elapsedNS now mTicksCount) :
    (2 / 125 : ℚ) ≤ computeDeltaTime now mTicksCount := by
  have h1 := rawDelta_mono _ _ h
  rw [show frameDurationNS = 16000000 from rfl, rawDelta_16ms] at h1
  unfold computeDeltaTime
  simp only
  split_ifs with hgt
  · rw [maxDeltaTime_eq]; norm_num
  · exact le_trans (by norm_num) h1

theorem waitLoop_some (mTicksCount : ℕ) (clock : List ℕ) (now : ℕ)
    (h : waitLoop mTicksCount clock = some now) :
    frameDurationNS ≤ elapsedNS now mTicksCount ∧
    ∃ earlier later, clock = earlier ++ now :: later ∧
      ∀ t ∈ earlier, elapsedNS t mTicksCount < frameDurationNS := by
  induction clock with
  | nil => simp [waitLoop] at h
  | cons c cs ih =>
    unfold waitLoop at h
    split_ifs at h with hc
    · obtain ⟨h1, earlier, later, h2, h3⟩ := ih h
      refine ⟨h1, c :: earlier, later, by rw [h2]; rfl, ?_⟩
      intro t ht
      rcases List.mem_cons.1 ht with rfl | ht
      · exact hc
      · exact h3 t ht
    · simp only [Option.some.injEq] at h
      subst h
      exact ⟨not_lt.1 hc, [], cs, rfl, by simp⟩

theorem waitLoop_none (mTicksCount : ℕ) (clock : List ℕ)
    (h : ∀ t ∈ clock, elapsedNS t mTicksCount < frameDurationNS) :
    waitLoop mTicksCount clock = none := by
  induction clock with
  | nil => rfl
  | cons c cs ih =>
    unfold waitLoop
    rw [if_pos (h c (List.mem_cons_self _ _))]
    exact ih (fun t ht => h t (List.mem_cons_of_mem _ ht))

namespace F32

theorem ulpExp_le (x : ℚ) (s : ℤ) (hs : -149 ≤ s) (h0 : x ≠ 0) (hx : |x| < 2 ^ (s + 24)) :
    ulpExp x ≤ s := by
  unfold ulpExp
  have hpos : 0 < |x| := abs_pos.2 h0
  have := (Int.lt_zpow_iff_log_lt (b := 2) (by norm_num) hpos).1 (by exact_mod_cast hx)
  omega

/-- A multiple of `2 ^ s` with a significand below `2 ^ 24` is a binary32
value: rounding leaves it alone. -/
theorem round_of_representable (k s : ℤ) (hs : -149 ≤ s) (hk : |k| < 2 ^ 24) :
    round (k * 2 ^ s) = k * 2 ^ s := by
  rcases eq_or_ne k 0 with rfl | hk0
  · simp [round_zero]
  have hx : |(k : ℚ) * 2 ^ s| < 2 ^ (s + 24) := by
    rw [abs_mul, abs_of_pos (two_zpow_pos s), zpow_add₀ (by norm_num), mul_comm]
    apply mul_lt_mul_of_pos_left _ (two_zpow_pos s)
    have h2 : ((|k| : ℤ) : ℚ) < ((2 ^ 24 : ℤ) : ℚ) := by exact_mod_cast hk
    rw [Int.cast_abs] at h2
    norm_num at h2 ⊢
    exact h2
  have hne : (k : ℚ) * 2 ^ s ≠ 0 :=
    mul_ne_zero (by exact_mod_cast hk0) (two_zpow_pos s).ne'
  have hu := ulpExp_le _ s hs hne hx
  unfold round
  generalize ulpExp ((k : ℚ) * 2 ^ s) = u at hu
  obtain ⟨n, hn⟩ := Int.eq_ofNat_of_zero_le (show 0 ≤ s - u by omega)
  have hpow : (2 : ℚ) ^ s = ((2 ^ n : ℤ) : ℚ) * 2 ^ u := by
    rw [show s = (n : ℤ) + u by omega, zpow_add₀ (by norm_num)]
    push_cast
    rw [zpow_natCast]
  have hdiv : (k : ℚ) * 2 ^ s / 2 ^ u = ((k * 2 ^ n : ℤ) : ℚ) := by
    rw [div_eq_iff (two_zpow_pos _).ne', hpow]
    push_cast
    ring
  rw [hdiv, roundHalfEven_intCast, hpow]
  push_cast
  ring

/-- A rational within half a unit in the last place of a multiple of that unit
rounds to it. -/
theorem round_eq_of_near (x r : ℚ) (k : ℤ) (hr : r = k * 2 ^ ulpExp x)
    (hnear : |x - r| < 2 ^ ulpExp x / 2) : round x = r := by
  have hp := two_zpow_pos (ulpExp x)
  have h := abs_lt.1 hnear
  unfold round
  rw [roundHalfEven_eq_of_lt _ k, hr]
  · rw [lt_div_iff₀ hp]
    have : (k : ℚ) * 2 ^ ulpExp x = r := hr.symm
    nlinarith
  · rw [div_lt_iff₀ hp]
    have : (k : ℚ) * 2 ^ ulpExp x = r := hr.symm
    nlinarith

theorem round_intCast (n : ℤ) (hn : |n| < 2 ^ 24) : round (n : ℚ) = n := by
  have := round_of_representable n 0 (by norm_num) hn
  simpa using this

theorem round_le_grid (x : ℚ) (k s : ℤ) (hs : -149 ≤ s) (hk : |k| < 2 ^ 24) (hx : 0 ≤ x)
    (h : x ≤ k * 2 ^ s) : round x ≤ k * 2 ^ s :=
  (round_mono hx h).trans_eq (round_of_representable k s hs hk)

theorem grid_le_round (x : ℚ) (k s : ℤ) (hs : -149 ≤ s) (hk : |k| < 2 ^ 24)
    (h0 : (0 : ℚ) ≤ k * 2 ^ s) (h : (k : ℚ) * 2 ^ s ≤ x) : (k : ℚ) * 2 ^ s ≤ round x :=
  (round_of_representable k s hs hk).symm.trans_le (round_mono h0 h)

/-- The last two steps of a correction, `static_cast<int>(p + 0.5f)`, for a
binary32 value `p` between `n - 1/2` and `n + 1/2 - 1/256`. -/
theorem toInt_add_half (p : ℚ) (n : ℤ) (hn1 : 1 ≤ n) (hn2 : n < 65535)
    (hA : (n : ℚ) - 1 / 2 ≤ p) (hB : p ≤ n + 1 / 2 - 1 / 256) :
    toInt (add p (1 / 2)) = n := by
  have hn1' : (1 : ℚ) ≤ n := by exact_mod_cast hn1
  have hlo : (n : ℚ) ≤ round (p + 1 / 2) := by
    have := grid_le_round (p + 1 / 2) n 0 (by norm_num)
      (by rw [abs_of_pos (by omega)]; omega) (by simp; linarith) (by simp; linarith)
    simpa using this
  have hhi : round (p + 1 / 2) ≤ (n : ℚ) + 1 - 1 / 256 := by
    have := round_le_grid (p + 1 / 2) (256 * n + 255) (-8) (by norm_num)
      (by rw [abs_of_pos (by omega)]; omega) (by linarith)
      (by push_cast; norm_num; linarith)
    have e : ((256 * n + 255 : ℤ) : ℚ) * 2 ^ (-8 : ℤ) = (n : ℚ) + 1 - 1 / 256 := by
      push_cast; norm_num; ring
    rwa [e] at this
  unfold toInt add
  rw [if_pos (by linarith), Int.floor_eq_iff]
  constructor <;> linarith

end F32

theorem ofInt_exact (n : ℤ) (h0 : 0 < n) (h1 : n ≤ 32768) : F32.ofInt n = n :=
  F32.round_intCast n (by rw [abs_of_pos h0]; omega)

theorem aspect_gt (w h : ℤ) (hh : 0 < h) (hh' : h ≤ 32768)
    (hlt : 16 * h < 9 * w) : aspect16by9 < F32.round ((w : ℚ) / h) := by
  have hhq : (0 : ℚ) < h := by exact_mod_cast hh
  have h1 : ((16 * h + 1 : ℤ) : ℚ) ≤ ((9 * w : ℤ) : ℚ) := by exact_mod_cast (by omega)
  have h2 : ((h : ℤ) : ℚ) ≤ 32768 := by exact_mod_cast hh'
  push_cast at h1
  have hy : (14913082 : ℚ) * 2 ^ (-23 : ℤ) ≤ (w : ℚ) / h := by
    rw [le_div_iff₀ hhq]
    norm_num
    nlinarith
  have := F32.grid_le_round _ 14913082 (-23) (by norm_num) (by norm_num) (by norm_num) hy
  unfold aspect16by9
  norm_num at this ⊢
  linarith

theorem aspect_lt (w h : ℤ) (hw : 0 < w) (hh : 0 < h) (hh' : h ≤ 32768)
    (hlt : 9 * w < 16 * h) : F32.round ((w : ℚ) / h) < aspect16by9 := by
  have hhq : (0 : ℚ) < h := by exact_mod_cast hh
  have hwq : (0 : ℚ) < w := by exact_mod_cast hw
  have h1 : ((9 * w + 1 : ℤ) : ℚ) ≤ ((16 * h : ℤ) : ℚ) := by exact_mod_cast (by omega)
  have h2 : ((h : ℤ) : ℚ) ≤ 32768 := by exact_mod_cast hh'
  push_cast at h1
  have hy : (w : ℚ) / h ≤ (14913080 : ℚ) * 2 ^ (-23 : ℤ) := by
    rw [div_le_iff₀ hhq]
    norm_num
    nlinarith
  have := F32.round_le_grid _ 14913080 (-23) (by norm_num) (by norm_num)
    (div_nonneg hwq.le hhq.le) hy
  unfold aspect16by9
  norm_num at this ⊢
  linarith

theorem aspect_eq (w h : ℤ) (hh : 0 < h) (heq : 9 * w = 16 * h) :
    F32.round ((w : ℚ) / h) = aspect16by9 := by
  have hhq : (0 : ℚ) < h := by exact_mod_cast hh
  have h1 : ((9 * w : ℤ) : ℚ) = ((16 * h : ℤ) : ℚ) := by exact_mod_cast heq
  push_cast at h1
  have : (w : ℚ) / h = 16 / 9 := by
    rw [div_eq_iff hhq.ne']
    linarith
  rw [this, F32.round_eq (16 / 9) (-23) 14913081 (by norm_num)
    (by norm_num [abs_of_pos]) (by norm_num [abs_of_pos]) (by norm_num) (by norm_num)]
  unfold aspect16by9
  norm_num

theorem width_16by9 (h : ℤ) (hh : 0 < h) (hh' : h ≤ 32768) :
    F32.toInt (F32.add (F32.mul (F32.ofInt h) aspect16by9) (1 / 2)) =
      ⌊(h : ℚ) * (16 / 9) + 1 / 2⌋ := by
  rw [ofInt_exact h hh hh']
  obtain ⟨n, hn⟩ : ∃ n : ℤ, ⌊(h : ℚ) * (16 / 9) + 1 / 2⌋ = n := ⟨_, rfl⟩
  rw [hn]
  have hfl := Int.floor_eq_iff.1 hn
  have hhq : (1 : ℚ) ≤ h := by exact_mod_cast hh
  have hhq' : (h : ℚ) ≤ 32768 := by exact_mod_cast hh'
  -- `32 h + 9` is odd, so `16 h / 9 + 1 / 2` stays `1 / 18` away from the integers
  have i1 : 18 * n ≤ 32 * h + 9 := by
    have : ((18 * n : ℤ) : ℚ) ≤ ((32 * h + 9 : ℤ) : ℚ) := by push_cast; linarith [hfl.1]
    exact_mod_cast this
  have i2 : 32 * h + 9 < 18 * n + 18 := by
    have : ((32 * h + 9 : ℤ) : ℚ) < ((18 * n + 18 : ℤ) : ℚ) := by push_cast; linarith [hfl.2]
    exact_mod_cast this
  have j1 : ((18 * n + 1 : ℤ) : ℚ) ≤ ((32 * h + 9 : ℤ) : ℚ) := by exact_mod_cast (by omega)
  have j2 : ((32 * h + 9 : ℤ) : ℚ) ≤ ((18 * n + 17 : ℤ) : ℚ) := by exact_mod_cast (by omega)
  push_cast at j1 j2
  have hn1 : 1 ≤ n := by omega
  have hn2 : n < 65535 := by omega
  have hx0 : (0 : ℚ) ≤ (h : ℚ) * aspect16by9 := by unfold aspect16by9; positivity
  apply F32.toInt_add_half _ n hn1 hn2
  · have := F32.grid_le_round ((h : ℚ) * aspect16by9) (2 * n - 1) (-1) (by norm_num)
      (by rw [abs_of_pos (by omega)]; omega)
      (by push_cast; norm_num; linarith [show (1 : ℚ) ≤ n by exact_mod_cast hn1])
      (by unfold aspect16by9; push_cast; norm_num; linarith)
    have e : ((2 * n - 1 : ℤ) : ℚ) * 2 ^ (-1 : ℤ) = (n : ℚ) - 1 / 2 := by
      push_cast; norm_num; ring
    rw [e] at this
    exact this
  · have := F32.round_le_grid ((h : ℚ) * aspect16by9) (256 * n + 127) (-8) (by norm_num)
      (by rw [abs_of_pos (by omega)]; omega) hx0
      (by unfold aspect16by9; push_cast; norm_num; linarith)
    have e : ((256 * n + 127 : ℤ) : ℚ) * 2 ^ (-8 : ℤ) = (n : ℚ) + 1 / 2 - 1 / 256 := by
      push_cast; norm_num; ring
    rw [e] at this
    exact this

/-- In the tie case `9 w / 16 = n - 1 / 2` the quotient `w / aspect16by9` lies just
below `n - 1 / 2`, closer to it than half a unit in the last place. -/
theorem div_tie_16by9 (w n : ℤ) (hw : 0 < w) (hw' : w ≤ 32768) (htie : 9 * w + 8 = 16 * n) :
    F32.round ((w : ℚ) / aspect16by9) = (n : ℚ) - 1 / 2 := by
  have hwq : (0 : ℚ) < w := by exact_mod_cast hw
  have hwq' : (w : ℚ) ≤ 32768 := by exact_mod_cast hw'
  have hq : ((9 * w + 8 : ℤ) : ℚ) = ((16 * n : ℤ) : ℚ) := by exact_mod_cast htie
  push_cast at hq
  obtain ⟨x, hx⟩ : ∃ x : ℚ, (w : ℚ) / aspect16by9 = x := ⟨_, rfl⟩
  have hxw : x = (w : ℚ) * 8388608 / 14913081 := by
    rw [← hx]; unfold aspect16by9; field_simp
  have hxpos : 0 < x := by rw [hxw]; positivity
  have hX : (n : ℚ) - 1 / 2 - x = x / 134217728 := by rw [hxw]; linarith
  rw [hx]
  -- the binade of `x`
  have hL1 := F32.zpow_log_le x hxpos
  have hL2 : x < (2 : ℚ) ^ (Int.log 2 x + 1) :=
    F32.lt_zpow_of_log_lt x hxpos _ (by omega)
  have hLle : Int.log 2 x ≤ 22 := by
    have : Int.log 2 x < 23 :=
      (Int.lt_zpow_iff_log_lt (b := 2) (by norm_num) hxpos).1 (by
        rw [hxw]; norm_num; linarith)
    omega
  have hu1 : Int.log 2 x - 23 ≤ F32.ulpExp x := by
    unfold F32.ulpExp; rw [abs_of_pos hxpos]; exact le_max_left _ _
  have hu2 : F32.ulpExp x ≤ -1 := by
    unfold F32.ulpExp; rw [abs_of_pos hxpos]; omega
  obtain ⟨m, hm⟩ := Int.eq_ofNat_of_zero_le (show 0 ≤ -1 - F32.ulpExp x by omega)
  have hhalf : (1 / 2 : ℚ) = ((2 ^ m : ℤ) : ℚ) * 2 ^ F32.ulpExp x := by
    have : (2 : ℚ) ^ (-1 : ℤ) = 2 ^ ((m : ℤ) + F32.ulpExp x) := by
      congr 1; omega
    rw [zpow_add₀ (by norm_num), zpow_natCast] at this
    push_cast
    rw [← this]; norm_num
  apply F32.round_eq_of_near x _ ((2 * n - 1) * 2 ^ m)
  · have : (n : ℚ) - 1 / 2 = (2 * n - 1) * (1 / 2) := by ring
    rw [this, hhalf]
    push_cast
    ring
  · rw [abs_sub_comm, abs_of_pos (by rw [hX]; positivity), hX]
    have h3 : (2 : ℚ) ^ (Int.log 2 x + 1) = 2 ^ (Int.log 2 x - 23) * 2 ^ (24 : ℤ) := by
      rw [← zpow_add₀ (by norm_num)]; congr 1; ring
    have h4 : (2 : ℚ) ^ (Int.log 2 x - 23) ≤ 2 ^ F32.ulpExp x :=
      zpow_le_zpow_right₀ (by norm_num) hu1
    have h5 := F32.two_zpow_pos (Int.log 2 x - 23)
    rw [h3] at hL2
    norm_num at hL2
    linarith

theorem height_16by9 (w : ℤ) (hw : 0 < w) (hw' : w ≤ 32768) :
    F32.toInt (F32.add (F32.div (F32.ofInt w) aspect16by9) (1 / 2)) =
      ⌊(w : ℚ) / (16 / 9) + 1 / 2⌋ := by
  rw [ofInt_exact w hw hw']
  obtain ⟨n, hn⟩ : ∃ n : ℤ, ⌊(w : ℚ) / (16 / 9) + 1 / 2⌋ = n := ⟨_, rfl⟩
  rw [hn]
  have hfl := Int.floor_eq_iff.1 hn
  have hwq : (1 : ℚ) ≤ w := by exact_mod_cast hw
  have hwq' : (w : ℚ) ≤ 32768 := by exact_mod_cast hw'
  have e0 : (w : ℚ) / (16 / 9) + 1 / 2 = (9 * w + 8) / 16 := by ring
  rw [e0] at hfl
  have i1 : 16 * n ≤ 9 * w + 8 := by
    have : ((16 * n : ℤ) : ℚ) ≤ ((9 * w + 8 : ℤ) : ℚ) := by push_cast; linarith [hfl.1]
    exact_mod_cast this
  have i2 : 9 * w + 8 < 16 * n + 16 := by
    have : ((9 * w + 8 : ℤ) : ℚ) < ((16 * n + 16 : ℤ) : ℚ) := by push_cast; linarith [hfl.2]
    exact_mod_cast this
  have j2 : ((9 * w + 8 : ℤ) : ℚ) ≤ ((16 * n + 15 : ℤ) : ℚ) := by exact_mod_cast (by omega)
  push_cast at j2
  have hn1 : 1 ≤ n := by omega
  have hn2 : n < 65535 := by omega
  have hxw : (w : ℚ) / aspect16by9 = (w : ℚ) * 8388608 / 14913081 := by
    unfold aspect16by9; field_simp
  have hx0 : (0 : ℚ) ≤ (w : ℚ) / aspect16by9 := by rw [hxw]; positivity
  apply F32.toInt_add_half _ n hn1 hn2
  · rcases eq_or_lt_of_le i1 with htie | hlt
    · exact (div_tie_16by9 w n hw hw' htie.symm).ge
    · have j1 : ((16 * n + 1 : ℤ) : ℚ) ≤ ((9 * w + 8 : ℤ) : ℚ) := by exact_mod_cast (by omega)
      push_cast at j1
      have := F32.grid_le_round ((w : ℚ) / aspect16by9) (2 * n - 1) (-1) (by norm_num)
        (by rw [abs_of_pos (by omega)]; omega)
        (by push_cast; norm_num; linarith [show (1 : ℚ) ≤ n by exact_mod_cast hn1])
        (by rw [hxw]; push_cast; norm_num; linarith)
      have e : ((2 * n - 1 : ℤ) : ℚ) * 2 ^ (-1 : ℤ) = (n : ℚ) - 1 / 2 := by
        push_cast; norm_num; ring
      rw [e] at this
      exact this
  · have := F32.round_le_grid ((w : ℚ) / aspect16by9) (256 * n + 127) (-8) (by norm_num)
      (by rw [abs_of_pos (by omega)]; omega) hx0
      (by rw [hxw]; push_cast; norm_num; linarith)
    have e : ((256 * n + 127 : ℤ) : ℚ) * 2 ^ (-8 : ℤ) = (n : ℚ) + 1 / 2 - 1 / 256 := by
      push_cast; norm_num; ring
    rw [e] at this
    exact this

/-- On window sizes up to 32768 the binary32 correction towards `16.0f / 9.0f`
is the exact correction towards 16:9. -/
theorem correctedSize_16by9 (w h : ℤ) (hw : 0 < w) (hw' : w ≤ 32768) (hh : 0 < h)
    (hh' : h ≤ 32768) :
    correctedSize aspect16by9 w h = correctedSizeExact (16 / 9) w h := by
  have hhq : (0 : ℚ) < h := by exact_mod_cast hh
  have hcmp1 : (w : ℚ) / h > 16 / 9 ↔ 16 * h < 9 * w := by
    rw [gt_iff_lt, lt_div_iff₀ hhq]
    constructor
    · intro hlt
      have : ((16 * h : ℤ) : ℚ) < ((9 * w : ℤ) : ℚ) := by push_cast; linarith
      exact_mod_cast this
    · intro hlt
      have : ((16 * h : ℤ) : ℚ) < ((9 * w : ℤ) : ℚ) := by exact_mod_cast hlt
      push_cast at this; linarith
  have hcmp2 : (w : ℚ) / h < 16 / 9 ↔ 9 * w < 16 * h := by
    rw [div_lt_iff₀ hhq]
    constructor
    · intro hlt
      have : ((9 * w : ℤ) : ℚ) < ((16 * h : ℤ) : ℚ) := by push_cast; linarith
      exact_mod_cast this
    · intro hlt
      have : ((9 * w : ℤ) : ℚ) < ((16 * h : ℤ) : ℚ) := by exact_mod_cast hlt
      push_cast at this; linarith
  unfold correctedSize correctedSizeExact
  simp only [hcmp1, hcmp2]
  have hdiv : F32.div (F32.ofInt w) (F32.ofInt h) = F32.round ((w : ℚ) / h) := by
    rw [ofInt_exact w hw hw', ofInt_exact h hh hh']; rfl
  rw [hdiv]
  rcases lt_trichotomy (9 * w) (16 * h) with hlt | heq | hgt
  · have := aspect_lt w h hw hh hh' hlt
    rw [if_neg (by linarith), if_pos this, if_neg (by omega), if_pos hlt, height_16by9 w hw hw']
  · rw [aspect_eq w h hh heq, if_neg (lt_irrefl _), if_neg (lt_irrefl _), if_neg (by omega),
      if_neg (by omega)]
  · have := aspect_gt w h hh hh' hgt
    rw [if_pos this, if_pos hgt, width_16by9 h hh hh']

/-- The target aspect set by the constructor, `16.0f / 9.0f`. -/
theorem targetAspect_new : Application.new.mTargetAspect = 14913081 / 8388608 := by
  have h16 : F32.round 16 = 16 := by
    rw [F32.round_eq 16 (-19) 8388608 (by norm_num) (by norm_num [abs_of_pos])
      (by norm_num [abs_of_pos]) (by norm_num) (by norm_num)]
    norm_num
  have h9 : F32.round 9 = 9 := by
    rw [F32.round_eq 9 (-20) 9437184 (by norm_num) (by norm_num [abs_of_pos])
      (by norm_num [abs_of_pos]) (by norm_num) (by norm_num)]
    norm_num
  show F32.div (F32.round 16) (F32.round 9) = _
  unfold F32.div
  rw [h16, h9, F32.round_eq (16 / 9) (-23) 14913081 (by norm_num)
    (by norm_num [abs_of_pos]) (by norm_num [abs_of_pos]) (by norm_num) (by norm_num)]
  norm_num

theorem toInt_of_nonneg (x : ℚ) (n : ℤ) (h1 : (n : ℚ) ≤ x) (h2 : x < n + 1) (h0 : 0 ≤ x) :
    F32.toInt x = n := by
  unfold F32.toInt
  rw [if_pos h0, Int.floor_eq_iff]
  exact ⟨h1, h2⟩

theorem correctedSize_1179662_589831 :
    correctedSize (14913081 / 8388608) 1179662 589831 = (1048589, 589831) := by
  have hw : F32.ofInt 1179662 = 1179662 := by
    unfold F32.ofInt
    rw [F32.round_eq _ (-3) 9437296 (by norm_num) (by norm_num [abs_of_pos])
      (by norm_num [abs_of_pos]) (by norm_num) (by norm_num)]
    norm_num
  have hh : F32.ofInt 589831 = 589831 := by
    unfold F32.ofInt
    rw [F32.round_eq _ (-4) 9437296 (by norm_num) (by norm_num [abs_of_pos])
      (by norm_num [abs_of_pos]) (by norm_num) (by norm_num)]
    norm_num
  have ha : F32.div 1179662 589831 = 2 := by
    unfold F32.div
    rw [F32.round_eq _ (-22) 8388608 (by norm_num) (by norm_num [abs_of_pos])
      (by norm_num [abs_of_pos]) (by norm_num) (by norm_num)]
    norm_num
  have hm : F32.mul 589831 (14913081 / 8388608) = 2097177 / 2 := by
    unfold F32.mul
    rw [F32.round_eq _ (-3) 8388708 (by norm_num) (by norm_num [abs_of_pos])
      (by norm_num [abs_of_pos]) (by norm_num) (by norm_num)]
    norm_num
  have hs : F32.add (2097177 / 2) (1 / 2) = 1048589 := by
    unfold F32.add
    rw [F32.round_eq _ (-3) 8388712 (by norm_num) (by norm_num [abs_of_pos])
      (by norm_num [abs_of_pos]) (by norm_num) (by norm_num)]
    norm_num
  unfold correctedSize
  simp only [hw, hh, ha, hm, hs]
  rw [if_pos (by norm_num)]
  rw [toInt_of_nonneg 1048589 1048589 (by norm_num) (by norm_num) (by norm_num)]

theorem correctedSize_1286_900 :
    correctedSize aspect16by9 1286 900 = (1286, 723) := by
  have hw : F32.ofInt 1286 = 1286 := ofInt_exact 1286 (by norm_num) (by norm_num)
  have hh : F32.ofInt 900 = 900 := ofInt_exact 900 (by norm_num) (by norm_num)
  have h_div_a : F32.div 1286 900 = 11986389 / 8388608 := by
    unfold F32.div
    rw [F32.round_eq _ (-23) 11986389 (by norm_num) (by norm_num [abs_of_pos])
      (by norm_num [abs_of_pos]) (by norm_num) (by norm_num)]
    norm_num
  have h_div_b : F32.div 1286 aspect16by9 = 5787 / 8 := by
    unfold F32.div aspect16by9
    rw [F32.round_eq _ (-14) 11851776 (by norm_num) (by norm_num [abs_of_pos])
      (by norm_num [abs_of_pos]) (by norm_num) (by norm_num)]
    norm_num
  have h_add : F32.add (5787 / 8) (1 / 2) = 5791 / 8 := by
    unfold F32.add
    rw [F32.round_eq _ (-14) 11859968 (by norm_num) (by norm_num [abs_of_pos])
      (by norm_num [abs_of_pos]) (by norm_num) (by norm_num)]
    norm_num
  unfold correctedSize
  simp only [hw, hh, h_div_a, h_div_b, h_add]
  rw [if_neg (by unfold aspect16by9; norm_num), if_pos (by unfold aspect16by9; norm_num)]
  rw [toInt_of_nonneg (5791 / 8) 723 (by norm_num) (by norm_num) (by norm_num)]

theorem correctedSize_1286_723 :
    correctedSize aspect16by9 1286 723 = (1285, 723) := by
  have hw : F32.ofInt 1286 = 1286 := ofInt_exact 1286 (by norm_num) (by norm_num)
  have hh : F32.ofInt 723 = 723 := ofInt_exact 723 (by norm_num) (by norm_num)
  have h_div_a : F32.div 1286 723 = 932551 / 524288 := by
    unfold F32.div
    rw [F32.round_eq _ (-23) 14920816 (by norm_num) (by norm_num [abs_of_pos])
      (by norm_num [abs_of_pos]) (by norm_num) (by norm_num)]
    norm_num
  have h_mul : F32.mul 723 aspect16by9 = 10529451 / 8192 := by
    unfold F32.mul aspect16by9
    rw [F32.round_eq _ (-13) 10529451 (by norm_num) (by norm_num [abs_of_pos])
      (by norm_num [abs_of_pos]) (by norm_num) (by norm_num)]
    norm_num
  have h_add : F32.add (10529451 / 8192) (1 / 2) = 10533547 / 8192 := by
    unfold F32.add
    rw [F32.round_eq _ (-13) 10533547 (by norm_num) (by norm_num [abs_of_pos])
      (by norm_num [abs_of_pos]) (by norm_num) (by norm_num)]
    norm_num
  unfold correctedSize
  simp only [hw, hh, h_div_a, h_mul, h_add]
  rw [if_pos (by unfold aspect16by9; norm_num)]
  rw [toInt_of_nonneg (10533547 / 8192) 1285 (by norm_num) (by norm_num) (by norm_num)]

theorem correctedSize_1000_500 :
    correctedSize aspect16by9 1000 500 = (889, 500) := by
  have hw : F32.ofInt 1000 = 1000 := ofInt_exact 1000 (by norm_num) (by norm_num)
  have hh : F32.ofInt 500 = 500 := ofInt_exact 500 (by norm_num) (by norm_num)
  have h_div_a : F32.div 1000 500 = 2 := by
    unfold F32.div
    rw [F32.round_eq _ (-22) 8388608 (by norm_num) (by norm_num [abs_of_pos])
      (by norm_num [abs_of_pos]) (by norm_num) (by norm_num)]
    norm_num
  have h_mul : F32.mul 500 aspect16by9 = 3640889 / 4096 := by
    unfold F32.mul aspect16by9
    rw [F32.round_eq _ (-14) 14563556 (by norm_num) (by norm_num [abs_of_pos])
      (by norm_num [abs_of_pos]) (by norm_num) (by norm_num)]
    norm_num
  have h_add : F32.add (3640889 / 4096) (1 / 2) = 3642937 / 4096 := by
    unfold F32.add
    rw [F32.round_eq _ (-14) 14571748 (by norm_num) (by norm_num [abs_of_pos])
      (by norm_num [abs_of_pos]) (by norm_num) (by norm_num)]
    norm_num
  unfold correctedSize
  simp only [hw, hh, h_div_a, h_mul, h_add]
  rw [if_pos (by unfold aspect16by9; norm_num)]
  rw [toInt_of_nonneg (3642937 / 4096) 889 (by norm_num) (by norm_num) (by norm_num)]

theorem correctedSize_889_500 :
    correctedSize aspect16by9 889 500 = (889, 500) := by
  have hw : F32.ofInt 889 = 889 := ofInt_exact 889 (by norm_num) (by norm_num)
  have hh : F32.ofInt 500 = 500 := ofInt_exact 500 (by norm_num) (by norm_num)
  have h_div_a : F32.div 889 500 = 14914945 / 8388608 := by
    unfold F32.div
    rw [F32.round_eq _ (-23) 14914945 (by norm_num) (by norm_num [abs_of_pos])
      (by norm_num [abs_of_pos]) (by norm_num) (by norm_num)]
    norm_num
  have h_mul : F32.mul 500 aspect16by9 = 3640889 / 4096 := by
    unfold F32.mul aspect16by9
    rw [F32.round_eq _ (-14) 14563556 (by norm_num) (by norm_num [abs_of_pos])
      (by norm_num [abs_of_pos]) (by norm_num) (by norm_num)]
    norm_num
  have h_add : F32.add (3640889 / 4096) (1 / 2) = 3642937 / 4096 := by
    unfold F32.add
    rw [F32.round_eq _ (-14) 14571748 (by norm_num) (by norm_num [abs_of_pos])
      (by norm_num [abs_of_pos]) (by norm_num) (by norm_num)]
    norm_num
  unfold correctedSize
  simp only [hw, hh, h_div_a, h_mul, h_add]
  rw [if_pos (by unfold aspect16by9; norm_num)]
  rw [toInt_of_nonneg (3642937 / 4096) 889 (by norm_num) (by norm_num) (by norm_num)]

theorem handleEvent_resized (sdl : SDL) (id : ℕ) (w h : ℤ) (app : Application)
    (hwin : app.mWindow = some id) (hlock : app.mLockAspect = true)
    (hfs : app.mIsFullScreen = false) (hadj : app.mIsAdjustingSize = false)
    (hw : 0 < w) (hh : 0 < h) :
    handleEvent app (Event.WINDOW_RESIZED id w h, sdl) =
      if correctedSize app.mTargetAspect w h = (w, h) then
        HandleWindowResized sdl.GetWindowSizeInPixels app
      else ({ app with mIsAdjustingSize := true }).call
        (Call.SDL_SetWindowSize (correctedSize app.mTargetAspect w h).1
          (correctedSize app.mTargetAspect w h).2) := by
  simp only [handleEvent, onWindowResizedEvent, hwin, SDL_GetWindowID, hlock, hfs, hadj]
  simp only [Option.getD_some, ne_eq, not_true_eq_false, if_false, Bool.not_true,
    Bool.false_eq_true, reduceCtorEq, not_le.2 hw, not_le.2 hh, or_self, Prod.ext_iff]

theorem floor_width_iff (h n : ℤ) :
    ⌊(h : ℚ) * (16 / 9) + 1 / 2⌋ = n ↔ 18 * n ≤ 32 * h + 9 ∧ 32 * h + 9 < 18 * n + 18 := by
  rw [Int.floor_eq_iff]
  constructor
  · rintro ⟨h1, h2⟩
    constructor
    · have : ((18 * n : ℤ) : ℚ) ≤ ((32 * h + 9 : ℤ) : ℚ) := by push_cast; linarith
      exact_mod_cast this
    · have : ((32 * h + 9 : ℤ) : ℚ) < ((18 * n + 18 : ℤ) : ℚ) := by push_cast; linarith
      exact_mod_cast this
  · rintro ⟨h1, h2⟩
    have h1' : ((18 * n : ℤ) : ℚ) ≤ ((32 * h + 9 : ℤ) : ℚ) := by exact_mod_cast h1
    have h2' : ((32 * h + 9 : ℤ) : ℚ) < ((18 * n + 18 : ℤ) : ℚ) := by exact_mod_cast h2
    push_cast at h1' h2'
    constructor <;> linarith

theorem floor_height_iff (w m : ℤ) :
    ⌊(w : ℚ) / (16 / 9) + 1 / 2⌋ = m ↔ 16 * m ≤ 9 * w + 8 ∧ 9 * w + 8 < 16 * m + 16 := by
  rw [Int.floor_eq_iff]
  have e0 : (w : ℚ) / (16 / 9) + 1 / 2 = (9 * w + 8) / 16 := by ring
  rw [e0]
  constructor
  · rintro ⟨h1, h2⟩
    constructor
    · have : ((16 * m : ℤ) : ℚ) ≤ ((9 * w + 8 : ℤ) : ℚ) := by push_cast; linarith
      exact_mod_cast this
    · have : ((9 * w + 8 : ℤ) : ℚ) < ((16 * m + 16 : ℤ) : ℚ) := by push_cast; linarith
      exact_mod_cast this
  · rintro ⟨h1, h2⟩
    have h1' : ((16 * m : ℤ) : ℚ) ≤ ((9 * w + 8 : ℤ) : ℚ) := by exact_mod_cast h1
    have h2' : ((9 * w + 8 : ℤ) : ℚ) < ((16 * m + 16 : ℤ) : ℚ) := by exact_mod_cast h2
    push_cast at h1' h2'
    constructor <;> linarith

theorem correctedSizeExact_16by9 (w h : ℤ) (hh : 0 < h) :
    correctedSizeExact (16 / 9) w h =
      if 16 * h < 9 * w then (⌊(h : ℚ) * (16 / 9) + 1 / 2⌋, h)
      else if 9 * w < 16 * h then (w, ⌊(w : ℚ) / (16 / 9) + 1 / 2⌋)
      else (w, h) := by
  have hhq : (0 : ℚ) < h := by exact_mod_cast hh
  have hcmp1 : (w : ℚ) / h > 16 / 9 ↔ 16 * h < 9 * w := by
    rw [gt_iff_lt, lt_div_iff₀ hhq]
    constructor
    · intro hlt
      have : ((16 * h : ℤ) : ℚ) < ((9 * w : ℤ) : ℚ) := by push_cast; linarith
      exact_mod_cast this
    · intro hlt
      have : ((16 * h : ℤ) : ℚ) < ((9 * w : ℤ) : ℚ) := by exact_mod_cast hlt
      push_cast at this; linarith
  have hcmp2 : (w : ℚ) / h < 16 / 9 ↔ 9 * w < 16 * h := by
    rw [div_lt_iff₀ hhq]
    constructor
    · intro hlt
      have : ((9 * w : ℤ) : ℚ) < ((16 * h : ℤ) : ℚ) := by push_cast; linarith
      exact_mod_cast this
    · intro hlt
      have : ((9 * w : ℤ) : ℚ) < ((16 * h : ℤ) : ℚ) := by exact_mod_cast hlt
      push_cast at this; linarith
  unfold correctedSizeExact
  simp only [hcmp1, hcmp2]

theorem correctedSize_wide_again (w h : ℤ) (hw : 0 < w) (hw' : w ≤ 32768) (hh : 0 < h)
    (hh' : h ≤ 32768) (hwide : 16 * h ≤ 9 * w) :
    correctedSize aspect16by9 (correctedSize aspect16by9 w h).1
      (correctedSize aspect16by9 w h).2 = correctedSize aspect16by9 w h := by
  rw [correctedSize_16by9 w h hw hw' hh hh', correctedSizeExact_16by9 w h hh]
  rcases eq_or_lt_of_le hwide with heq | hlt
  · rw [if_neg (by omega), if_neg (by omega)]
    show correctedSize aspect16by9 w h = (w, h)
    rw [correctedSize_16by9 w h hw hw' hh hh', correctedSizeExact_16by9 w h hh,
      if_neg (by omega), if_neg (by omega)]
  · rw [if_pos hlt]
    obtain ⟨n, hn⟩ : ∃ n : ℤ, ⌊(h : ℚ) * (16 / 9) + 1 / 2⌋ = n := ⟨_, rfl⟩
    rw [hn]
    obtain ⟨b1, b2⟩ := (floor_width_iff h n).1 hn
    show correctedSize aspect16by9 n h = (n, h)
    rw [correctedSize_16by9 n h (by omega) (by omega) hh hh', correctedSizeExact_16by9 n h hh]
    split_ifs with c1 c2
    · rw [hn]
    · rw [(floor_height_iff n h).2 ⟨by omega, by omega⟩]
    · rfl

theorem handleEvent_while_fullscreen (app : Application) (ev : Event × SDL)
    (hfs : app.mIsFullScreen = true)
    (hkey : ∀ scancode altHeld, ev.1 ≠ Event.KEY_DOWN scancode altHeld) :
    (handleEvent app ev).mIsFullScreen = true ∧
    (handleEvent app ev).mWindow = app.mWindow ∧
    (handleEvent app ev).mWindowedWidth = app.mWindowedWidth ∧
    (handleEvent app ev).mWindowedHeight = app.mWindowedHeight := by
  obtain ⟨e, sdl⟩ := ev
  cases e with
  | QUIT => exact ⟨hfs, rfl, rfl, rfl⟩
  | KEY_DOWN scancode altHeld => exact absurd rfl (hkey scancode altHeld)
  | WINDOW_PIXEL_SIZE_CHANGED windowID =>
    simp only [handleEvent, HandleWindowResized]
    split_ifs
    · cases hw : app.mWindow <;> simp [hw, hfs, Application.call]
    · exact ⟨hfs, rfl, rfl, rfl⟩
  | WINDOW_RESIZED windowID data1 data2 =>
    simp only [handleEvent, onWindowResizedEvent, hfs]
    split_ifs <;> exact ⟨hfs, rfl, rfl, rfl⟩
  | OTHER => exact ⟨hfs, rfl, rfl, rfl⟩

theorem foldl_handleEvent_while_fullscreen (events : List (Event × SDL)) (app : Application)
    (hfs : app.mIsFullScreen = true)
    (hkey : ∀ ev ∈ events, ∀ scancode altHeld, ev.1 ≠ Event.KEY_DOWN scancode altHeld) :
    (events.foldl handleEvent app).mIsFullScreen = true ∧
    (events.foldl handleEvent app).mWindow = app.mWindow ∧
    (events.foldl handleEvent app).mWindowedWidth = app.mWindowedWidth ∧
    (events.foldl handleEvent app).mWindowedHeight = app.mWindowedHeight := by
  induction events generalizing app with
  | nil => exact ⟨hfs, rfl, rfl, rfl⟩
  | cons ev evs ih =>
    obtain ⟨a1, a2, a3, a4⟩ := handleEvent_while_fullscreen app ev hfs
      (hkey ev (List.mem_cons_self _ _))
    obtain ⟨b1, b2, b3, b4⟩ := ih (handleEvent app ev) a1
      (fun e he => hkey e (List.mem_cons_of_mem _ he))
    exact ⟨b1, b2.trans a2, b3.trans a3, b4.trans a4⟩

theorem SetFullscreen_enter (sdl : SDL) (app : Application) (id : ℕ)
    (hwin : app.mWindow = some id) (hfs : app.mIsFullScreen = false)
    (hok : sdl.SetWindowFullscreen = true) :
    SetFullscreen sdl true app =
      ({ app with mWindowedWidth := sdl.GetWindowSize.1
                  mWindowedHeight := sdl.GetWindowSize.2
                  mIsFullScreen := true
                  mScreenWidth := sdl.GetWindowSizeInPixels.1
                  mScreenHeight := sdl.GetWindowSizeInPixels.2
                  calls := app.calls ++ [Call.SDL_SetWindowFullscreen true,
                    Call.OnWindowResized sdl.GetWindowSizeInPixels.1
                      sdl.GetWindowSizeInPixels.2] }) := by
  unfold SetFullscreen
  simp [hwin, hfs, hok, HandleWindowResized, Application.call]

theorem SetFullscreen_leave (sdl : SDL) (app : Application) (id : ℕ)
    (hwin : app.mWindow = some id) (hfs : app.mIsFullScreen = true)
    (hok : sdl.SetWindowFullscreen = true)
    (hW : 0 < app.mWindowedWidth) (hH : 0 < app.mWindowedHeight) :
    SetFullscreen sdl false app =
      ({ app with mIsFullScreen := false
                  mScreenWidth := sdl.GetWindowSizeInPixelsAgain.1
                  mScreenHeight := sdl.GetWindowSizeInPixelsAgain.2
                  calls := app.calls ++ [Call.SDL_SetWindowFullscreen false,
                    Call.OnWindowResized sdl.GetWindowSizeInPixels.1
                      sdl.GetWindowSizeInPixels.2,
                    Call.SDL_SetWindowSize app.mWindowedWidth app.mWindowedHeight,
                    Call.SDL_SetWindowPositionCentered,
                    Call.OnWindowResized sdl.GetWindowSizeInPixelsAgain.1
                      sdl.GetWindowSizeInPixelsAgain.2] }) := by
  unfold SetFullscreen
  simp [hwin, hfs, hok, HandleWindowResized, Application.call, hW, hH]

/-- The size 8 x 5: the code leaves it alone, the exact formula for the stored
target does not. -/
theorem correctedSize_8_5 :
    correctedSize aspect16by9 8 5 = (8, 5) ∧ correctedSizeExact aspect16by9 8 5 = (8, 4) := by
  constructor
  · rw [correctedSize_16by9 8 5 (by norm_num) (by norm_num) (by norm_num) (by norm_num),
      correctedSizeExact_16by9 8 5 (by norm_num), if_neg (by norm_num), if_pos (by norm_num),
      (floor_height_iff 8 5).2 ⟨by norm_num, by norm_num⟩]
  · unfold correctedSizeExact aspect16by9
    rw [if_neg (by norm_num), if_pos (by norm_num), Prod.mk.injEq, Int.floor_eq_iff]
    norm_num

/-! ### Window notifications, start-up and shutdown -/

/-- A resize notification that arrives while the guard is set is taken as the
confirmation of the adapter's own request. -/
theorem onWindowResizedEvent_confirm (sdl : SDL) (id : ℕ) (w h : ℤ) (app : Application)
    (hwin : app.mWindow = some id) (hlock : app.mLockAspect = true)
    (hfs : app.mIsFullScreen = false) (hadj : app.mIsAdjustingSize = true)
    (hw : 0 < w) (hh : 0 < h) :
    handleEvent app (Event.WINDOW_RESIZED id w h, sdl) =
      { app with mScreenWidth := sdl.GetWindowSizeInPixels.1
                 mScreenHeight := sdl.GetWindowSizeInPixels.2
                 mIsAdjustingSize := false
                 calls := app.calls ++
                   [Call.OnWindowResized sdl.GetWindowSizeInPixels.1 sdl.GetWindowSizeInPixels.2] } := by
  have h1 : ¬ (w ≤ 0 ∨ h ≤ 0) := by omega
  simp only [handleEvent, onWindowResizedEvent]
  rw [if_neg (by simp [hwin]), if_neg (by simp [hwin, SDL_GetWindowID]), if_neg (by simp [hlock]),
    if_neg (by simp [hfs]), if_neg h1, if_pos hadj]
  simp [HandleWindowResized, hwin, Application.call]

/-- The calls of the resize-notification handler: a resize command comes alone. -/
theorem onWindowResizedEvent_calls (sdl : SDL) (windowID : ℕ) (w h : ℤ) (app : Application) :
    ∃ added, (handleEvent app (Event.WINDOW_RESIZED windowID w h, sdl)).calls = app.calls ++ added ∧
      ∀ a b, Call.SDL_SetWindowSize a b ∈ added →
        added = [Call.SDL_SetWindowSize a b] ∧
        (handleEvent app (Event.WINDOW_RESIZED windowID w h, sdl)).mScreenWidth = app.mScreenWidth ∧
        (handleEvent app (Event.WINDOW_RESIZED windowID w h, sdl)).mScreenHeight = app.mScreenHeight := by
  simp only [handleEvent, onWindowResizedEvent]
  have hq : ∀ app0 : Application, ∃ added,
      (HandleWindowResized sdl.GetWindowSizeInPixels app0).calls = app0.calls ++ added ∧
      ∀ a b, Call.SDL_SetWindowSize a b ∈ added → False := by
    intro app0
    cases hwin : app0.mWindow with
    | none => exact ⟨[], by simp [HandleWindowResized, hwin], by simp⟩
    | some id =>
      exact ⟨[Call.OnWindowResized sdl.GetWindowSizeInPixels.1 sdl.GetWindowSizeInPixels.2],
        by simp [HandleWindowResized, hwin, Application.call], by simp⟩
  have h0 : ∃ added : List Call, app.calls = app.calls ++ added ∧
      ∀ a b, Call.SDL_SetWindowSize a b ∈ added →
        added = [Call.SDL_SetWindowSize a b] ∧ app.mScreenWidth = app.mScreenWidth ∧
          app.mScreenHeight = app.mScreenHeight := ⟨[], by simp, by simp⟩
  split_ifs
  · exact h0
  · exact h0
  · exact h0
  · exact h0
  · exact h0
  · obtain ⟨added, h1, h2⟩ := hq app
    exact ⟨added, h1, fun a b hab => (h2 a b hab).elim⟩
  · obtain ⟨added, h1, h2⟩ := hq app
    exact ⟨added, h1, fun a b hab => (h2 a b hab).elim⟩
  · refine ⟨[Call.SDL_SetWindowSize (correctedSize app.mTargetAspect w h).1
      (correctedSize app.mTargetAspect w h).2], by simp [Application.call], ?_⟩
    intro a b hab
    simp only [List.mem_singleton, Call.SDL_SetWindowSize.injEq] at hab
    simp [Application.call, hab.1, hab.2]

/-- A registry call changes only the registry. -/
theorem runCmd_eq (app : Application) (c : Cmd) :
    runCmd app c = { app with mActors := (runCmd app c).mActors
                              mPendingActors := (runCmd app c).mPendingActors
                              heap := (runCmd app c).heap
                              heapNext := (runCmd app c).heapNext } := by
  cases c with
  | Create initial => cases hu : app.mIsUpdatingActors <;> simp [runCmd, CreateActor, AddActor, hu]
  | Destroy actor => cases actor <;> simp [runCmd, DestroyActor, SetState]

theorem runCmds_eq (cmds : List Cmd) (app : Application) :
    runCmds app cmds = { app with mActors := (runCmds app cmds).mActors
                                  mPendingActors := (runCmds app cmds).mPendingActors
                                  heap := (runCmds app cmds).heap
                                  heapNext := (runCmds app cmds).heapNext } := by
  induction cmds generalizing app with
  | nil => rfl
  | cons c cs ih =>
    have h1 := ih (runCmd app c)
    have h2 := runCmd_eq app c
    simp only [runCmds, List.foldl_cons] at h1 ⊢
    generalize List.foldl runCmd (runCmd app c) cs = s at h1 ⊢
    generalize runCmd app c = s1 at h1 h2
    rw [h1, h2]

theorem runCmds_window (cmds : List Cmd) (app : Application) :
    (runCmds app cmds).mWindow = app.mWindow ∧
    (runCmds app cmds).mIsActive = app.mIsActive ∧
    (runCmds app cmds).mIsAdjustingSize = app.mIsAdjustingSize ∧
    (runCmds app cmds).mIsFullScreen = app.mIsFullScreen ∧
    (runCmds app cmds).mWindowedWidth = app.mWindowedWidth ∧
    (runCmds app cmds).mWindowedHeight = app.mWindowedHeight ∧
    (runCmds app cmds).mScreenWidth = app.mScreenWidth ∧
    (runCmds app cmds).mScreenHeight = app.mScreenHeight := by
  have h := runCmds_eq cmds app
  generalize runCmds app cmds = s at h
  refine ⟨?_, ?_, ?_, ?_, ?_, ?_, ?_, ?_⟩ <;> rw [h]

theorem SetFullscreen_same (sdl : SDL) (app : Application) :
    SetFullscreen sdl app.mIsFullScreen app = app := by
  unfold SetFullscreen
  cases app.mWindow <;> simp

theorem LoadSettings_false (file : SettingsFile) (app : Application)
    (h : (LoadSettings file app).1 = false) : (LoadSettings file app).2 = app := by
  cases file with
  | absent => rfl
  | malformed => rfl
  | json title screen => simp [LoadSettings] at h

theorem LoadSettings_fields (file : SettingsFile) (app : Application) :
    (LoadSettings file app).2 =
      { app with mApplicationTitle := (LoadSettings file app).2.mApplicationTitle
                 mScreenWidth := (LoadSettings file app).2.mScreenWidth
                 mScreenHeight := (LoadSettings file app).2.mScreenHeight } := by
  cases file with
  | absent => rfl
  | malformed => rfl
  | json title screen =>
    cases title <;> cases screen with
    | none => rfl
    | some p =>
      obtain ⟨a, b⟩ := p
      cases a <;> cases b <;> rfl

theorem applySettings_eq (file : SettingsFile) (app : Application) :
    applySettings file app =
      { app with mApplicationTitle := (LoadSettings file app).2.mApplicationTitle
                 mScreenWidth := if (LoadSettings file app).2.mScreenWidth ≤ 0 then 1280
                   else (LoadSettings file app).2.mScreenWidth
                 mScreenHeight := if (LoadSettings file app).2.mScreenHeight ≤ 0 then 720
                   else (LoadSettings file app).2.mScreenHeight
                 mWindowedWidth := if (LoadSettings file app).2.mScreenWidth ≤ 0 then 1280
                   else (LoadSettings file app).2.mScreenWidth
                 mWindowedHeight := if (LoadSettings file app).2.mScreenHeight ≤ 0 then 720
                   else (LoadSettings file app).2.mScreenHeight } := by
  have h := LoadSettings_fields file app
  unfold applySettings
  generalize (LoadSettings file app).2 = s at h ⊢
  rw [h]
  simp only
  split_ifs <;> rfl

theorem createWindow_eq (env : InitEnv) (app : Application) :
    createWindow env app =
      { app with mWindow := env.SDL_CreateWindow
                 calls := app.calls ++ [Call.SDL_CreateWindow app.mApplicationTitle
                   (F32.toInt (F32.mul (F32.ofInt app.mWindowedWidth) (contentScale env)))
                   (F32.toInt (F32.mul (F32.ofInt app.mWindowedHeight) (contentScale env)))] } :=
  rfl

/-- The window preparation changes the pixel size and the target aspect only,
and calls the renderer and the input system. -/
theorem prepareWindow_eq (env : InitEnv) (app : Application) :
    ∃ added, Call.InitGame ∉ added ∧
      prepareWindow env app =
        { app with mScreenWidth := (prepareWindow env app).mScreenWidth
                   mScreenHeight := (prepareWindow env app).mScreenHeight
                   mTargetAspect := (prepareWindow env app).mTargetAspect
                   calls := app.calls ++ added } := by
  unfold prepareWindow
  simp only
  have hfs : ∀ s : Application,
      (if s.mIsFullScreen then SetFullscreen env.fullscreen s.mIsFullScreen s else s) = s := by
    intro s
    split_ifs
    · exact SetFullscreen_same _ _
    · rfl
  rw [hfs]
  cases hwin : app.mWindow with
  | none =>
    refine ⟨[Call.InputInitialize, Call.LoadButtonConfig], by simp, ?_⟩
    simp only [HandleWindowResized, hwin]
    split_ifs <;> simp [Application.call, hwin]
  | some id =>
    refine ⟨[Call.OnWindowResized env.SDL_GetWindowSizeInPixels.1 env.SDL_GetWindowSizeInPixels.2,
      Call.InputInitialize, Call.LoadButtonConfig], by simp, ?_⟩
    simp only [HandleWindowResized, hwin]
    split_ifs <;> simp [Application.call]

/-- `Initialize` succeeds exactly when SDL, TTF, the window and the renderer do. -/
theorem Initialize_result (hooks : Hooks) (env : InitEnv) (app : Application) :
    (Initialize hooks env app).1 =
      (env.SDL_Init && env.TTF_Init && env.SDL_CreateWindow.isSome && env.RendererInitialize) := by
  unfold Initialize
  cases h1 : env.SDL_Init
  · rfl
  cases h2 : env.TTF_Init
  · rfl
  cases h3 : env.SDL_CreateWindow
  · simp [createWindow_eq, h3]
  cases h4 : env.RendererInitialize
  · simp [createWindow_eq, h3]
  · simp [createWindow_eq, h3]

theorem BeforeInitGame_refl (app : Application) : BeforeInitGame app app :=
  ⟨rfl, [], by simp, by simp⟩

theorem BeforeInitGame_trans {a b c : Application} (h1 : BeforeInitGame a b)
    (h2 : BeforeInitGame b c) : BeforeInitGame a c := by
  obtain ⟨e1, l1, c1, n1⟩ := h1
  obtain ⟨e2, l2, c2, n2⟩ := h2
  refine ⟨e2.trans e1, l1 ++ l2, by rw [c2, c1, List.append_assoc], ?_⟩
  simp only [List.mem_append, not_or]
  exact ⟨n1, n2⟩

theorem BeforeInitGame_call (app : Application) (c : Call) (hc : c ≠ Call.InitGame) :
    BeforeInitGame app (app.call c) :=
  ⟨rfl, [c], rfl, by simpa using hc.symm⟩

theorem BeforeInitGame_applySettings (file : SettingsFile) (app : Application) :
    BeforeInitGame app (applySettings file app) := by
  rw [applySettings_eq]
  exact ⟨rfl, [], by simp, by simp⟩

theorem BeforeInitGame_createWindow (env : InitEnv) (app : Application) :
    BeforeInitGame app (createWindow env app) :=
  ⟨rfl, [_], rfl, by simp⟩

/-- A failed `Initialize` leaves the active flag alone and does not reach
`InitGame`. -/
theorem Initialize_failed (hooks : Hooks) (env : InitEnv) (app : Application)
    (h : (Initialize hooks env app).1 = false) :
    BeforeInitGame app (Initialize hooks env app).2 := by
  rw [Initialize_result] at h
  have s1 := BeforeInitGame_call app Call.SDL_Init (by simp)
  have s2 := BeforeInitGame_trans s1 (BeforeInitGame_call _ Call.TTF_Init (by simp))
  have s3 := BeforeInitGame_trans
    (BeforeInitGame_trans s2 (BeforeInitGame_applySettings env.settings _))
    (BeforeInitGame_createWindow env _)
  have s4 := BeforeInitGame_trans
    (BeforeInitGame_trans s3 (BeforeInitGame_call _ Call.SDL_SetWindowPositionCentered (by simp)))
    (BeforeInitGame_call _ Call.RendererInitialize (by simp))
  have hw : ∀ s, (createWindow env s).mWindow = env.SDL_CreateWindow := fun _ => rfl
  unfold Initialize
  cases h1 : env.SDL_Init
  · exact s1
  cases h2 : env.TTF_Init
  · exact s2
  cases h3 : env.SDL_CreateWindow
  · simp only [Bool.not_true, Bool.false_eq_true, if_false, hw, h3, if_true]
    exact s3
  cases h4 : env.RendererInitialize
  · simp only [Bool.not_true, Bool.false_eq_true, if_false, hw, h3, if_true,
      Bool.not_false, reduceCtorEq]
    exact s4
  · simp [h1, h2, h3, h4] at h

theorem LoadSettings_flag (file : SettingsFile) (a b : Application) :
    (LoadSettings file a).1 = (LoadSettings file b).1 := by
  cases file <;> rfl

theorem prepareWindow_windowed (env : InitEnv) (app : Application) :
    (prepareWindow env app).mWindowedWidth = app.mWindowedWidth ∧
    (prepareWindow env app).mWindowedHeight = app.mWindowedHeight ∧
    ∀ c ∈ app.calls, c ∈ (prepareWindow env app).calls := by
  obtain ⟨added, -, h⟩ := prepareWindow_eq env app
  generalize prepareWindow env app = s at h
  refine ⟨by rw [h], by rw [h], ?_⟩
  intro c hc
  rw [h]
  exact List.mem_append_left _ hc

/-- The logical window size with which `Initialize` creates the window. -/
theorem Initialize_logical_size (hooks : Hooks) (env : InitEnv) (app : Application)
    (h1 : env.SDL_Init = true) (h2 : env.TTF_Init = true) :
    (Initialize hooks env app).2.mWindowedWidth =
      (applySettings env.settings ((app.call Call.SDL_Init).call Call.TTF_Init)).mWindowedWidth ∧
    (Initialize hooks env app).2.mWindowedHeight =
      (applySettings env.settings ((app.call Call.SDL_Init).call Call.TTF_Init)).mWindowedHeight ∧
    Call.SDL_CreateWindow
      (applySettings env.settings ((app.call Call.SDL_Init).call Call.TTF_Init)).mApplicationTitle
      (F32.toInt (F32.mul (F32.ofInt
        (applySettings env.settings ((app.call Call.SDL_Init).call Call.TTF_Init)).mWindowedWidth)
        (contentScale env)))
      (F32.toInt (F32.mul (F32.ofInt
        (applySettings env.settings ((app.call Call.SDL_Init).call Call.TTF_Init)).mWindowedHeight)
        (contentScale env))) ∈ (Initialize hooks env app).2.calls := by
  have hw : ∀ s, (createWindow env s).mWindow = env.SDL_CreateWindow := fun _ => rfl
  unfold Initialize
  simp only [h1, h2, Bool.not_true, Bool.false_eq_true, if_false, hw]
  generalize applySettings env.settings ((app.call Call.SDL_Init).call Call.TTF_Init) = s
  have hc : Call.SDL_CreateWindow s.mApplicationTitle
      (F32.toInt (F32.mul (F32.ofInt s.mWindowedWidth) (contentScale env)))
      (F32.toInt (F32.mul (F32.ofInt s.mWindowedHeight) (contentScale env))) ∈
        (createWindow env s).calls := by
    simp [createWindow_eq]
  cases h3 : env.SDL_CreateWindow
  · simp only [if_true]
    exact ⟨rfl, rfl, hc⟩
  cases h4 : env.RendererInitialize
  · simp only [Bool.not_false, if_true, reduceCtorEq, if_false]
    exact ⟨rfl, rfl, by simp [Application.call, hc]⟩
  · simp only [Bool.not_true, Bool.false_eq_true, reduceCtorEq, if_false]
    obtain ⟨p1, p2, p3⟩ := prepareWindow_windowed env
      (((createWindow env s).call Call.SDL_SetWindowPositionCentered).call Call.RendererInitialize)
    generalize prepareWindow env
      (((createWindow env s).call Call.SDL_SetWindowPositionCentered).call
        Call.RendererInitialize) = t at p1 p2 p3
    obtain ⟨-, -, -, -, r1, r2, -, -⟩ := runCmds_window (hooks.InitGame (t.call Call.InitGame))
      (t.call Call.InitGame)
    have r3 := runCmds_calls (hooks.InitGame (t.call Call.InitGame)) (t.call Call.InitGame)
    refine ⟨r1.trans p1, r2.trans p2, ?_⟩
    show _ ∈ (runCmds (t.call Call.InitGame) (hooks.InitGame (t.call Call.InitGame))).calls
    rw [r3]
    simp only [call_calls, List.mem_append, List.mem_singleton]
    exact Or.inl (p3 _ (by simp [Application.call, hc]))

theorem applySettings_of_false (file : SettingsFile) (app : Application)
    (h : (LoadSettings file app).1 = false) :
    (applySettings file app).mWindowedWidth =
      (if app.mScreenWidth ≤ 0 then 1280 else app.mScreenWidth) ∧
    (applySettings file app).mWindowedHeight =
      (if app.mScreenHeight ≤ 0 then 720 else app.mScreenHeight) ∧
    (applySettings file app).mApplicationTitle = app.mApplicationTitle := by
  rw [applySettings_eq, LoadSettings_false file app h]
  exact ⟨rfl, rfl, rfl⟩

theorem RunLoop_inactive (hooks : Hooks) (frames : List Frame) (app : Application)
    (h : app.mIsActive = false) : RunLoop hooks frames app = some app := by
  cases frames with
  | nil => rfl
  | cons frame later => simp [RunLoop, h]

/-- The state after `Shutdown`, field by field: the registry calls of the
`ShutdownGame` hook are executed first, on the state that has only logged the
hook call. -/
theorem Shutdown_eq (hooks : Hooks) (app : Application) :
    Shutdown hooks app =
      { runCmds (app.call Call.ShutdownGame) (hooks.ShutdownGame (app.call Call.ShutdownGame)) with
        mActors := []
        mWindow := none
        calls := app.calls ++ ([Call.ShutdownGame, Call.RendererUnloadData, Call.AssetUnloadData,
          Call.InputShutdown, Call.RendererShutdown] ++
          (app.mWindow.map Call.SDL_DestroyWindow).toList ++ [Call.TTF_Quit, Call.SDL_Quit]) } := by
  have h := runCmds_eq (hooks.ShutdownGame (app.call Call.ShutdownGame)) (app.call Call.ShutdownGame)
  unfold Shutdown UnloadData
  simp only
  generalize runCmds (app.call Call.ShutdownGame) (hooks.ShutdownGame (app.call Call.ShutdownGame)) = s
    at h ⊢
  rw [h]
  cases hwin : app.mWindow <;> simp [Application.call, hwin]

/-- Start-up on `demoEnv` evaluated: without a settings file the window is
created with the constructor's screen size. -/
theorem Initialize_demo :
    (Initialize demoHooks demoEnv Application.new).1 = true ∧
    (Initialize demoHooks demoEnv Application.new).2.mWindowedWidth = 1600 ∧
    (Initialize demoHooks demoEnv Application.new).2.mWindowedHeight = 900 ∧
    Call.SDL_CreateWindow Application.new.mApplicationTitle 1600 900 ∈
      (Initialize demoHooks demoEnv Application.new).2.calls := by
  obtain ⟨a, b, c⟩ := Initialize_logical_size demoHooks demoEnv Application.new rfl rfl
  obtain ⟨d, e, f⟩ := applySettings_of_false demoEnv.settings
    ((Application.new.call Call.SDL_Init).call Call.TTF_Init) rfl
  rw [d, e, f] at c
  rw [d] at a
  rw [e] at b
  have hs : contentScale demoEnv = 1 := rfl
  have hW : F32.toInt (F32.mul (F32.ofInt 1600) 1) = 1600 := by
    have h : F32.ofInt 1600 = 1600 := by
      have := F32.round_intCast 1600 (by norm_num)
      simpa [F32.ofInt] using this
    rw [h]
    have h' : F32.mul 1600 1 = 1600 := by
      have := F32.round_intCast 1600 (by norm_num)
      simpa [F32.mul] using this
    rw [h']
    simp [F32.toInt]
  have hH : F32.toInt (F32.mul (F32.ofInt 900) 1) = 900 := by
    have h : F32.ofInt 900 = 900 := by
      have := F32.round_intCast 900 (by norm_num)
      simpa [F32.ofInt] using this
    rw [h]
    have h' : F32.mul 900 1 = 900 := by
      have := F32.round_intCast 900 (by norm_num)
      simpa [F32.mul] using this
    rw [h']
    simp [F32.toInt]
  refine ⟨by rw [Initialize_result]; rfl, a, b, ?_⟩
  rw [hs] at c
  have e1 : (if ((Application.new.call Call.SDL_Init).call Call.TTF_Init).mScreenWidth ≤ 0 then
      (1280 : ℤ) else ((Application.new.call Call.SDL_Init).call Call.TTF_Init).mScreenWidth) = 1600 :=
    rfl
  have e2 : (if ((Application.new.call Call.SDL_Init).call Call.TTF_Init).mScreenHeight ≤ 0 then
      (720 : ℤ) else ((Application.new.call Call.SDL_Init).call Call.TTF_Init).mScreenHeight) = 900 :=
    rfl
  rw [e1, e2, hW, hH] at c
  exact c

theorem HandleWindowResized_guard (pixel : ℤ × ℤ) (app : Application) :
    (HandleWindowResized pixel app).mIsAdjustingSize = app.mIsAdjustingSize := by
  unfold HandleWindowResized
  cases app.mWindow <;> rfl

theorem SetFullscreen_guard (sdl : SDL) (enable : Bool) (app : Application) :
    (SetFullscreen sdl enable app).mIsAdjustingSize = app.mIsAdjustingSize := by
  unfold SetFullscreen
  cases hw : app.mWindow with
  | none => rfl
  | some id =>
    simp only
    split_ifs <;> simp [HandleWindowResized_guard, Application.call]

/-- A step that is not a handled resize notification leaves the guard alone. -/
theorem windowStep_guard_of_not_Handled (app : Application) (step : WindowStep)
    (h : ¬ Handled app step) :
    (windowStep app step).mIsAdjustingSize = app.mIsAdjustingSize := by
  cases step with
  | SetFullscreen sdl enable => exact SetFullscreen_guard sdl enable app
  | ToggleFullscreen sdl => exact SetFullscreen_guard sdl _ app
  | event ev =>
    obtain ⟨e, sdl⟩ := ev
    cases e with
    | QUIT => rfl
    | OTHER => rfl
    | KEY_DOWN scancode altHeld =>
      simp only [windowStep, handleEvent, ToggleFullscreen]
      split_ifs
      · exact SetFullscreen_guard _ _ _
      · rfl
    | WINDOW_PIXEL_SIZE_CHANGED windowID =>
      simp only [windowStep, handleEvent]
      split_ifs
      · exact HandleWindowResized_guard _ _
      · rfl
    | WINDOW_RESIZED windowID w h' =>
      simp only [Handled, not_and, not_lt] at h
      simp only [windowStep, handleEvent, onWindowResizedEvent]
      split_ifs with c1 c2 c3 c4 c5 c6 c7
      any_goals rfl
      all_goals
        exfalso
        have := h c1 (not_not.1 c2) (by simpa using c3) (by simpa using c4)
        omega

/-- What a handled resize notification does, by the state of the guard. -/
theorem windowStep_of_Handled (app : Application) (step : WindowStep) (h : Handled app step) :
    ∃ windowID w h' sdl, step = WindowStep.event (Event.WINDOW_RESIZED windowID w h', sdl) ∧
      (app.mIsAdjustingSize = true →
        (windowStep app step).mIsAdjustingSize = false ∧
        (windowStep app step).calls = app.calls ++
          [Call.OnWindowResized sdl.GetWindowSizeInPixels.1 sdl.GetWindowSizeInPixels.2]) ∧
      (app.mIsAdjustingSize = false →
        ((windowStep app step).mIsAdjustingSize = false ∧
          (windowStep app step).calls = app.calls ++
            [Call.OnWindowResized sdl.GetWindowSizeInPixels.1 sdl.GetWindowSizeInPixels.2]) ∨
        ((windowStep app step).mIsAdjustingSize = true ∧
          (windowStep app step).calls = app.calls ++
            [Call.SDL_SetWindowSize (correctedSize app.mTargetAspect w h').1
              (correctedSize app.mTargetAspect w h').2])) := by
  cases step with
  | SetFullscreen sdl enable => exact h.elim
  | ToggleFullscreen sdl => exact h.elim
  | event ev =>
    obtain ⟨e, sdl⟩ := ev
    cases e with
    | QUIT => exact h.elim
    | OTHER => exact h.elim
    | KEY_DOWN scancode altHeld => exact h.elim
    | WINDOW_PIXEL_SIZE_CHANGED windowID => exact h.elim
    | WINDOW_RESIZED windowID w h' =>
      obtain ⟨g1, g2, g3, g4, g5, g6⟩ := h
      obtain ⟨id, hid⟩ := Option.ne_none_iff_exists'.1 g1
      have g2' : windowID = id := by simpa [hid, SDL_GetWindowID] using g2
      subst g2'
      refine ⟨windowID, w, h', sdl, rfl, ?_, ?_⟩
      · intro hadj
        show (handleEvent app _).mIsAdjustingSize = false ∧ (handleEvent app _).calls = _
        rw [onWindowResizedEvent_confirm sdl windowID w h' app hid g3 g4 hadj g5 g6]
        exact ⟨rfl, rfl⟩
      · intro hadj
        show ((handleEvent app _).mIsAdjustingSize = false ∧ (handleEvent app _).calls = _) ∨
          ((handleEvent app _).mIsAdjustingSize = true ∧ (handleEvent app _).calls = _)
        rw [handleEvent_resized sdl windowID w h' app hid g3 g4 hadj g5 g6]
        split_ifs
        · left
          rw [HandleWindowResized_guard]
          exact ⟨hadj, by simp [HandleWindowResized, hid, Application.call]⟩
        · right
          exact ⟨rfl, rfl⟩

/-- While no resize notification is handled the guard keeps its value. -/
theorem foldl_windowStep_guard (steps : List WindowStep) (app : Application)
    (h : NoneHandled app steps) :
    (steps.foldl windowStep app).mIsAdjustingSize = app.mIsAdjustingSize := by
  induction steps generalizing app with
  | nil => rfl
  | cons step later ih =>
    rw [List.foldl_cons, ih _ h.2, windowStep_guard_of_not_Handled app step h.1]

theorem demo_correction :
    handleEvent demoApp (Event.WINDOW_RESIZED 1 1000 500, demoSDL) = demoAdjusting := by
  have ht : demoApp.mTargetAspect = aspect16by9 := targetAspect_new
  have hc : correctedSize demoApp.mTargetAspect 1000 500 = (889, 500) := by
    rw [ht]; exact correctedSize_1000_500
  rw [handleEvent_resized demoSDL 1 1000 500 demoApp rfl rfl rfl rfl (by norm_num) (by norm_num),
    if_neg (by rw [hc]; decide), hc]
  rfl

theorem NoneHandled_take (steps : List WindowStep) (app : Application) (n : ℕ)
    (h : NoneHandled app steps) : NoneHandled app (steps.take n) := by
  induction steps generalizing app n with
  | nil => simpa using h
  | cons step later ih =>
    cases n with
    | zero => trivial
    | succ n => exact ⟨h.1, ih _ n h.2⟩

/-! ### When the input loop is defined -/

theorem runCmds_destroys (cmds : List Cmd) (app : Application)
    (h : ∀ c ∈ cmds, ∃ p, c = Cmd.Destroy p) : (runCmds app cmds).mActors = app.mActors := by
  induction cmds generalizing app with
  | nil => rfl
  | cons c cs ih =>
    obtain ⟨p, rfl⟩ := h c (List.mem_cons_self _ _)
    have h1 : (runCmd app (Cmd.Destroy p)).mActors = app.mActors := by cases p <;> rfl
    show (runCmds (runCmd app (Cmd.Destroy p)) cs).mActors = app.mActors
    rw [ih _ (fun c hc => h c (List.mem_cons_of_mem _ hc)), h1]

theorem processInputActors_defined (hooks : Hooks) (state : InputState) (L : List ℕ)
    (app : Application)
    (hno : ∀ a s, ∀ c ∈ hooks.ActorProcessInput a state s, ∃ p, c = Cmd.Destroy p) :
    ∃ pi, processInputActors hooks state L app = some pi := by
  induction L generalizing app with
  | nil => exact ⟨app, rfl⟩
  | cons a L ih =>
    have hs : processInputActor hooks state app a =
        some (runCmds (app.call (Call.ActorProcessInput a))
          (hooks.ActorProcessInput a state (app.call (Call.ActorProcessInput a)))) := by
      unfold processInputActor
      simp only
      rw [if_pos (runCmds_destroys _ _ (hno a _))]
    simp only [processInputActors, hs]
    exact ih _

/-- `ProcessInput` is defined when no input hook creates an actor. -/
theorem ProcessInput_defined (hooks : Hooks) (input : Input) (app : Application)
    (hno : ∀ a s, ∀ c ∈ hooks.ActorProcessInput a input.state s, ∃ p, c = Cmd.Destroy p) :
    ∃ pi, ProcessInput hooks input app = some pi := by
  unfold ProcessInput
  exact processInputActors_defined hooks input.state _ _ hno

/-- An input hook that creates an actor outside an update pass makes the
iteration undefined. -/
theorem processInputActor_create (hooks : Hooks) (state : InputState) (app : Application)
    (a : ℕ) (initial : ActorState) (hf : app.mIsUpdatingActors = false)
    (hc : hooks.ActorProcessInput a state (app.call (Call.ActorProcessInput a)) =
      [Cmd.Create initial]) :
    processInputActor hooks state app a = none := by
  unfold processInputActor
  simp only [hc]
  rw [if_neg]
  simp [runCmds, runCmd, CreateActor, AddActor, hf, Application.call]

/-! ### Bounds of the aspect correction -/

namespace F32

theorem roundHalfEven_sub_le (m : ℚ) : |(roundHalfEven m : ℚ) - m| ≤ 1 / 2 := by
  have h1 := Int.floor_le m
  have h2 := Int.lt_floor_add_one m
  unfold roundHalfEven
  simp only
  split_ifs with a b c
  · rw [abs_le]; constructor <;> linarith
  · rw [abs_le]; push_cast; constructor <;> linarith
  · rw [abs_le]; constructor <;> linarith
  · rw [abs_le]; push_cast; constructor <;> linarith

/-- Rounding moves a value below `2 ^ (s + 24)` by at most half of `2 ^ s`. -/
theorem round_error (x : ℚ) (s : ℤ) (hs : -149 ≤ s) (hx : |x| < 2 ^ (s + 24)) :
    |round x - x| ≤ 2 ^ s / 2 := by
  rcases eq_or_ne x 0 with rfl | h0
  · rw [round_zero]
    simp only [sub_zero, abs_zero]
    exact (div_pos (two_zpow_pos s) (by norm_num)).le
  have hu := ulpExp_le x s hs h0 hx
  have hp := two_zpow_pos (ulpExp x)
  have hle : (2 : ℚ) ^ ulpExp x ≤ 2 ^ s := zpow_le_zpow_right₀ (by norm_num) hu
  have hr := roundHalfEven_sub_le (x / 2 ^ ulpExp x)
  have e : round x - x = ((roundHalfEven (x / 2 ^ ulpExp x) : ℚ) - x / 2 ^ ulpExp x) *
      2 ^ ulpExp x := by
    unfold round
    field_simp
  rw [e, abs_mul, abs_of_pos hp]
  calc |(roundHalfEven (x / 2 ^ ulpExp x) : ℚ) - x / 2 ^ ulpExp x| * 2 ^ ulpExp x
      ≤ 1 / 2 * 2 ^ ulpExp x := mul_le_mul_of_nonneg_right hr hp.le
    _ ≤ 1 / 2 * 2 ^ s := by linarith
    _ = 2 ^ s / 2 := by ring

/-- A value exactly half way between two neighbours is rounded to the one with
the even significand. -/
theorem round_tie (q : ℚ) (e k : ℤ) (he : -149 ≤ e) (hlo : (2 : ℚ) ^ (e + 23) ≤ |q|)
    (hhi : |q| < 2 ^ (e + 24)) (hk : q / 2 ^ e = k + 1 / 2) :
    round q = (if k % 2 = 0 then k else k + 1 : ℤ) * 2 ^ e := by
  have hlog : Int.log 2 |q| = e + 23 :=
    log_eq_of_bounds |q| (e + 23) hlo (by rw [show e + 23 + 1 = e + 24 by ring]; exact hhi)
  have hu : ulpExp q = e := by
    unfold ulpExp
    rw [hlog]
    omega
  have hf : ⌊(k : ℚ) + 1 / 2⌋ = k := by
    rw [Int.floor_eq_iff]
    constructor <;> linarith
  unfold round
  rw [hu, hk]
  unfold roundHalfEven
  simp only [hf]
  rw [if_neg (by norm_num), if_neg (by norm_num)]

end F32

/-- The last two steps of a correction applied to a value `x` from 1/2 up to
but not including `n`, with `n` at most 32768: the result is between 1 and `n`
and within 1/2 + 1/256 of `x`. -/
theorem round_half_bounds (x : ℚ) (n : ℤ) (hn : n ≤ 32768) (hx0 : 1 / 2 ≤ x) (hx1 : x < n) :
    1 ≤ F32.toInt (F32.add (F32.round x) (1 / 2)) ∧
    F32.toInt (F32.add (F32.round x) (1 / 2)) ≤ n ∧
    |(F32.toInt (F32.add (F32.round x) (1 / 2)) : ℚ) - x| ≤ 1 / 2 + 1 / 256 := by
  have hnq : (n : ℚ) ≤ 32768 := by exact_mod_cast hn
  have hn0 : 0 < n := by
    have : (0 : ℚ) < n := by linarith
    exact_mod_cast this
  have hp1 : (1 / 2 : ℚ) ≤ F32.round x := by
    have := F32.grid_le_round x 1 (-1) (by norm_num) (by norm_num) (by norm_num)
      (by norm_num; linarith)
    norm_num at this
    linarith
  have hp2 : F32.round x ≤ n := by
    have := F32.round_le_grid x n 0 (by norm_num)
      (by rw [abs_of_pos hn0]; omega) (by linarith) (by simp; linarith)
    simpa using this
  have hz1 : (1 : ℚ) ≤ F32.round (F32.round x + 1 / 2) := by
    have := F32.grid_le_round (F32.round x + 1 / 2) 1 0 (by norm_num) (by norm_num)
      (by norm_num) (by norm_num; linarith)
    simpa using this
  have hz2 : F32.round (F32.round x + 1 / 2) ≤ n + 1 / 2 := by
    have := F32.round_le_grid (F32.round x + 1 / 2) (2 * n + 1) (-1) (by norm_num)
      (by rw [abs_of_pos (by omega)]; omega) (by linarith) (by push_cast; norm_num; linarith)
    have e : ((2 * n + 1 : ℤ) : ℚ) * 2 ^ (-1 : ℤ) = n + 1 / 2 := by
      push_cast; norm_num; ring
    rwa [e] at this
  have he1 := F32.round_error x (-9) (by norm_num)
    (by rw [abs_of_pos (by linarith)]; norm_num; linarith)
  have he2 := F32.round_error (F32.round x + 1 / 2) (-8) (by norm_num)
    (by rw [abs_of_pos (by linarith)]; norm_num; linarith)
  rw [abs_le] at he1 he2
  norm_num at he1 he2
  unfold F32.toInt F32.add
  rw [if_pos (by linarith)]
  have f1 := Int.floor_le (F32.round (F32.round x + 1 / 2))
  have f2 := Int.lt_floor_add_one (F32.round (F32.round x + 1 / 2))
  refine ⟨?_, ?_, ?_⟩
  · exact Int.le_floor.2 (by simpa using hz1)
  · have : ⌊F32.round (F32.round x + 1 / 2)⌋ < n + 1 := by
      rw [Int.floor_lt]; push_cast; linarith
    omega
  · rw [abs_le]
    constructor <;> linarith

theorem correctedSize_8388621_4718599 :
    correctedSize aspect16by9 8388621 4718599 = (8388622, 4718599) := by
  have hw : F32.ofInt 8388621 = 8388621 := by
    have := F32.round_intCast 8388621 (by norm_num)
    simpa [F32.ofInt] using this
  have hh : F32.ofInt 4718599 = 4718599 := by
    have := F32.round_intCast 4718599 (by norm_num)
    simpa [F32.ofInt] using this
  have ha : F32.div 8388621 4718599 = 7456541 / 4194304 := by
    unfold F32.div
    rw [F32.round_eq _ (-23) 14913082 (by norm_num) (by norm_num [abs_of_pos])
      (by norm_num [abs_of_pos]) (by norm_num) (by norm_num)]
    norm_num
  have hm : F32.mul 4718599 aspect16by9 = 8388621 := by
    unfold F32.mul aspect16by9
    rw [F32.round_eq _ 0 8388621 (by norm_num) (by norm_num [abs_of_pos])
      (by norm_num [abs_of_pos]) (by norm_num) (by norm_num)]
    norm_num
  have hs : F32.add 8388621 (1 / 2) = 8388622 := by
    unfold F32.add
    rw [F32.round_tie _ 0 8388621 (by norm_num) (by norm_num [abs_of_pos])
      (by norm_num [abs_of_pos]) (by norm_num)]
    norm_num
  unfold correctedSize
  simp only [hw, hh, ha, hm, hs]
  rw [if_pos (by unfold aspect16by9; norm_num)]
  rw [toInt_of_nonneg 8388622 8388622 (by norm_num) (by norm_num) (by norm_num)]

theorem correctedSize_8_6 : correctedSize aspect16by9 8 6 = (8, 5) := by
  rw [correctedSize_16by9 8 6 (by norm_num) (by norm_num) (by norm_num) (by norm_num),
    correctedSizeExact_16by9 8 6 (by norm_num), if_neg (by norm_num), if_pos (by norm_num),
    Prod.mk.injEq, Int.floor_eq_iff]
  norm_num

/-- The default target aspect is a binary32 value. -/
theorem round_aspect16by9 : F32.round aspect16by9 = aspect16by9 := by
  have := F32.round_of_representable 14913081 (-23) (by norm_num) (by norm_num)
  have e : ((14913081 : ℤ) : ℚ) * 2 ^ (-23 : ℤ) = aspect16by9 := by
    unfold aspect16by9; norm_num
  rwa [e] at this

/-! ## The claims -/

/-- C1. Reconciliation at the end of a non-paused `UpdateFrame`: when the frame
is not paused and the clock reaches the frame interval, `UpdateFrame` returns,
and with `mid` the state at the end of the update pass the returned live
sequence is `mid.mActors ++ mid.mPendingActors` with every actor whose state is
`EDead` removed (a filter, so the survivors keep their relative order), and the
pending sequence is empty. -/
theorem UpdateFrame_reconciles (hooks : Hooks) (clock : List ℕ) (app : Application)
    (hpause : app.mIsPause = false)
    (hclock : ∃ now ∈ clock, frameDurationNS ≤ elapsedNS now app.mTicksCount) :
    ∃ mid app', endOfUpdatePass hooks clock app = some mid ∧
      UpdateFrame hooks clock app = some app' ∧
      app'.mActors = (mid.mActors ++ mid.mPendingActors).filter
        (fun actor => GetState mid actor != ActorState.EDead) ∧
      List.Sublist app'.mActors (mid.mActors ++ mid.mPendingActors) ∧
      (∀ actor, actor ∈ app'.mActors ↔
        (actor ∈ mid.mActors ∨ actor ∈ mid.mPendingActors) ∧
          GetState mid actor ≠ ActorState.EDead) ∧
      app'.mPendingActors = [] := by
  obtain ⟨now, hnow⟩ := waitLoop_isSome app.mTicksCount clock hclock
  refine ⟨updatePhase hooks (computeDeltaTime now app.mTicksCount)
      { app with mTicksCount := now },
    (Reconcile (updatePhase hooks (computeDeltaTime now app.mTicksCount)
      { app with mTicksCount := now })).call
        (Call.SoundMixerUpdate (computeDeltaTime now app.mTicksCount)),
    ?_, ?_, ?_, ?_, ?_, ?_⟩
  · simp [endOfUpdatePass, hnow, hpause]
  · simp [UpdateFrame, hnow, hpause]
  · simp only [call_mActors, Reconcile_mActors, GetState]
  · simp only [call_mActors, Reconcile_mActors]
    exact List.filter_sublist _
  · intro actor
    simp only [call_mActors, Reconcile_mActors, GetState, List.mem_filter, List.mem_append,
      bne_iff_ne, ne_eq]
  · rfl

/-- Witness of C1 on the demo application: one non-paused frame whose clock
reads 16 ms. -/
theorem UpdateFrame_reconciles_witness :
    demoApp.mIsPause = false ∧
    (∃ now ∈ [16000000], frameDurationNS ≤ elapsedNS now demoApp.mTicksCount) ∧
    ∃ mid app', endOfUpdatePass demoHooks [16000000] demoApp = some mid ∧
      UpdateFrame demoHooks [16000000] demoApp = some app' ∧
      app'.mActors = (mid.mActors ++ mid.mPendingActors).filter
        (fun actor => GetState mid actor != ActorState.EDead) ∧
      List.Sublist app'.mActors (mid.mActors ++ mid.mPendingActors) ∧
      (∀ actor, actor ∈ app'.mActors ↔
        (actor ∈ mid.mActors ∨ actor ∈ mid.mPendingActors) ∧
          GetState mid actor ≠ ActorState.EDead) ∧
      app'.mPendingActors = [] :=
  ⟨rfl, ⟨16000000, by simp, by decide⟩,
    UpdateFrame_reconciles demoHooks [16000000] demoApp rfl ⟨16000000, by simp, by decide⟩⟩

/-- The demo frame evaluated: actor 0 creates actor 2 and destroys actor 1, so
the live sequence `[0, 1]` becomes `[0, 2]`. -/
theorem demo_frame_live :
    (UpdateFrame demoHooks [16000000] demoApp).map (fun app => app.mActors) = some [0, 2] := by
  decide

/-- C2. `AddActor` obeys the deferred-mutation rule: while `mIsUpdatingActors`
is set the actor is appended to the end of `mPendingActors` and `mActors` is
unchanged, otherwise it is appended to the end of `mActors` and
`mPendingActors` is unchanged; the flag and the states of the actors are
unchanged. -/
theorem AddActor_deferred (app : Application) (actor : ℕ) :
    (AddActor app actor).mPendingActors =
      (if app.mIsUpdatingActors then app.mPendingActors ++ [actor] else app.mPendingActors) ∧
    (AddActor app actor).mActors =
      (if app.mIsUpdatingActors then app.mActors else app.mActors ++ [actor]) ∧
    (AddActor app actor).mIsUpdatingActors = app.mIsUpdatingActors ∧
    (AddActor app actor).heap = app.heap := by
  unfold AddActor
  cases app.mIsUpdatingActors <;> simp

/-- C4 (code defect).  Creation in the input phase.  The demo application is
active with the live actors 0 and 1 in creation order, and the input hook of
actor 0 calls `CreateActor`.  `mIsUpdatingActors` is false, so `AddActor`
appends the new actor to `mActors` (which becomes `[0, 1, 2]`) while the loop
of lines 302-305 is iterating `mActors`: the behaviour of `ProcessInput` is
undefined, and the frame and the main loop yield no state in which the actors
are updated in creation order.  The same frame completes with hooks that
create nothing in the input phase. -/
theorem input_phase_creation_undefined :
    CreationOrdered demoStart ∧ demoStart.mIsUpdatingActors = false ∧
    (runCmds (demoStart.call (Call.ActorProcessInput 0))
      (spawnHooks.ActorProcessInput 0 demoFrame.input.state
        (demoStart.call (Call.ActorProcessInput 0)))).mActors = [0, 1, 2] ∧
    ProcessInput spawnHooks demoFrame.input demoStart = none ∧
    runFrame spawnHooks demoFrame demoStart = none ∧
    RunLoop spawnHooks [demoFrame] demoStart = none ∧
    (RunLoop demoHooks [demoFrame] demoStart).isSome = true := by
  have h1 : processInputActor spawnHooks demoFrame.input.state
      { demoStart with mIsPause := false } 0 = none :=
    processInputActor_create spawnHooks _ _ 0 ActorState.EActive rfl rfl
  have h2 : ProcessInput spawnHooks demoFrame.input demoStart = none := by
    show (match processInputActor spawnHooks demoFrame.input.state
      { demoStart with mIsPause := false } 0 with
      | none => none
      | some app => processInputActors spawnHooks demoFrame.input.state [1] app) = none
    rw [h1]
  have h3 : runFrame spawnHooks demoFrame demoStart = none := by
    unfold runFrame
    rw [h2]
  refine ⟨⟨rfl, rfl, by decide, by decide⟩, rfl, by decide, h2, h3, ?_, by decide⟩
  show (if demoStart.mIsActive = true then
    (match runFrame spawnHooks demoFrame demoStart with
      | none => none
      | some app => RunLoop spawnHooks [] app) else some demoStart) = none
  rw [h3]
  rfl

/-- Insertion order where the frames complete (the part of C4 the code keeps).
Addresses are handed out in creation order, so `a < b` says that the creation
call of `a` precedes that of `b`.  For every run of frames that returns, from a
registry in creation order (the constructed one is), with actors created in
`UpdateGame` or in an update hook: after every frame the live sequence is
strictly increasing, so of two surviving actors the one created first comes
first; and the update hooks invoked by a frame are invoked in strictly
increasing order, every actor that was live before the frame being among them
when the frame is not paused. -/
theorem creation_order (hooks : Hooks) (frames : List Frame) (frame : Frame)
    (init mid final : Application) (hinit : CreationOrdered init)
    (hrun : RunLoop hooks frames init = some mid)
    (hframe : runFrame hooks frame mid = some final) :
    mid.mActors.Pairwise (· < ·) ∧ final.mActors.Pairwise (· < ·) ∧
    final.mPendingActors = [] ∧
    ∃ added, final.calls = mid.calls ++ added ∧
      (updatedActors added).Pairwise (· < ·) ∧
      (frame.input.state.spaceHeld = false →
        ∃ k, updatedActors added = mid.mActors ++ List.range' mid.heapNext k) := by
  have hmid := RunLoop_ordered hooks frames init mid hinit hrun
  obtain ⟨hfinal, added, h1, h2, h3⟩ := runFrame_ordered hooks frame mid final hmid hframe
  exact ⟨hmid.2.2.1, hfinal.2.2.1, hfinal.2.1, added, h1, h2, h3⟩

/-- One frame of the demo loop: the update hook of actor 0 creates actor 2 and
destroys actor 1, and the live sequence goes from `[0, 1]` to `[0, 2]`. -/
theorem creation_order_witness :
    CreationOrdered demoStart ∧
    RunLoop demoHooks [] demoStart = some demoStart ∧
    runFrame demoHooks demoFrame demoStart = some demoMid ∧
    demoStart.mActors = [0, 1] ∧ demoMid.mActors = [0, 2] ∧
    (demoStart.mActors.Pairwise (· < ·) ∧ demoMid.mActors.Pairwise (· < ·) ∧
      demoMid.mPendingActors = [] ∧
      ∃ added, demoMid.calls = demoStart.calls ++ added ∧
        (updatedActors added).Pairwise (· < ·) ∧
        (demoFrame.input.state.spaceHeld = false →
          ∃ k, updatedActors added = demoStart.mActors ++ List.range' demoStart.heapNext k)) :=
  ⟨⟨rfl, rfl, by decide, by decide⟩, rfl, rfl, by decide, by decide,
    creation_order demoHooks [] demoFrame demoStart demoStart demoMid
      ⟨rfl, rfl, by decide, by decide⟩ rfl rfl⟩

/-- C5. `DestroyActor` only marks: `mActors`, `mPendingActors` and
`mIsUpdatingActors` are unchanged for every argument; for a non-null actor the
heap changes at that actor only, whose state becomes `EDead`; for the null
pointer, and for an actor that is already `EDead`, the whole state is
unchanged. -/
theorem DestroyActor_only_marks (app : Application) (actor : Option ℕ) :
    (DestroyActor app actor).mActors = app.mActors ∧
    (DestroyActor app actor).mPendingActors = app.mPendingActors ∧
    (DestroyActor app actor).mIsUpdatingActors = app.mIsUpdatingActors ∧
    (∀ a, actor = some a →
      GetState (DestroyActor app actor) a = ActorState.EDead ∧
      (∀ b, b ≠ a → GetState (DestroyActor app actor) b = GetState app b) ∧
      DestroyActor app actor = { app with heap := Function.update app.heap a ActorState.EDead }) ∧
    (actor = none → DestroyActor app actor = app) ∧
    (∀ a, actor = some a → GetState app a = ActorState.EDead →
      DestroyActor app actor = app) := by
  refine ⟨?_, ?_, ?_, ?_, ?_, ?_⟩
  · cases actor <;> rfl
  · cases actor <;> rfl
  · cases actor <;> rfl
  · rintro a rfl
    refine ⟨by simp [DestroyActor, SetState, GetState], ?_, rfl⟩
    intro b hb
    simp [DestroyActor, SetState, GetState, Function.update_noteq hb]
  · rintro rfl; rfl
  · rintro a rfl hdead
    simp only [DestroyActor, SetState]
    rw [← hdead]
    simp [GetState, Function.update_eq_self]

/-- Witness of C5: destroying the already dead actor 1 changes nothing. -/
theorem DestroyActor_only_marks_witness :
    GetState (SetState demoApp 1 ActorState.EDead) 1 = ActorState.EDead ∧
    DestroyActor (SetState demoApp 1 ActorState.EDead) (some 1) =
      SetState demoApp 1 ActorState.EDead :=
  ⟨by simp [GetState, SetState],
    (DestroyActor_only_marks (SetState demoApp 1 ActorState.EDead) (some 1)).2.2.2.2.2 1 rfl
      (by simp [GetState, SetState])⟩

/-- C6. Delta-time clamp.  When the pacing loop exits on a reading `now` whose
elapsed time is at least 50 ms (50,000,000 ns), the delta time of the frame is
the clamp ceiling `0.05f` (the binary32 value `13421773 / 2 ^ 28`), and that is
the value passed to the time-of-day update, to `UpdateGame`, to every actor
update hook and to the sound mixer. -/
theorem deltaTime_clamp (hooks : Hooks) (clock : List ℕ) (app : Application) (now : ℕ)
    (hw : waitLoop app.mTicksCount clock = some now)
    (h50 : 50000000 ≤ elapsedNS now app.mTicksCount) (hp : app.mIsPause = false) :
    computeDeltaTime now app.mTicksCount = maxDeltaTime ∧
    maxDeltaTime = 13421773 / 2 ^ 28 ∧
    ∃ (app' : Application) (L P : List ℕ), UpdateFrame hooks clock app = some app' ∧
      app'.calls = app.calls ++
        ([Call.TimeOfDayUpdate maxDeltaTime, Call.UpdateGame maxDeltaTime, Call.PhysTest] ++
          L.map (fun a => Call.ActorUpdate a maxDeltaTime) ++
          P.map Call.ComputeWorldTransform ++
          [Call.SoundMixerUpdate maxDeltaTime]) := by
  have hdt := computeDeltaTime_clamp now app.mTicksCount h50
  obtain ⟨app', L, P, h1, -, h3⟩ := UpdateFrame_calls hooks clock app now hw hp
  rw [hdt] at h3
  exact ⟨hdt, by rw [maxDeltaTime_eq]; norm_num, app', L, P, h1, h3⟩

/-- Witness of C6: a stall of 60 ms since the previous tick. -/
theorem deltaTime_clamp_witness :
    waitLoop demoApp.mTicksCount [1000000, 60000000] = some 60000000 ∧
    50000000 ≤ elapsedNS 60000000 demoApp.mTicksCount ∧ demoApp.mIsPause = false ∧
    computeDeltaTime 60000000 demoApp.mTicksCount = maxDeltaTime :=
  ⟨by decide, by decide, rfl,
    (deltaTime_clamp demoHooks [1000000, 60000000] demoApp 60000000 (by decide) (by decide)
      rfl).1⟩

/-- C7. Pacing lower bound.  The reading `now` on which the pacing loop exits
has an elapsed time (unsigned 64-bit `now - mTicksCount`) of at least
16,000,000 ns, and the delta time computed from it is at least 0.016 s; a
frame that returns has stored that reading as the new tick timestamp and has
handed that delta time to its hooks; as long as every reading is below the
interval the frame has not returned (no hook has run, the timestamp is not
advanced), and as soon as one reading reaches it the frame returns. -/
theorem pacing_lower_bound (hooks : Hooks) (clock : List ℕ) (app : Application) :
    (∀ now, waitLoop app.mTicksCount clock = some now →
      16000000 ≤ elapsedNS now app.mTicksCount ∧
      (16 / 1000 : ℚ) ≤ computeDeltaTime now app.mTicksCount) ∧
    (∀ app', UpdateFrame hooks clock app = some app' →
      ∃ now, waitLoop app.mTicksCount clock = some now ∧ app'.mTicksCount = now ∧
        16000000 ≤ elapsedNS now app.mTicksCount ∧
        (app.mIsPause = false → ∃ L P : List ℕ, app'.calls = app.calls ++
          ([Call.TimeOfDayUpdate (computeDeltaTime now app.mTicksCount),
            Call.UpdateGame (computeDeltaTime now app.mTicksCount), Call.PhysTest] ++
            L.map (fun a => Call.ActorUpdate a (computeDeltaTime now app.mTicksCount)) ++
            P.map Call.ComputeWorldTransform ++
            [Call.SoundMixerUpdate (computeDeltaTime now app.mTicksCount)]))) ∧
    ((∀ t ∈ clock, elapsedNS t app.mTicksCount < 16000000) →
      UpdateFrame hooks clock app = none) ∧
    ((∃ t ∈ clock, 16000000 ≤ elapsedNS t app.mTicksCount) →
      ∃ app', UpdateFrame hooks clock app = some app') := by
  refine ⟨?_, ?_, ?_, ?_⟩
  · intro now hw
    have h := (waitLoop_some _ _ _ hw).1
    refine ⟨h, ?_⟩
    have := computeDeltaTime_ge now app.mTicksCount h
    norm_num at this ⊢
    exact this
  · intro app' h
    cases hw : waitLoop app.mTicksCount clock with
    | none => simp [UpdateFrame, hw] at h
    | some now =>
      refine ⟨now, rfl, ?_, (waitLoop_some _ _ _ hw).1, ?_⟩
      · cases hp : app.mIsPause with
        | true =>
          obtain ⟨now', hw', happ⟩ := UpdateFrame_paused hooks clock app app' h hp
          rw [hw] at hw'
          rw [happ]
          exact (Option.some.inj hw').symm
        | false =>
          obtain ⟨app'', L, P, h1, h2, -⟩ := UpdateFrame_calls hooks clock app now hw hp
          rw [h] at h1
          rw [Option.some.inj h1]
          exact h2
      · intro hp
        obtain ⟨app'', L, P, h1, -, h3⟩ := UpdateFrame_calls hooks clock app now hw hp
        rw [h] at h1
        rw [Option.some.inj h1]
        exact ⟨L, P, h3⟩
  · intro hall
    unfold UpdateFrame
    rw [waitLoop_none _ _ hall]
  · intro hex
    obtain ⟨now, hnow⟩ := waitLoop_isSome app.mTicksCount clock hex
    rw [UpdateFrame_eq hooks clock app now hnow]
    split_ifs
    · exact ⟨_, rfl⟩
    · exact ⟨_, rfl⟩

/-- Witness of C7: the readings 1 ms and 17 ms after the previous tick; the loop
exits on the second one. -/
theorem pacing_lower_bound_witness :
    waitLoop demoApp.mTicksCount [1000000, 17000000] = some 17000000 ∧
    16000000 ≤ elapsedNS 17000000 demoApp.mTicksCount ∧
    (16 / 1000 : ℚ) ≤ computeDeltaTime 17000000 demoApp.mTicksCount ∧
    UpdateFrame demoHooks [1000000] demoApp = none ∧
    ∃ app', UpdateFrame demoHooks [1000000, 17000000] demoApp = some app' :=
  ⟨by decide,
    ((pacing_lower_bound demoHooks [1000000, 17000000] demoApp).1 17000000 (by decide)).1,
    ((pacing_lower_bound demoHooks [1000000, 17000000] demoApp).1 17000000 (by decide)).2,
    (pacing_lower_bound demoHooks [1000000] demoApp).2.2.1 (by decide),
    (pacing_lower_bound demoHooks [1000000, 17000000] demoApp).2.2.2
      ⟨17000000, by simp, by decide⟩⟩

/-- C8 (counterexample).  With the constructor's target aspect `16.0f / 9.0f` a
user resize to 1179662 x 589831 is too wide; the code commands the width
1048589, while `round (h * t)` is 1048588, both for `t` the stored binary32
value and for `t = 16 / 9`.  When `t` is read as the stored binary32 value the
formula already fails at 8 x 5: the code keeps `(8, 5)`, the formula gives
`(8, 4)`. -/
theorem aspect_formula_counterexample :
    Application.new.mTargetAspect = aspect16by9 ∧
    (1179662 : ℚ) / 589831 > aspect16by9 ∧ (1179662 : ℚ) / 589831 > 16 / 9 ∧
    correctedSize aspect16by9 1179662 589831 = (1048589, 589831) ∧
    correctedSizeExact aspect16by9 1179662 589831 = (1048588, 589831) ∧
    correctedSizeExact (16 / 9) 1179662 589831 = (1048588, 589831) ∧
    (handleEvent { Application.new with mWindow := some 1 }
      (Event.WINDOW_RESIZED 1 1179662 589831, demoSDL)).calls =
        [Call.SDL_SetWindowSize 1048589 589831] ∧
    correctedSize aspect16by9 8 5 = (8, 5) ∧
    correctedSizeExact aspect16by9 8 5 = (8, 4) := by
  have hc : correctedSize aspect16by9 1179662 589831 = (1048589, 589831) :=
    correctedSize_1179662_589831
  have ht : Application.new.mTargetAspect = aspect16by9 := targetAspect_new
  refine ⟨ht, by unfold aspect16by9; norm_num, by norm_num, hc, ?_, ?_, ?_,
    correctedSize_8_5.1, correctedSize_8_5.2⟩
  · unfold correctedSizeExact aspect16by9
    rw [if_pos (by norm_num), Prod.mk.injEq, Int.floor_eq_iff]
    norm_num
  · unfold correctedSizeExact
    rw [if_pos (by norm_num), Prod.mk.injEq, Int.floor_eq_iff]
    norm_num
  · rw [handleEvent_resized demoSDL 1 1179662 589831 _ rfl rfl rfl rfl (by norm_num)
      (by norm_num)]
    have ht' : ({ Application.new with mWindow := some 1 } : Application).mTargetAspect
        = aspect16by9 := ht
    rw [ht', hc, if_neg (by decide)]
    rfl

/-- C8 (amended).  A user-issued resize to positive `(w, h)` with aspect lock on,
not fullscreen and the guard clear, for the stored binary32 target aspect `t`
and `q = fl (w / h)`, every operation rounded to binary32: if `q > t` the
corrected size is `(trunc (fl (fl (h * t) + 1/2)), h)`, if `q < t` it is
`(w, trunc (fl (fl (w / t) + 1/2)))`, if `q = t` it is `(w, h)`.  When the
corrected size is `(w, h)` no resize command is issued and only the physical
size is refreshed; otherwise exactly one resize command, carrying the
corrected size, is issued and the guard is set.  For the default target
`16.0f / 9.0f` and sizes up to 32768 the corrected size is the exact one for
`t = 16 / 9`, with `round x = ⌊x + 1/2⌋`. -/
theorem resize_correction (sdl : SDL) (id : ℕ) (w h : ℤ) (app : Application)
    (hwin : app.mWindow = some id) (hlock : app.mLockAspect = true)
    (hfs : app.mIsFullScreen = false) (hadj : app.mIsAdjustingSize = false)
    (hw : 0 < w) (hh : 0 < h) :
    (F32.div (F32.ofInt w) (F32.ofInt h) > app.mTargetAspect →
      correctedSize app.mTargetAspect w h =
        (F32.toInt (F32.add (F32.mul (F32.ofInt h) app.mTargetAspect) (1 / 2)), h)) ∧
    (F32.div (F32.ofInt w) (F32.ofInt h) < app.mTargetAspect →
      correctedSize app.mTargetAspect w h =
        (w, F32.toInt (F32.add (F32.div (F32.ofInt w) app.mTargetAspect) (1 / 2)))) ∧
    (F32.div (F32.ofInt w) (F32.ofInt h) = app.mTargetAspect →
      correctedSize app.mTargetAspect w h = (w, h)) ∧
    (correctedSize app.mTargetAspect w h = (w, h) →
      handleEvent app (Event.WINDOW_RESIZED id w h, sdl) =
        ({ app with mScreenWidth := sdl.GetWindowSizeInPixels.1
                    mScreenHeight := sdl.GetWindowSizeInPixels.2 }).call
          (Call.OnWindowResized sdl.GetWindowSizeInPixels.1 sdl.GetWindowSizeInPixels.2)) ∧
    (correctedSize app.mTargetAspect w h ≠ (w, h) →
      handleEvent app (Event.WINDOW_RESIZED id w h, sdl) =
        ({ app with mIsAdjustingSize := true }).call
          (Call.SDL_SetWindowSize (correctedSize app.mTargetAspect w h).1
            (correctedSize app.mTargetAspect w h).2)) ∧
    (app.mTargetAspect = aspect16by9 → w ≤ 32768 → h ≤ 32768 →
      correctedSize app.mTargetAspect w h = correctedSizeExact (16 / 9) w h) := by
  have hev := handleEvent_resized sdl id w h app hwin hlock hfs hadj hw hh
  refine ⟨?_, ?_, ?_, ?_, ?_, ?_⟩
  · intro hgt
    unfold correctedSize
    rw [if_pos hgt]
  · intro hlt
    unfold correctedSize
    rw [if_neg (not_lt.2 hlt.le), if_pos hlt]
  · intro heq
    unfold correctedSize
    rw [heq, if_neg (lt_irrefl _), if_neg (lt_irrefl _)]
  · intro hc
    rw [hev, if_pos hc]
    unfold HandleWindowResized
    rw [hwin]
  · intro hc
    rw [hev, if_neg hc]
  · intro ht hw' hh'
    rw [ht]
    exact correctedSize_16by9 w h hw hw' hh hh'

/-- Witness of C8 (amended): with target `16.0f / 9.0f` a user resize to
1000 x 500 is answered by one resize command to 889 x 500. -/
theorem resize_correction_witness :
    demoApp.mWindow = some 1 ∧ demoApp.mLockAspect = true ∧ demoApp.mIsFullScreen = false ∧
    demoApp.mIsAdjustingSize = false ∧ (0 : ℤ) < 1000 ∧ (0 : ℤ) < 500 ∧
    demoApp.mTargetAspect = aspect16by9 ∧
    correctedSize demoApp.mTargetAspect 1000 500 = (889, 500) ∧
    correctedSizeExact (16 / 9) 1000 500 = (889, 500) ∧
    handleEvent demoApp (Event.WINDOW_RESIZED 1 1000 500, demoSDL) =
      ({ demoApp with mIsAdjustingSize := true }).call (Call.SDL_SetWindowSize 889 500) := by
  have ht : demoApp.mTargetAspect = aspect16by9 := targetAspect_new
  have hc : correctedSize demoApp.mTargetAspect 1000 500 = (889, 500) := by
    rw [ht]; exact correctedSize_1000_500
  have h := resize_correction demoSDL 1 1000 500 demoApp rfl rfl rfl rfl (by norm_num)
    (by norm_num)
  refine ⟨rfl, rfl, rfl, rfl, by norm_num, by norm_num, ht, hc, ?_, ?_⟩
  · rw [← h.2.2.2.2.2 ht (by norm_num) (by norm_num), hc]
  · have := h.2.2.2.2.1 (by rw [hc]; decide)
    rw [hc] at this
    exact this

/-- C9 (counterexample).  With target aspect 16:9 the size 1286 x 900 is
corrected to 1286 x 723, and 1286 x 723 is corrected again, to 1285 x 723: a
user-issued notification carrying the corrected size issues a further resize
command. -/
theorem correction_not_idempotent :
    correctedSize aspect16by9 1286 900 = (1286, 723) ∧
    correctedSize aspect16by9 (correctedSize aspect16by9 1286 900).1
      (correctedSize aspect16by9 1286 900).2 = (1285, 723) ∧
    correctedSize aspect16by9 (correctedSize aspect16by9 1286 900).1
      (correctedSize aspect16by9 1286 900).2 ≠ correctedSize aspect16by9 1286 900 ∧
    (handleEvent demoApp (Event.WINDOW_RESIZED 1 1286 723, demoSDL)).calls =
      demoApp.calls ++ [Call.SDL_SetWindowSize 1285 723] := by
  have ht : demoApp.mTargetAspect = aspect16by9 := targetAspect_new
  have h1 := correctedSize_1286_900
  have h2 := correctedSize_1286_723
  refine ⟨h1, by rw [h1]; exact h2, by rw [h1, h2]; decide, ?_⟩
  rw [handleEvent_resized demoSDL 1 1286 723 demoApp rfl rfl rfl rfl (by norm_num)
    (by norm_num), ht, h2, if_neg (by decide)]
  rfl

/-- C9 (amended).  With target aspect 16:9 (`16.0f / 9.0f`), for every positive
requested size `(w, h)` up to 32768 that is at least as wide as 16:9 (the
correction, if any, adjusts the width), correcting the corrected size changes
nothing, and a user-issued resize notification carrying the corrected size
issues no resize command: it only refreshes the physical size. -/
theorem correction_idempotent_wide (w h : ℤ) (hw : 0 < w) (hw' : w ≤ 32768) (hh : 0 < h)
    (hh' : h ≤ 32768) (hwide : (16 / 9 : ℚ) ≤ (w : ℚ) / h) :
    correctedSize aspect16by9 (correctedSize aspect16by9 w h).1
      (correctedSize aspect16by9 w h).2 = correctedSize aspect16by9 w h ∧
    ∀ (sdl : SDL) (id : ℕ) (app : Application), app.mWindow = some id →
      app.mLockAspect = true → app.mIsFullScreen = false → app.mIsAdjustingSize = false →
      app.mTargetAspect = aspect16by9 →
      handleEvent app (Event.WINDOW_RESIZED id (correctedSize aspect16by9 w h).1
        (correctedSize aspect16by9 w h).2, sdl) =
        ({ app with mScreenWidth := sdl.GetWindowSizeInPixels.1
                    mScreenHeight := sdl.GetWindowSizeInPixels.2 }).call
          (Call.OnWindowResized sdl.GetWindowSizeInPixels.1 sdl.GetWindowSizeInPixels.2) := by
  have hhq : (0 : ℚ) < h := by exact_mod_cast hh
  have hwide' : 16 * h ≤ 9 * w := by
    rw [le_div_iff₀ hhq] at hwide
    have : ((16 * h : ℤ) : ℚ) ≤ ((9 * w : ℤ) : ℚ) := by push_cast; linarith
    exact_mod_cast this
  have hidem := correctedSize_wide_again w h hw hw' hh hh' hwide'
  refine ⟨hidem, ?_⟩
  intro sdl id app hwin hlock hfs hadj ht
  have hpos : 0 < (correctedSize aspect16by9 w h).1 ∧ 0 < (correctedSize aspect16by9 w h).2 := by
    rw [correctedSize_16by9 w h hw hw' hh hh', correctedSizeExact_16by9 w h hh]
    split_ifs with c1 c2
    · obtain ⟨n, hn⟩ : ∃ n : ℤ, ⌊(h : ℚ) * (16 / 9) + 1 / 2⌋ = n := ⟨_, rfl⟩
      obtain ⟨b1, b2⟩ := (floor_width_iff h n).1 hn
      rw [hn]
      exact ⟨by show 0 < n; omega, hh⟩
    · omega
    · exact ⟨hw, hh⟩
  have hc : correctedSize app.mTargetAspect (correctedSize aspect16by9 w h).1
      (correctedSize aspect16by9 w h).2 =
      ((correctedSize aspect16by9 w h).1, (correctedSize aspect16by9 w h).2) := by
    rw [ht]; exact hidem
  rw [handleEvent_resized sdl id _ _ app hwin hlock hfs hadj hpos.1 hpos.2, if_pos hc]
  unfold HandleWindowResized
  rw [hwin]

/-- Witness of C9 (amended): 1000 x 500 is corrected to 889 x 500, and
889 x 500 to itself. -/
theorem correction_idempotent_wide_witness :
    (0 : ℤ) < 1000 ∧ (1000 : ℤ) ≤ 32768 ∧ (0 : ℤ) < 500 ∧ (500 : ℤ) ≤ 32768 ∧
    (16 / 9 : ℚ) ≤ ((1000 : ℤ) : ℚ) / ((500 : ℤ) : ℚ) ∧
    correctedSize aspect16by9 1000 500 = (889, 500) ∧
    correctedSize aspect16by9 889 500 = (889, 500) ∧
    correctedSize aspect16by9 (correctedSize aspect16by9 1000 500).1
      (correctedSize aspect16by9 1000 500).2 = correctedSize aspect16by9 1000 500 :=
  ⟨by norm_num, by norm_num, by norm_num, by norm_num, by norm_num,
    correctedSize_1000_500, correctedSize_889_500,
    (correction_idempotent_wide 1000 500 (by norm_num) (by norm_num) (by norm_num)
      (by norm_num) (by norm_num)).1⟩

/-- C10. Fullscreen round-trip.  From a windowed state whose logical size is
`(W, H)` with `W > 0` and `H > 0`: `SetFullscreen(true)` succeeds, any
sequence of events other than key presses (resize and pixel-size
notifications in particular) is handled while fullscreen, then
`SetFullscreen(false)` succeeds.  The window is then commanded to exactly
`(W, H)` and re-centered, `mIsFullScreen` is false again, and the remembered
logical size is still `(W, H)`. -/
theorem fullscreen_round_trip (W H : ℤ) (hW : 0 < W) (hH : 0 < H) (app : Application)
    (id : ℕ) (sdlIn sdlOut : SDL) (events : List (Event × SDL))
    (hwin : app.mWindow = some id) (hfs : app.mIsFullScreen = false)
    (hsize : sdlIn.GetWindowSize = (W, H))
    (hin : sdlIn.SetWindowFullscreen = true) (hout : sdlOut.SetWindowFullscreen = true)
    (hev : ∀ ev ∈ events, ∀ scancode altHeld, ev.1 ≠ Event.KEY_DOWN scancode altHeld) :
    (SetFullscreen sdlIn true app).mIsFullScreen = true ∧
    (events.foldl handleEvent (SetFullscreen sdlIn true app)).mIsFullScreen = true ∧
    (SetFullscreen sdlOut false
      (events.foldl handleEvent (SetFullscreen sdlIn true app))).calls =
      (events.foldl handleEvent (SetFullscreen sdlIn true app)).calls ++
        [Call.SDL_SetWindowFullscreen false,
          Call.OnWindowResized sdlOut.GetWindowSizeInPixels.1 sdlOut.GetWindowSizeInPixels.2,
          Call.SDL_SetWindowSize W H,
          Call.SDL_SetWindowPositionCentered,
          Call.OnWindowResized sdlOut.GetWindowSizeInPixelsAgain.1
            sdlOut.GetWindowSizeInPixelsAgain.2] ∧
    (SetFullscreen sdlOut false
      (events.foldl handleEvent (SetFullscreen sdlIn true app))).mIsFullScreen = false ∧
    (SetFullscreen sdlOut false
      (events.foldl handleEvent (SetFullscreen sdlIn true app))).mWindowedWidth = W ∧
    (SetFullscreen sdlOut false
      (events.foldl handleEvent (SetFullscreen sdlIn true app))).mWindowedHeight = H := by
  have henter := SetFullscreen_enter sdlIn app id hwin hfs hin
  have e1 : (SetFullscreen sdlIn true app).mIsFullScreen = true := by rw [henter]
  have e2 : (SetFullscreen sdlIn true app).mWindow = some id := by rw [henter]; exact hwin
  have e3 : (SetFullscreen sdlIn true app).mWindowedWidth = W := by rw [henter, hsize]
  have e4 : (SetFullscreen sdlIn true app).mWindowedHeight = H := by rw [henter, hsize]
  obtain ⟨d1, d2, d3, d4⟩ := foldl_handleEvent_while_fullscreen events
    (SetFullscreen sdlIn true app) e1 hev
  generalize events.foldl handleEvent (SetFullscreen sdlIn true app) = during at *
  have hleave := SetFullscreen_leave sdlOut during id (d2.trans e2) d1 hout
    (by rw [d3, e3]; exact hW) (by rw [d4, e4]; exact hH)
  rw [hleave]
  refine ⟨e1, d1, ?_, rfl, d3.trans e3, d4.trans e4⟩
  simp only [d3, e3, d4, e4]

/-- Witness of C10: entering fullscreen from 1280 x 768, a resize and a
pixel-size notification while fullscreen, leaving fullscreen. -/
theorem fullscreen_round_trip_witness :
    (0 : ℤ) < 1280 ∧ (0 : ℤ) < 768 ∧ demoApp.mWindow = some 1 ∧
    demoApp.mIsFullScreen = false ∧ demoSDL.GetWindowSize = (1280, 768) ∧
    demoSDL.SetWindowFullscreen = true ∧
    (SetFullscreen demoSDL false
      ([(Event.WINDOW_RESIZED 1 1920 1080, demoSDL),
        (Event.WINDOW_PIXEL_SIZE_CHANGED 1, demoSDL)].foldl handleEvent
          (SetFullscreen demoSDL true demoApp))).calls =
      ([(Event.WINDOW_RESIZED 1 1920 1080, demoSDL),
        (Event.WINDOW_PIXEL_SIZE_CHANGED 1, demoSDL)].foldl handleEvent
          (SetFullscreen demoSDL true demoApp)).calls ++
        [Call.SDL_SetWindowFullscreen false,
          Call.OnWindowResized demoSDL.GetWindowSizeInPixels.1
            demoSDL.GetWindowSizeInPixels.2,
          Call.SDL_SetWindowSize 1280 768,
          Call.SDL_SetWindowPositionCentered,
          Call.OnWindowResized demoSDL.GetWindowSizeInPixelsAgain.1
            demoSDL.GetWindowSizeInPixelsAgain.2] :=
  ⟨by norm_num, by norm_num, rfl, rfl, rfl, rfl,
    (fullscreen_round_trip 1280 768 (by norm_num) (by norm_num) demoApp 1 demoSDL demoSDL
      [(Event.WINDOW_RESIZED 1 1920 1080, demoSDL),
        (Event.WINDOW_PIXEL_SIZE_CHANGED 1, demoSDL)] rfl rfl rfl rfl rfl
      (by
        intro ev hev scancode altHeld
        simp only [List.mem_cons, List.mem_singleton, List.not_mem_nil, or_false] at hev
        rcases hev with rfl | rfl <;> simp)).2.2.1⟩

/-- C11. `SetFullscreen` to the current state is a no-op: when `enable` equals
`mIsFullScreen` the call returns the state it was given, whether or not there
is a window.  So `mIsFullScreen`, the remembered logical size, the physical
size and the guard are unchanged and the call record is unchanged: no
fullscreen request, no resize command, no renderer notification. -/
theorem SetFullscreen_same_state (sdl : SDL) (enable : Bool) (app : Application)
    (h : enable = app.mIsFullScreen) :
    SetFullscreen sdl enable app = app := by
  subst h
  exact SetFullscreen_same sdl app

/-- Witness of C11: the windowed demo application asked to leave fullscreen. -/
theorem SetFullscreen_same_state_witness :
    false = demoApp.mIsFullScreen ∧ SetFullscreen demoSDL false demoApp = demoApp :=
  ⟨rfl, SetFullscreen_same_state demoSDL false demoApp rfl⟩

/-- C12. Ignored resize notifications: a logical-window-resized notification
that arrives while fullscreen is active, or while the aspect lock is off, or
with a width or a height that is not positive, leaves the whole state as it
was.  In particular `mIsAdjustingSize`, the physical size, the remembered
logical size and `mIsFullScreen` are unchanged and nothing is added to the call
record (no resize command, no renderer notification). -/
theorem resize_notification_ignored (sdl : SDL) (windowID : ℕ) (w h : ℤ) (app : Application)
    (hignore : app.mIsFullScreen = true ∨ app.mLockAspect = false ∨ w ≤ 0 ∨ h ≤ 0) :
    handleEvent app (Event.WINDOW_RESIZED windowID w h, sdl) = app := by
  simp only [handleEvent, onWindowResizedEvent]
  split_ifs <;> first | rfl | (exfalso; simp_all)

/-- Witness of C12: a notification with width 0 for the demo application. -/
theorem resize_notification_ignored_witness :
    (demoApp.mIsFullScreen = true ∨ demoApp.mLockAspect = false ∨ (0 : ℤ) ≤ 0 ∨ (500 : ℤ) ≤ 0) ∧
    handleEvent demoApp (Event.WINDOW_RESIZED 1 0 500, demoSDL) = demoApp :=
  ⟨Or.inr (Or.inr (Or.inl le_rfl)),
    resize_notification_ignored demoSDL 1 0 500 demoApp (Or.inr (Or.inr (Or.inl le_rfl)))⟩

/-- C13. A self-issued resize is confirmed, never re-corrected.  For a windowed
state with the aspect lock on and `mIsAdjustingSize` set, a resize notification
for the application's window with any positive size `(w, h)` sets the physical
size to the pixel size of the window, notifies the renderer once, clears
`mIsAdjustingSize` and changes nothing else: no resize command is issued.  And
for every state and every resize notification, if the handler issues a resize
command then that command is the only call of the handler and the physical
size is unchanged. -/
theorem self_issued_resize_confirmed (sdl : SDL) (id : ℕ) (w h : ℤ) (app : Application)
    (hwin : app.mWindow = some id) (hlock : app.mLockAspect = true)
    (hfs : app.mIsFullScreen = false) (hadj : app.mIsAdjustingSize = true)
    (hw : 0 < w) (hh : 0 < h) :
    handleEvent app (Event.WINDOW_RESIZED id w h, sdl) =
      { app with mScreenWidth := sdl.GetWindowSizeInPixels.1
                 mScreenHeight := sdl.GetWindowSizeInPixels.2
                 mIsAdjustingSize := false
                 calls := app.calls ++
                   [Call.OnWindowResized sdl.GetWindowSizeInPixels.1
                     sdl.GetWindowSizeInPixels.2] } ∧
    ∀ (app0 : Application) (sdl0 : SDL) (windowID : ℕ) (w0 h0 : ℤ),
      ∃ added, (handleEvent app0 (Event.WINDOW_RESIZED windowID w0 h0, sdl0)).calls =
          app0.calls ++ added ∧
        ∀ a b, Call.SDL_SetWindowSize a b ∈ added →
          added = [Call.SDL_SetWindowSize a b] ∧
          (handleEvent app0 (Event.WINDOW_RESIZED windowID w0 h0, sdl0)).mScreenWidth =
            app0.mScreenWidth ∧
          (handleEvent app0 (Event.WINDOW_RESIZED windowID w0 h0, sdl0)).mScreenHeight =
            app0.mScreenHeight :=
  ⟨onWindowResizedEvent_confirm sdl id w h app hwin hlock hfs hadj hw hh,
    fun app0 sdl0 windowID w0 h0 => onWindowResizedEvent_calls sdl0 windowID w0 h0 app0⟩

/-- Witness of C13: while the demo application waits for the confirmation of
its resize to 889 x 500, a notification with the size 1000 x 500, which is not
16:9, is taken as the confirmation. -/
theorem self_issued_resize_confirmed_witness :
    demoAdjusting.mWindow = some 1 ∧ demoAdjusting.mLockAspect = true ∧
    demoAdjusting.mIsFullScreen = false ∧ demoAdjusting.mIsAdjustingSize = true ∧
    handleEvent demoAdjusting (Event.WINDOW_RESIZED 1 1000 500, demoSDL) =
      { demoAdjusting with mScreenWidth := 1920
                           mScreenHeight := 1080
                           mIsAdjustingSize := false
                           calls := demoAdjusting.calls ++ [Call.OnWindowResized 1920 1080] } :=
  ⟨rfl, rfl, rfl, rfl,
    (self_issued_resize_confirmed demoSDL 1 1000 500 demoAdjusting rfl rfl rfl rfl
      (by norm_num) (by norm_num)).1⟩

/-- C14 (counterexample).  The guard is not always cleared by the first resize
notification that follows the request.  The demo application answers a resize
to 1000 x 500 by a resize command to 889 x 500 and sets the guard.  If the user
then switches to fullscreen with Alt+Enter, the resize notification that
follows (1920 x 1080) is ignored and the guard is still set; and if the first
notification that follows carries the width 0, it is ignored and the guard is
still set. -/
theorem guard_not_cleared_by_first_notification :
    handleEvent demoApp (Event.WINDOW_RESIZED 1 1000 500, demoSDL) = demoAdjusting ∧
    demoAdjusting.mIsAdjustingSize = true ∧
    demoAdjusting.calls = demoApp.calls ++ [Call.SDL_SetWindowSize 889 500] ∧
    (handleEvent (handleEvent demoAdjusting (Event.KEY_DOWN Scancode.RETURN true, demoSDL))
      (Event.WINDOW_RESIZED 1 1920 1080, demoSDL)).mIsAdjustingSize = true ∧
    (handleEvent demoAdjusting (Event.WINDOW_RESIZED 1 0 500, demoSDL)).mIsAdjustingSize = true :=
  ⟨demo_correction, rfl, rfl, by decide, by decide⟩

/-- C14 (amended).  Guard lifetime over the steps of the window adapter (polled
events, `SetFullscreen`, `ToggleFullscreen`), where a resize notification is
handled when it is for the application's window, has a positive size and
arrives while windowed with the aspect lock on.
(1) A step that is not a handled resize notification leaves the guard as it is.
(2) A handled resize notification that finds the guard set clears it, and its
only call is one renderer notification.
(3) A handled resize notification that finds the guard clear sets it exactly
when it issues a resize command, which is then its only call.
(4) Once the guard is set it stays set through every sequence of steps none of
which is a handled resize notification, and the first handled resize
notification after that clears it. -/
theorem guard_lifetime :
    (∀ (app : Application) (step : WindowStep), ¬ Handled app step →
      (windowStep app step).mIsAdjustingSize = app.mIsAdjustingSize) ∧
    (∀ (app : Application) (step : WindowStep), Handled app step →
      app.mIsAdjustingSize = true →
      (windowStep app step).mIsAdjustingSize = false ∧
      ∃ pixel : ℤ × ℤ, (windowStep app step).calls =
        app.calls ++ [Call.OnWindowResized pixel.1 pixel.2]) ∧
    (∀ (app : Application) (step : WindowStep), Handled app step →
      app.mIsAdjustingSize = false →
      ((windowStep app step).mIsAdjustingSize = true ↔
        ∃ a b, (windowStep app step).calls = app.calls ++ [Call.SDL_SetWindowSize a b])) ∧
    (∀ (app : Application) (steps : List WindowStep) (step : WindowStep),
      app.mIsAdjustingSize = true → NoneHandled app steps →
      Handled (steps.foldl windowStep app) step →
      (∀ n, ((steps.take n).foldl windowStep app).mIsAdjustingSize = true) ∧
      (windowStep (steps.foldl windowStep app) step).mIsAdjustingSize = false) := by
  refine ⟨windowStep_guard_of_not_Handled, ?_, ?_, ?_⟩
  · intro app step h hadj
    obtain ⟨windowID, w, h', sdl, -, h1, -⟩ := windowStep_of_Handled app step h
    exact ⟨(h1 hadj).1, sdl.GetWindowSizeInPixels, (h1 hadj).2⟩
  · intro app step h hadj
    obtain ⟨windowID, w, h', sdl, -, -, h2⟩ := windowStep_of_Handled app step h
    rcases h2 hadj with ⟨g, c⟩ | ⟨g, c⟩
    · constructor
      · intro g'
        rw [g] at g'
        exact absurd g' (by decide)
      · rintro ⟨a, b, c'⟩
        rw [c] at c'
        simp at c'
    · exact ⟨fun _ => ⟨_, _, c⟩, fun _ => g⟩
  · intro app steps step hadj hnone h
    constructor
    · intro n
      rw [foldl_windowStep_guard _ _ (NoneHandled_take steps app n hnone)]
      exact hadj
    · obtain ⟨windowID, w, h', sdl, -, h1, -⟩ := windowStep_of_Handled _ step h
      exact (h1 ((foldl_windowStep_guard steps app hnone).trans hadj)).1

/-- Witness of C14 (amended): after its resize command the demo application is
switched to fullscreen, receives the resize and pixel-size notifications of
the fullscreen window and is switched back; the guard stays set throughout, and
the resize notification that follows (1280 x 768, windowed) clears it. -/
theorem guard_lifetime_witness :
    demoAdjusting.mIsAdjustingSize = true ∧ NoneHandled demoAdjusting demoDetour ∧
    Handled (demoDetour.foldl windowStep demoAdjusting)
      (WindowStep.event (Event.WINDOW_RESIZED 1 1280 768, demoSDL)) ∧
    (∀ n, ((demoDetour.take n).foldl windowStep demoAdjusting).mIsAdjustingSize = true) ∧
    (windowStep (demoDetour.foldl windowStep demoAdjusting)
      (WindowStep.event (Event.WINDOW_RESIZED 1 1280 768, demoSDL))).mIsAdjustingSize = false :=
  ⟨rfl, by decide, by decide,
    guard_lifetime.2.2.2 demoAdjusting demoDetour
      (WindowStep.event (Event.WINDOW_RESIZED 1 1280 768, demoSDL)) rfl (by decide) (by decide)⟩

/-- C15 (counterexample).  A freshly constructed application is initialised
where there is no settings file and SDL, TTF, the window and the renderer
succeed: `LoadSettings` returns false, `Initialize` returns true, and the
logical window size it uses is 1600 x 900, not 1280 x 720; with content scale
1 the window is created with 1600 x 900. -/
theorem settings_fallback_counterexample :
    (LoadSettings demoEnv.settings Application.new).1 = false ∧
    (Initialize demoHooks demoEnv Application.new).1 = true ∧
    (Initialize demoHooks demoEnv Application.new).2.mWindowedWidth = 1600 ∧
    (Initialize demoHooks demoEnv Application.new).2.mWindowedHeight = 900 ∧
    Call.SDL_CreateWindow Application.new.mApplicationTitle 1600 900 ∈
      (Initialize demoHooks demoEnv Application.new).2.calls :=
  ⟨rfl, Initialize_demo⟩

/-- C15 (amended).  Settings fallback: when `LoadSettings` returns false (the
file is absent or does not parse) it has written no field, and `Initialize`
does not fail because of it: once `SDL_Init` and `TTF_Init` have succeeded it
returns true exactly when the window creation and the renderer initialisation
succeed.  The logical window size it uses is the screen size the application
already holds (1600 x 900 after construction), with 1280 in place of a width
that is not positive and 720 in place of a height that is not positive; the
window is created with that size scaled by the content scale. -/
theorem settings_fallback (hooks : Hooks) (env : InitEnv) (app : Application)
    (hload : (LoadSettings env.settings app).1 = false)
    (h1 : env.SDL_Init = true) (h2 : env.TTF_Init = true) :
    (LoadSettings env.settings app).2 = app ∧
    (Initialize hooks env app).1 = (env.SDL_CreateWindow.isSome && env.RendererInitialize) ∧
    (Initialize hooks env app).2.mWindowedWidth =
      (if app.mScreenWidth ≤ 0 then 1280 else app.mScreenWidth) ∧
    (Initialize hooks env app).2.mWindowedHeight =
      (if app.mScreenHeight ≤ 0 then 720 else app.mScreenHeight) ∧
    Call.SDL_CreateWindow app.mApplicationTitle
      (F32.toInt (F32.mul (F32.ofInt (if app.mScreenWidth ≤ 0 then 1280 else app.mScreenWidth))
        (contentScale env)))
      (F32.toInt (F32.mul (F32.ofInt (if app.mScreenHeight ≤ 0 then 720 else app.mScreenHeight))
        (contentScale env))) ∈ (Initialize hooks env app).2.calls := by
  obtain ⟨a, b, c⟩ := Initialize_logical_size hooks env app h1 h2
  have hload' : (LoadSettings env.settings
      ((app.call Call.SDL_Init).call Call.TTF_Init)).1 = false :=
    (LoadSettings_flag env.settings _ app).trans hload
  obtain ⟨d, e, f⟩ := applySettings_of_false env.settings
    ((app.call Call.SDL_Init).call Call.TTF_Init) hload'
  rw [d, e, f] at c
  refine ⟨LoadSettings_false env.settings app hload, ?_, a.trans d, b.trans e, c⟩
  rw [Initialize_result, h1, h2]
  rfl

/-- Witness of C15 (amended): a freshly constructed application, no settings
file. -/
theorem settings_fallback_witness :
    (LoadSettings demoEnv.settings Application.new).1 = false ∧
    demoEnv.SDL_Init = true ∧ demoEnv.TTF_Init = true ∧
    (Initialize demoHooks demoEnv Application.new).2.mWindowedWidth =
      (if Application.new.mScreenWidth ≤ 0 then 1280 else Application.new.mScreenWidth) ∧
    (Initialize demoHooks demoEnv Application.new).2.mWindowedHeight =
      (if Application.new.mScreenHeight ≤ 0 then 720 else Application.new.mScreenHeight) :=
  ⟨rfl, rfl, rfl,
    (settings_fallback demoHooks demoEnv Application.new rfl rfl rfl).2.2.1,
    (settings_fallback demoHooks demoEnv Application.new rfl rfl rfl).2.2.2.1⟩

/-- C16. No loop after a failed initialisation: if `Initialize` returns false
on a freshly constructed application, then `SDL_Init`, `TTF_Init`, the window
creation or the renderer initialisation has failed, the active flag is false,
the `InitGame` hook has not been called, and `RunLoop` returns at once with the
state unchanged, whatever frames are offered: no input, update or draw phase
runs. -/
theorem no_loop_after_failed_Initialize (hooks : Hooks) (env : InitEnv)
    (hfail : (Initialize hooks env Application.new).1 = false) :
    (env.SDL_Init = false ∨ env.TTF_Init = false ∨ env.SDL_CreateWindow = none ∨
      env.RendererInitialize = false) ∧
    (Initialize hooks env Application.new).2.mIsActive = false ∧
    Call.InitGame ∉ (Initialize hooks env Application.new).2.calls ∧
    ∀ (hooks' : Hooks) (frames : List Frame),
      RunLoop hooks' frames (Initialize hooks env Application.new).2 =
        some (Initialize hooks env Application.new).2 := by
  obtain ⟨hact, added, hcalls, hno⟩ := Initialize_failed hooks env Application.new hfail
  have hact' : (Initialize hooks env Application.new).2.mIsActive = false := hact
  refine ⟨?_, hact', ?_, fun hooks' frames => RunLoop_inactive hooks' frames _ hact'⟩
  · rw [Initialize_result] at hfail
    cases h1 : env.SDL_Init <;> cases h2 : env.TTF_Init <;>
      cases h3 : env.SDL_CreateWindow <;> cases h4 : env.RendererInitialize <;>
      simp [h1, h2, h3, h4] at hfail ⊢
  · rw [hcalls]
    simpa [Application.new] using hno

/-- Witness of C16: the renderer fails to initialise. -/
theorem no_loop_after_failed_Initialize_witness :
    (Initialize demoHooks { demoEnv with RendererInitialize := false } Application.new).1 = false ∧
    (Initialize demoHooks { demoEnv with RendererInitialize := false }
      Application.new).2.mIsActive = false ∧
    Call.InitGame ∉ (Initialize demoHooks { demoEnv with RendererInitialize := false }
      Application.new).2.calls :=
  ⟨by rw [Initialize_result]; rfl,
    (no_loop_after_failed_Initialize demoHooks { demoEnv with RendererInitialize := false }
      (by rw [Initialize_result]; rfl)).2.1,
    (no_loop_after_failed_Initialize demoHooks { demoEnv with RendererInitialize := false }
      (by rw [Initialize_result]; rfl)).2.2.1⟩

/-- C17. Paused frame: with `mIsPause` set, `UpdateFrame` returns exactly when
a clock reading reaches the 16 ms interval; the readings before the one it
returns on are below the interval, and the returned state is the given state
with `mTicksCount` set to that reading.  Nothing else changes: the call record
(no time-of-day, `UpdateGame`, physics, actor or sound-mixer update), the live
and pending sequences, `mIsUpdatingActors` and the state of every actor are
those of the given state, so a Dead actor stays in the live sequence. -/
theorem paused_frame (hooks : Hooks) (clock : List ℕ) (app : Application)
    (hp : app.mIsPause = true) :
    (∀ app', UpdateFrame hooks clock app = some app' →
      ∃ now earlier later, clock = earlier ++ now :: later ∧
        (∀ t ∈ earlier, elapsedNS t app.mTicksCount < frameDurationNS) ∧
        frameDurationNS ≤ elapsedNS now app.mTicksCount ∧
        app' = { app with mTicksCount := now }) ∧
    ((∃ now ∈ clock, frameDurationNS ≤ elapsedNS now app.mTicksCount) →
      ∃ app', UpdateFrame hooks clock app = some app') ∧
    ((∀ t ∈ clock, elapsedNS t app.mTicksCount < frameDurationNS) →
      UpdateFrame hooks clock app = none) := by
  refine ⟨?_, ?_, ?_⟩
  · intro app' h
    obtain ⟨now, hw, happ⟩ := UpdateFrame_paused hooks clock app app' h hp
    obtain ⟨h1, earlier, later, h2, h3⟩ := waitLoop_some app.mTicksCount clock now hw
    exact ⟨now, earlier, later, h2, h3, h1, happ⟩
  · intro h
    obtain ⟨now, hw⟩ := waitLoop_isSome app.mTicksCount clock h
    rw [UpdateFrame_eq hooks clock app now hw, if_pos hp]
    exact ⟨_, rfl⟩
  · intro h
    simp [UpdateFrame, waitLoop_none app.mTicksCount clock h]

/-- Witness of C17: the paused demo application and a clock that reads 5 ms and
then 16 ms. -/
theorem paused_frame_witness :
    demoPaused.mIsPause = true ∧
    (∀ app', UpdateFrame demoHooks [5000000, 16000000] demoPaused = some app' →
      ∃ now earlier later, [5000000, 16000000] = earlier ++ now :: later ∧
        (∀ t ∈ earlier, elapsedNS t demoPaused.mTicksCount < frameDurationNS) ∧
        frameDurationNS ≤ elapsedNS now demoPaused.mTicksCount ∧
        app' = { demoPaused with mTicksCount := now }) ∧
    ((∃ now ∈ [5000000, 16000000], frameDurationNS ≤ elapsedNS now demoPaused.mTicksCount) →
      ∃ app', UpdateFrame demoHooks [5000000, 16000000] demoPaused = some app') ∧
    ((∀ t ∈ [5000000, 16000000], elapsedNS t demoPaused.mTicksCount < frameDurationNS) →
      UpdateFrame demoHooks [5000000, 16000000] demoPaused = none) :=
  ⟨rfl, paused_frame demoHooks [5000000, 16000000] demoPaused rfl⟩

/-- The paused demo frame evaluated: the frame returns on the reading 16 ms
with the live sequence `[0, 1]` untouched. -/
theorem paused_frame_demo :
    (UpdateFrame demoHooks [5000000, 16000000] demoPaused).map
      (fun app => (app.mTicksCount, app.mActors, app.mPendingActors, app.calls.length)) =
    some (16000000, [0, 1], [], 0) := by
  decide

/-- C18. Shutdown order and idempotence.  The calls of `Shutdown` are, in this
order: the `ShutdownGame` hook, the unloading of renderer and assets, the
shutdown of input and renderer, the destruction of the window if there is one,
`TTF_Quit` and `SDL_Quit`.  The hook is the first thing that happens: its
registry calls are executed on the state that has only recorded the hook call
(live actors and window still in place), and `Shutdown` depends on the hook
only through what it does in that state.  After `Shutdown` the live sequence
is empty and the window handle is null.  A second `Shutdown` leaves the live
sequence empty and the window handle null and its calls are the same without
any window destruction. -/
theorem Shutdown_order_idempotent (hooks hooks' : Hooks) (app : Application) :
    (Shutdown hooks app).calls = app.calls ++
      ([Call.ShutdownGame, Call.RendererUnloadData, Call.AssetUnloadData,
        Call.InputShutdown, Call.RendererShutdown] ++
        (app.mWindow.map Call.SDL_DestroyWindow).toList ++ [Call.TTF_Quit, Call.SDL_Quit]) ∧
    (Shutdown hooks app).heap =
      (runCmds (app.call Call.ShutdownGame)
        (hooks.ShutdownGame (app.call Call.ShutdownGame))).heap ∧
    (hooks.ShutdownGame (app.call Call.ShutdownGame) =
        hooks'.ShutdownGame (app.call Call.ShutdownGame) →
      Shutdown hooks app = Shutdown hooks' app) ∧
    (Shutdown hooks app).mActors = [] ∧
    (Shutdown hooks app).mWindow = none ∧
    (Shutdown hooks' (Shutdown hooks app)).mActors = [] ∧
    (Shutdown hooks' (Shutdown hooks app)).mWindow = none ∧
    (Shutdown hooks' (Shutdown hooks app)).calls = (Shutdown hooks app).calls ++
      [Call.ShutdownGame, Call.RendererUnloadData, Call.AssetUnloadData,
        Call.InputShutdown, Call.RendererShutdown, Call.TTF_Quit, Call.SDL_Quit] := by
  have e1 := Shutdown_eq hooks app
  have e2 := Shutdown_eq hooks' (Shutdown hooks app)
  have hw : (Shutdown hooks app).mWindow = none := by rw [e1]
  refine ⟨by rw [e1], by rw [e1], ?_, by rw [e1], hw, by rw [e2], by rw [e2], ?_⟩
  · intro h
    rw [e1, Shutdown_eq hooks' app, h]
  · rw [e2, hw]
    simp

/-- Shutdown of the demo application evaluated, with a `ShutdownGame` hook that
creates an actor: the actor is created (the allocator advances) and then
cleared with the others, on the first and on the second call. -/
theorem Shutdown_demo :
    (Shutdown lateHooks demoApp).mActors = [] ∧
    (Shutdown lateHooks demoApp).heapNext = 3 ∧
    (Shutdown lateHooks (Shutdown lateHooks demoApp)).mActors = [] ∧
    (Shutdown lateHooks (Shutdown lateHooks demoApp)).heapNext = 4 := by
  decide

/-- The frame-boundary invariant where the behaviour is defined (the part of
C19 the code keeps).  The predicate `mIsUpdatingActors = false` and
`mPendingActors = []` holds after construction and is preserved by `AddActor`,
`CreateActor` and `DestroyActor` called between update passes, by a
`ProcessInput` that returns, and by `UpdateFrame` whether paused or not, for
every behaviour of the update hooks; `UpdateFrame` does return when the clock
reaches the interval, and `ProcessInput` does when no input hook creates an
actor.  An actor added between passes goes directly to the end of the live
sequence. -/
theorem frame_boundary_invariant :
    FrameBoundary Application.new ∧
    (∀ app actor, FrameBoundary app →
      FrameBoundary (AddActor app actor) ∧
      (AddActor app actor).mActors = app.mActors ++ [actor]) ∧
    (∀ app initial, FrameBoundary app →
      FrameBoundary (CreateActor app initial).1 ∧
      (CreateActor app initial).1.mActors = app.mActors ++ [(CreateActor app initial).2]) ∧
    (∀ app actor, FrameBoundary app → FrameBoundary (DestroyActor app actor)) ∧
    (∀ hooks input app pi, FrameBoundary app →
      ProcessInput hooks input app = some pi → FrameBoundary pi) ∧
    (∀ (hooks : Hooks) (input : Input) (app : Application), FrameBoundary app →
      (∀ a s, ∀ c ∈ hooks.ActorProcessInput a input.state s, ∃ p, c = Cmd.Destroy p) →
      ∃ pi, ProcessInput hooks input app = some pi ∧ FrameBoundary pi) ∧
    (∀ hooks clock app app', FrameBoundary app →
      UpdateFrame hooks clock app = some app' → FrameBoundary app') ∧
    (∀ hooks clock app, FrameBoundary app →
      (∃ now ∈ clock, frameDurationNS ≤ elapsedNS now app.mTicksCount) →
      ∃ app', UpdateFrame hooks clock app = some app' ∧ FrameBoundary app') := by
  have hUF : ∀ (hooks : Hooks) (clock : List ℕ) (app app' : Application), FrameBoundary app →
      UpdateFrame hooks clock app = some app' → FrameBoundary app' := by
    intro hooks clock app app' hb h
    cases hp : app.mIsPause with
    | true =>
      obtain ⟨now, -, happ⟩ := UpdateFrame_paused hooks clock app app' h hp
      rw [happ]
      exact hb
    | false =>
      obtain ⟨now, k, -, -, -, -, h1, h2, -⟩ := UpdateFrame_running hooks clock app app' h hp hb.1
      exact ⟨h2, h1⟩
  have hPI : ∀ (hooks : Hooks) (input : Input) (app pi : Application), FrameBoundary app →
      ProcessInput hooks input app = some pi → FrameBoundary pi := by
    intro hooks input app pi hb hr
    obtain ⟨h1, h2, -⟩ := ProcessInput_registry hooks input app pi hb.1 hr
    exact ⟨h2, h1.trans hb.2⟩
  refine ⟨⟨rfl, rfl⟩, ?_, ?_, ?_, hPI, ?_, hUF, ?_⟩
  · intro app actor hb
    simp [FrameBoundary, AddActor, hb.1, hb.2]
  · intro app initial hb
    simp [FrameBoundary, CreateActor, AddActor, hb.1, hb.2]
  · intro app actor hb
    cases actor with
    | none => exact hb
    | some a => exact hb
  · intro hooks input app hb hno
    obtain ⟨pi, hr⟩ := ProcessInput_defined hooks input app hno
    exact ⟨pi, hr, hPI hooks input app pi hb hr⟩
  · intro hooks clock app hb hc
    obtain ⟨now, hw⟩ := waitLoop_isSome app.mTicksCount clock hc
    have hsome : ∃ app', UpdateFrame hooks clock app = some app' := by
      rw [UpdateFrame_eq hooks clock app now hw]
      split_ifs <;> exact ⟨_, rfl⟩
    obtain ⟨app', h⟩ := hsome
    exact ⟨app', h, hUF hooks clock app app' hb h⟩

/-- C20 (counterexample).  With the default target `16.0f / 9.0f`, a binary32
value between 1/2 and 2: the request 8388621 x 4718599 is corrected to the
width 8388622, which is larger than the requested width and more than 1/2 away
from `h * t`; and the request 8 x 6 is corrected to the height 5, which is more
than 1/2 away from `w / t`. -/
theorem aspect_correction_enlarges :
    F32.round aspect16by9 = aspect16by9 ∧ 1 / 2 ≤ aspect16by9 ∧ aspect16by9 ≤ 2 ∧
    correctedSize aspect16by9 8388621 4718599 = (8388622, 4718599) ∧
    (8388621 : ℤ) < (correctedSize aspect16by9 8388621 4718599).1 ∧
    1 / 2 < |((correctedSize aspect16by9 8388621 4718599).1 : ℚ) - 4718599 * aspect16by9| ∧
    correctedSize aspect16by9 8 6 = (8, 5) ∧
    1 / 2 < |((correctedSize aspect16by9 8 6).2 : ℚ) - 8 / aspect16by9| := by
  refine ⟨round_aspect16by9, by unfold aspect16by9; norm_num, by unfold aspect16by9; norm_num,
    correctedSize_8388621_4718599, ?_, ?_, correctedSize_8_6, ?_⟩
  · rw [correctedSize_8388621_4718599]; norm_num
  · rw [correctedSize_8388621_4718599]
    unfold aspect16by9
    rw [lt_abs]
    left
    norm_num
  · rw [correctedSize_8_6]
    unfold aspect16by9
    rw [lt_abs]
    left
    norm_num

/-- C20 (amended).  For every requested size `(w, h)` with `0 < w, h ≤ 32768`
and every binary32 target aspect `t` with `1/2 ≤ t ≤ 2`, the corrected size
`(w', h')` satisfies `w' = w` or `h' = h`, `1 ≤ w' ≤ w` and `1 ≤ h' ≤ h`, and
the changed dimension is within `1/2 + 1/256` of its exact target:
`|w' - h * t| ≤ 1/2 + 1/256` when the width is changed and
`|h' - w / t| ≤ 1/2 + 1/256` when the height is changed. -/
theorem aspect_correction_bounds (t : F32) (w h : ℤ) (ht : F32.round t = t)
    (ht1 : 1 / 2 ≤ t) (ht2 : t ≤ 2)
    (hw : 0 < w) (hw' : w ≤ 32768) (hh : 0 < h) (hh' : h ≤ 32768) :
    ((correctedSize t w h).1 = w ∨ (correctedSize t w h).2 = h) ∧
    1 ≤ (correctedSize t w h).1 ∧ (correctedSize t w h).1 ≤ w ∧
    1 ≤ (correctedSize t w h).2 ∧ (correctedSize t w h).2 ≤ h ∧
    ((correctedSize t w h).1 ≠ w →
      |((correctedSize t w h).1 : ℚ) - h * t| ≤ 1 / 2 + 1 / 256) ∧
    ((correctedSize t w h).2 ≠ h →
      |((correctedSize t w h).2 : ℚ) - w / t| ≤ 1 / 2 + 1 / 256) := by
  have hwq : (0 : ℚ) < w := by exact_mod_cast hw
  have hhq : (0 : ℚ) < h := by exact_mod_cast hh
  have hw1 : (1 : ℚ) ≤ w := by exact_mod_cast hw
  have hh1 : (1 : ℚ) ≤ h := by exact_mod_cast hh
  have ht0 : (0 : ℚ) < t := by linarith
  have eW := ofInt_exact w hw hw'
  have eH := ofInt_exact h hh hh'
  unfold correctedSize
  simp only [eW, eH]
  split_ifs with hgt hlt
  · -- the aspect is above the target: the width is corrected
    have hlt' : (h : ℚ) * t < w := by
      by_contra hc
      have h1 : (w : ℚ) / h ≤ t := by
        rw [div_le_iff₀ hhq]; linarith
      have h2 := F32.round_mono (div_pos hwq hhq).le h1
      rw [ht] at h2
      exact absurd hgt (not_lt.2 h2)
    have hb := round_half_bounds ((h : ℚ) * t) w hw' (by nlinarith) hlt'
    exact ⟨Or.inr rfl, hb.1, hb.2.1, hh, le_refl h, fun _ => hb.2.2, fun hne => absurd rfl hne⟩
  · -- the aspect is below the target: the height is corrected
    have hlt' : (w : ℚ) / t < h := by
      by_contra hc
      have h1 : t ≤ (w : ℚ) / h := by
        rw [le_div_iff₀ hhq]
        have := (le_div_iff₀ ht0).1 (not_lt.1 hc)
        linarith
      have h2 := F32.round_mono ht0.le h1
      rw [ht] at h2
      exact absurd hlt (not_lt.2 h2)
    have hx0 : (1 / 2 : ℚ) ≤ (w : ℚ) / t := by
      rw [le_div_iff₀ ht0]; linarith
    have hb := round_half_bounds ((w : ℚ) / t) h hh' hx0 hlt'
    exact ⟨Or.inl rfl, hw, le_refl w, hb.1, hb.2.1, fun hne => absurd rfl hne, fun _ => hb.2.2⟩
  · exact ⟨Or.inl rfl, hw, le_refl w, hh, le_refl h, fun hne => absurd rfl hne,
      fun hne => absurd rfl hne⟩

/-- Witness of C20 (amended): the default target and the request 1000 x 500,
corrected to 889 x 500. -/
theorem aspect_correction_bounds_witness :
    F32.round aspect16by9 = aspect16by9 ∧ 1 / 2 ≤ aspect16by9 ∧ aspect16by9 ≤ 2 ∧
    correctedSize aspect16by9 1000 500 = (889, 500) ∧
    (1 : ℤ) ≤ (correctedSize aspect16by9 1000 500).1 ∧
    (correctedSize aspect16by9 1000 500).1 ≤ 1000 ∧
    ((correctedSize aspect16by9 1000 500).1 ≠ 1000 →
      |((correctedSize aspect16by9 1000 500).1 : ℚ) - (500 : ℤ) * aspect16by9| ≤
        1 / 2 + 1 / 256) :=
  ⟨round_aspect16by9, by unfold aspect16by9; norm_num, by unfold aspect16by9; norm_num,
    correctedSize_1000_500,
    (aspect_correction_bounds aspect16by9 1000 500 round_aspect16by9
      (by unfold aspect16by9; norm_num) (by unfold aspect16by9; norm_num) (by norm_num)
      (by norm_num) (by norm_num) (by norm_num)).2.1,
    (aspect_correction_bounds aspect16by9 1000 500 round_aspect16by9
      (by unfold aspect16by9; norm_num) (by unfold aspect16by9; norm_num) (by norm_num)
      (by norm_num) (by norm_num) (by norm_num)).2.2.1,
    (aspect_correction_bounds aspect16by9 1000 500 round_aspect16by9
      (by unfold aspect16by9; norm_num) (by unfold aspect16by9; norm_num) (by norm_num)
      (by norm_num) (by norm_num) (by norm_num)).2.2.2.2.2.1⟩

end toy
